import Mathlib

/-!
# dosiero: a read-only inspector for V5 UNIX filesystem images

Shallow embedding of `src/src/dosiero.c` and theorems about it.

Conventions of the embedding

* A byte is a natural number.  A 512-byte sector buffer is a function from the
  byte offset to the byte stored there.
* The open image (`FILE *disk`) is seen through `read_sector` only, so it is a
  map from sector numbers to sector buffers; `none` is a failed `fseek`/`fread`.
* A C string is the list of its bytes before the terminating NUL.
* `uint16_t`/`uint32_t` values are natural numbers; the places where the C code
  narrows a value carry an explicit `%`.
* The in-memory inode table `inodes[]` is a function from the index to the
  record; `inode_count` is passed next to it as in the C code.
* Parameters a C function receives but never reads (`inode_start_sector`, and
  `inodes`/`inode_count` in `check_sector`) are left out.
* `malloc` and `fwrite` are taken to succeed.
-/

namespace Dosiero

/-- A 512-byte sector buffer: the byte at each offset. -/
abbrev Sector := Nat → Nat

/-- The open disk image as `read_sector` sees it. -/
abbrev Disk := Nat → Option Sector

/-- The subset of the on-disk inode that the program decodes (`idisk_t`). -/
structure idisk_t where
  i_mode : Nat
  i_nlink : Nat
  i_uid : Nat
  i_gid : Nat
  i_size0 : Nat
  i_size1 : Nat
  i_addr : Nat → Nat

/-- The byte of '/'. -/
def SLASH : Nat := 47

/-- The byte of '.'. -/
def DOT : Nat := 46

/-- `le16`: little-endian 16-bit value at offset `off` of a buffer. -/
def le16 (p : Sector) (off : Nat) : Nat :=
  (p off ||| (p (off + 1) <<< 8)) % 65536

/-- `read_sector`: seek to `sector * 512` and read exactly 512 bytes. -/
def read_sector (disk : Disk) (sector : Nat) : Option Sector :=
  disk sector

/-- `inode_size_bytes`: the 24-bit size `(i_size0 << 16) | (i_size1 & 0xFFFF)`. -/
def inode_size_bytes (ino : idisk_t) : Nat :=
  (((ino.i_size0 <<< 16) % 4294967296) ||| (ino.i_size1 &&& 0xFFFF)) % 4294967296

/-- The 14 bytes of the name field of directory slot `e` (`&ent[2]`, 14 bytes). -/
def entry_name_field (secbuf : Sector) (e : Nat) : List Nat :=
  (List.range 14).map (fun j => secbuf (e * 16 + 2 + j))

/-- The C string held by a byte buffer that is followed by a NUL: its bytes up
to the first NUL. -/
def cstr_of_bytes (bytes : List Nat) : List Nat :=
  bytes.takeWhile (fun b => b != 0)

/-- The local `nm[15]` after `memset(nm,0,15); memcpy(nm,&ent[2],14)`, read as a
C string. -/
def entry_nm (secbuf : Sector) (e : Nat) : List Nat :=
  cstr_of_bytes (entry_name_field secbuf e)

/-- The i-number of directory slot `e` (`le16(ent)`). -/
def entry_ino (secbuf : Sector) (e : Nat) : Nat :=
  le16 secbuf (e * 16)

/-- `strncmp(s1, s2, n)`: the difference of the first pair of differing bytes
among the first `n`; the comparison stops after a NUL.  The end of a list is
the terminating NUL. -/
def strncmp : List Nat → List Nat → Nat → Int
  | _, _, 0 => 0
  | [], [], _ + 1 => 0
  | [], b :: _, _ + 1 => 0 - (b : Int)
  | a :: _, [], _ + 1 => (a : Int)
  | a :: s1, b :: s2, n + 1 =>
    if a ≠ b then (a : Int) - (b : Int)
    else if a = 0 then 0
    else strncmp s1 s2 n

/-- `strcmp(s1, s2) == 0` on C strings. -/
def strcmp_eq (s1 s2 : List Nat) : Bool :=
  s1 == s2

/-- The body of the slot loop of `check_sector` for slot `e`: the i-number of
the slot when it is in use and its name compares equal, else 0 (`continue`). -/
def check_entry (secbuf : Sector) (name : List Nat) (e : Nat) : Nat :=
  if entry_ino secbuf e = 0 then 0
  else if strncmp (entry_nm secbuf e) name 14 = 0 then entry_ino secbuf e
  else 0

/-- A loop `for (i ...) { r = body(i); if (r) return r; } return 0;` over the
index values in `is`. -/
def first_hit (body : Nat → Nat) : List Nat → Nat
  | [] => 0
  | i :: is => if body i ≠ 0 then body i else first_hit body is

/-- `check_sector`: look `name` up in the 32 slots of data sector `sec`. -/
def check_sector (disk : Disk) (sec : Nat) (name : List Nat)
    (data_start data_end : Nat) : Nat :=
  if sec = 0 then 0
  else if sec < data_start ∨ sec > data_end then 0
  else match read_sector disk sec with
    | none => 0
    | some secbuf => first_hit (check_entry secbuf name) (List.range 32)

/-- Mask of the type field of `i_mode`. -/
def IFMT : Nat := 0o60000

/-- Type value of a directory. -/
def IFDIR : Nat := 0o40000

/-- Type value of a character special file. -/
def IFCHR : Nat := 0o20000

/-- Type value of a block special file. -/
def IFBLK : Nat := 0o60000

/-- The large-file bit of `i_mode`. -/
def ILARG : Nat := 0o10000

/-- The body of the indirect loop of `find_in_dir` for `i_addr[k]`. -/
def find_in_indirect (disk : Disk) (indir : Nat) (name : List Nat)
    (data_start data_end : Nat) : Nat :=
  if indir = 0 then 0
  else if indir < data_start ∨ indir > data_end then 0
  else match read_sector disk indir with
    | none => 0
    | some indirbuf =>
      first_hit (fun e => check_sector disk (le16 indirbuf (e * 2)) name data_start data_end)
        (List.range 256)

/-- `find_in_dir`: search directory `dirino` for `name`; the i-number of the
first matching slot, or 0. -/
def find_in_dir (disk : Disk) (inodes : Nat → idisk_t) (inode_count : Nat)
    (dirino : Nat) (name : List Nat) (data_start data_end : Nat) : Nat :=
  if dirino < 1 ∨ dirino > inode_count then 0
  else
    let din := inodes dirino
    if din.i_mode &&& IFMT ≠ IFDIR then 0
    else if din.i_mode &&& ILARG = 0 then
      first_hit (fun k => check_sector disk (din.i_addr k) name data_start data_end)
        (List.range 8)
    else
      first_hit (fun k => find_in_indirect disk (din.i_addr k) name data_start data_end)
        (List.range 8)

/-- `strtok_r(s, "/", &save)`: skip leading '/' bytes; when nothing is left
there is no token, else the token runs to the next '/' (which is overwritten by
NUL) and `save` is what follows it. -/
def strtok_r (s : List Nat) : Option (List Nat × List Nat) :=
  match s.dropWhile (fun b => b == SLASH) with
  | [] => none
  | c :: rest =>
    some ((c :: rest).takeWhile (fun b => b != SLASH),
          ((c :: rest).dropWhile (fun b => b != SLASH)).drop 1)

/-- The `while (comp)` loop of `resolve_pathname`.  `fuel` bounds the number of
iterations; `none` is returned only when it runs out. -/
def resolve_loop (disk : Disk) (inodes : Nat → idisk_t) (inode_count : Nat)
    (data_start data_end : Nat) :
    Nat → Option (List Nat × List Nat) → Nat → Option Nat
  | _, none, cur => some cur
  | 0, some _, _ => none
  | fuel + 1, some (comp, save), cur =>
    let next := find_in_dir disk inodes inode_count cur comp data_start data_end
    if next = 0 then some 0
    else resolve_loop disk inodes inode_count data_start data_end fuel (strtok_r save) next

/-- `resolve_pathname`: the i-number of an absolute pathname, 0 when it is not
found.  The path is copied into `tmp[4096]` with `strncpy(tmp, path, 4095)`. -/
def resolve_pathname (disk : Disk) (inodes : Nat → idisk_t) (inode_count : Nat)
    (path : List Nat) (data_start data_end : Nat) : Option Nat :=
  if path.head? ≠ some SLASH then some 0
  else if strcmp_eq path [SLASH] then some 1
  else
    let tmp := path.take 4095
    resolve_loop disk inodes inode_count data_start data_end (tmp.length + 1) (strtok_r tmp) 1

/-! ## Reference definitions that follow the specification's words -/

/-- The specification's split: split on '/', discard empty components. -/
def spec_components (p : List Nat) : List (List Nat) :=
  (p.splitOn SLASH).filter (fun c => !c.isEmpty)

/-- The specification's walk: replace `current` by the lookup of each component
in turn; 0 as soon as a lookup returns 0. -/
def spec_walk (disk : Disk) (inodes : Nat → idisk_t) (inode_count : Nat)
    (data_start data_end : Nat) : List (List Nat) → Nat → Nat
  | [], current => current
  | c :: cs, current =>
    if find_in_dir disk inodes inode_count current c data_start data_end = 0 then 0
    else spec_walk disk inodes inode_count data_start data_end cs
      (find_in_dir disk inodes inode_count current c data_start data_end)

/-! ## A small sample image

Sixteen inodes (`isize = 1`), data area = sectors 3..9.

* inode 1: the root directory, one block (sector 3): `.`, `..`, `a` (2), `f` (3),
  `e` (4)
* inode 2: directory `/a`, one block (sector 4): `.`, `..`
* inode 3: regular file `/f`, 5 bytes, one block (sector 5)
* inode 4: directory `/e` without any block
* inode 5: regular file of 7 bytes without any block (not linked anywhere)
-/

/-- A directory sector holding the given `(i-number, name)` slots, zero filled. -/
def dir_sector (entries : List (Nat × List Nat)) : Sector := fun off =>
  match entries.get? (off / 16) with
  | none => 0
  | some (ino, nm) =>
    if off % 16 = 0 then ino % 256
    else if off % 16 = 1 then ino / 256
    else nm.getD (off % 16 - 2) 0

/-- A data sector holding the given bytes, zero filled. -/
def data_sector (bytes : List Nat) : Sector := fun off => bytes.getD off 0

/-- The sectors of the sample image. -/
def sample_disk : Disk := fun sec =>
  if sec = 3 then some (dir_sector [(1, [DOT]), (1, [DOT, DOT]), (2, [97]), (3, [102]), (4, [101])])
  else if sec = 4 then some (dir_sector [(2, [DOT]), (1, [DOT, DOT])])
  else if sec = 5 then some (data_sector [104, 101, 108, 108, 111])
  else if sec < 10 then some (data_sector [])
  else none

/-- An inode with the given mode, size and first block pointer. -/
def mk_inode (mode size1 addr0 : Nat) : idisk_t :=
  { i_mode := mode, i_nlink := 1, i_uid := 0, i_gid := 0, i_size0 := 0, i_size1 := size1,
    i_addr := fun k => if k = 0 then addr0 else 0 }

/-- The inode table of the sample image. -/
def sample_inodes : Nat → idisk_t := fun i =>
  if i = 1 then mk_inode 0o140000 80 3
  else if i = 2 then mk_inode 0o140000 32 4
  else if i = 3 then mk_inode 0o100000 5 5
  else if i = 4 then mk_inode 0o140000 0 0
  else if i = 5 then mk_inode 0o100000 7 0
  else mk_inode 0 0 0

/-- The specification's query field: the query truncated to 14 bytes and
NUL-padded to 14 bytes. -/
def spec_name14 (name : List Nat) : List Nat :=
  name.take 14 ++ List.replicate (14 - (name.take 14).length) 0

/-- A name field is NUL-padded when no non-NUL byte follows its first NUL. -/
def nul_padded (field : List Nat) : Bool :=
  (field.dropWhile (fun b => b != 0)).all (fun b => b == 0)

/-! ## Reverse resolution (`canonical_path`) -/

/-- The slot loop `for (e = 0; e < 32; e++)` of a directory scan that leaves at
the first slot for which `body` yields a value (`break`). -/
def scan_slots {α : Type} (body : Sector → Nat → Option α) (secbuf : Sector) : Option α :=
  (List.range 32).findSome? (body secbuf)

/-- One data sector of a directory scan: a zero, out-of-range or unreadable
sector is skipped (`continue`). -/
def scan_data {α : Type} (disk : Disk) (body : Sector → Nat → Option α)
    (sec data_start data_end : Nat) : Option α :=
  if sec = 0 then none
  else if sec < data_start ∨ sec > data_end then none
  else match read_sector disk sec with
    | none => none
    | some secbuf => scan_slots body secbuf

/-- One indirect sector of a directory scan: its 256 entries in order. -/
def scan_indirect {α : Type} (disk : Disk) (body : Sector → Nat → Option α)
    (indir data_start data_end : Nat) : Option α :=
  if indir = 0 then none
  else if indir < data_start ∨ indir > data_end then none
  else match read_sector disk indir with
    | none => none
    | some indirbuf =>
      (List.range 256).findSome?
        (fun e => scan_data disk body (le16 indirbuf (e * 2)) data_start data_end)

/-- The block loops of a directory scan in `canonical_path`: `i_addr[0..7]`
directly, or through indirect sectors when the large bit is set; the scan
stops at the first slot for which `body` yields a value. -/
def scan_dir {α : Type} (disk : Disk) (body : Sector → Nat → Option α) (din : idisk_t)
    (data_start data_end : Nat) : Option α :=
  if din.i_mode &&& ILARG = 0 then
    (List.range 8).findSome? (fun k => scan_data disk body (din.i_addr k) data_start data_end)
  else
    (List.range 8).findSome? (fun k => scan_indirect disk body (din.i_addr k) data_start data_end)

/-- Slot test of the `..` search: a used slot whose name is "..". -/
def dotdot_slot (secbuf : Sector) (e : Nat) : Option Nat :=
  if entry_ino secbuf e = 0 then none
  else if strcmp_eq (entry_nm secbuf e) [DOT, DOT] then some (entry_ino secbuf e)
  else none

/-- Slot test of the forward-name search: a slot whose i-number is `cur` and
whose name is neither "." nor ".."; the value is the name copied by
`strncpy(foundnm, nm, 14)`. -/
def name_slot (cur : Nat) (secbuf : Sector) (e : Nat) : Option (List Nat) :=
  if entry_ino secbuf e ≠ cur then none
  else if strcmp_eq (entry_nm secbuf e) [DOT] || strcmp_eq (entry_nm secbuf e) [DOT, DOT] then none
  else some (entry_nm secbuf e)

/-- How a call of a pointer-returning C function ends: it returns NULL, it
returns a value, or it reads or writes outside an array (undefined behaviour). -/
inductive Outcome (α : Type) where
  | null : Outcome α
  | undefined : Outcome α
  | ok (val : α) : Outcome α
  deriving DecidableEq

/-- The `while (cur != 1)` loop of `canonical_path`.  `slots` is the number of
free elements left in `components[]` (allocated with `inode_count + 2`
elements); `comps` holds the names pushed so far, in push order.  Reading
`inodes[parent]` with `parent > inode_count` and pushing into a full
`components[]` are outside the arrays. -/
def canonical_walk (disk : Disk) (inodes : Nat → idisk_t) (inode_count : Nat)
    (data_start data_end : Nat) : Nat → Nat → List (List Nat) → Outcome (List (List Nat))
  | slots, cur, comps =>
    if cur = 1 then Outcome.ok comps
    else match scan_dir disk dotdot_slot (inodes cur) data_start data_end with
      | none => Outcome.null
      | some parent =>
        if parent = 0 then Outcome.null
        else if parent > inode_count then Outcome.undefined
        else match scan_dir disk (name_slot cur) (inodes parent) data_start data_end with
          | none => Outcome.null
          | some nm =>
            match slots with
            | 0 => Outcome.undefined
            | s + 1 =>
              canonical_walk disk inodes inode_count data_start data_end s parent (comps ++ [nm])

/-- The assembly loop of `canonical_path`: starting from "/", for
`i = compc-1 .. 0` append "/" when `strlen(out) > 1` and then `components[i]`. -/
def assemble_loop (comps : List (List Nat)) : List Nat :=
  comps.reverse.foldl
    (fun out c => (if out.length > 1 then out ++ [SLASH] else out) ++ c) [SLASH]

/-- The path assembled from the pushed components: the assembly loop, then a
'/' is appended when the string does not already end in '/'. -/
def assemble (comps : List (List Nat)) : List Nat :=
  if (assemble_loop comps).length = 0 ∨ (assemble_loop comps).getLast? ≠ some SLASH then
    assemble_loop comps ++ [SLASH]
  else assemble_loop comps

/-- `canonical_path`: the canonical absolute pathname of directory
`target_inode`. -/
def canonical_path (disk : Disk) (inodes : Nat → idisk_t) (inode_count : Nat)
    (target_inode : Nat) (data_start data_end : Nat) : Outcome (List Nat) :=
  if target_inode < 1 ∨ target_inode > inode_count then Outcome.null
  else if target_inode = 1 then Outcome.ok ([SLASH] ++ [SLASH])
  else match canonical_walk disk inodes inode_count data_start data_end
      (inode_count + 2) target_inode [] with
    | Outcome.null => Outcome.null
    | Outcome.undefined => Outcome.undefined
    | Outcome.ok comps => Outcome.ok (assemble comps)

/-- The specification's canonical form of the components `c1 .. cn` (root to
target): "/" ++ c1 ++ "/" ++ ... ++ cn ++ "/". -/
def spec_canonical (names : List (List Nat)) : List Nat :=
  [SLASH] ++ (names.map (fun c => c ++ [SLASH])).flatten

/-- A well-formed ancestor chain: `UpChain cur names` holds when walking `..`
from directory `cur` reaches the root, every directory on the way has a `..`
slot, its parent has a forward slot for it whose name is non-empty, has no '/'
and, looked up in the parent, yields the child again; `names` are those names
from the root down to `cur`. -/
inductive UpChain (disk : Disk) (inodes : Nat → idisk_t) (inode_count : Nat)
    (data_start data_end : Nat) : Nat → List (List Nat) → Prop where
  | root : UpChain disk inodes inode_count data_start data_end 1 []
  | step (cur parent : Nat) (nm : List Nat) (names : List (List Nat)) :
      cur ≠ 1 →
      scan_dir disk dotdot_slot (inodes cur) data_start data_end = some parent →
      scan_dir disk (name_slot cur) (inodes parent) data_start data_end = some nm →
      find_in_dir disk inodes inode_count parent nm data_start data_end = cur →
      nm ≠ [] → SLASH ∉ nm →
      UpChain disk inodes inode_count data_start data_end parent names →
      UpChain disk inodes inode_count data_start data_end cur (names ++ [nm])

/-! ## A sample image with malformed names

Sixteen inodes, data area = sectors 3..9.  The root (sector 3) holds `x/` (2)
and a slot with the empty name (3); directory 3 (sector 5) holds `y` (4).
-/

/-- The sectors of the image with malformed names. -/
def odd_disk : Disk := fun sec =>
  if sec = 3 then some (dir_sector [(1, [DOT]), (1, [DOT, DOT]), (2, [120, SLASH]), (3, [])])
  else if sec = 4 then some (dir_sector [(2, [DOT]), (1, [DOT, DOT])])
  else if sec = 5 then some (dir_sector [(3, [DOT]), (1, [DOT, DOT]), (4, [121])])
  else if sec = 6 then some (dir_sector [(4, [DOT]), (3, [DOT, DOT])])
  else none

/-- The inode table of the image with malformed names. -/
def odd_inodes : Nat → idisk_t := fun i =>
  if i = 1 then mk_inode 0o140000 64 3
  else if i = 2 then mk_inode 0o140000 32 4
  else if i = 3 then mk_inode 0o140000 48 5
  else if i = 4 then mk_inode 0o140000 32 6
  else mk_inode 0 0 0

/-! ## Extraction (`extract_file_to_stdout`) -/

/-- The running state of an extraction: the counter `written` and the bytes
written to standard output so far. -/
structure XState where
  written : Nat
  out : List Nat

/-- How a loop of the extraction ends: it runs on (`ok`), or the function
returns -1 from inside it (`fail`); both carry the state reached. -/
inductive XStep where
  | ok (st : XState) : XStep
  | fail (st : XState) : XStep

/-- A loop `for (i ...; i < n && written < sz; i++)` whose body may return -1. -/
def extract_loop (body : Nat → XState → XStep) (sz : Nat) : List Nat → XState → XStep
  | [], st => XStep.ok st
  | i :: is, st =>
    if st.written < sz then
      match body i st with
      | XStep.fail e => XStep.fail e
      | XStep.ok st1 => extract_loop body sz is st1
    else XStep.ok st

/-- The loop body for one data sector pointer: a zero pointer is skipped, an
out-of-range or unreadable sector is an error, else the first
`min(512, sz - written)` bytes of the sector are written. -/
def extract_sector (disk : Disk) (sz data_start data_end : Nat) (sec : Nat)
    (st : XState) : XStep :=
  if sec = 0 then XStep.ok st
  else if sec < data_start ∨ sec > data_end then XStep.fail st
  else match read_sector disk sec with
    | none => XStep.fail st
    | some buf =>
      XStep.ok
        { written := st.written + (if sz - st.written > 512 then 512 else sz - st.written),
          out := st.out ++
            (List.range (if sz - st.written > 512 then 512 else sz - st.written)).map buf }

/-- The loop body for one indirect sector pointer of a large file. -/
def extract_indirect (disk : Disk) (sz data_start data_end : Nat) (indir : Nat)
    (st : XState) : XStep :=
  if indir = 0 then XStep.ok st
  else if indir < data_start ∨ indir > data_end then XStep.fail st
  else match read_sector disk indir with
    | none => XStep.fail st
    | some indirbuf =>
      extract_loop
        (fun e => extract_sector disk sz data_start data_end (le16 indirbuf (e * 2)))
        sz (List.range 256) st

/-- The block loops of `extract_file_to_stdout` for inode `fino` of size `sz`. -/
def extract_blocks (disk : Disk) (fino : idisk_t) (sz data_start data_end : Nat) : XStep :=
  if fino.i_mode &&& ILARG = 0 then
    extract_loop (fun k => extract_sector disk sz data_start data_end (fino.i_addr k))
      sz (List.range 8) { written := 0, out := [] }
  else
    extract_loop (fun k => extract_indirect disk sz data_start data_end (fino.i_addr k))
      sz (List.range 8) { written := 0, out := [] }

/-- `extract_file_to_stdout`: the return value (0 or -1) and the bytes written
to standard output. -/
def extract_file_to_stdout (disk : Disk) (inodes : Nat → idisk_t) (inode_count : Nat)
    (ino : Nat) (data_start data_end : Nat) : Int × List Nat :=
  if ino < 1 ∨ ino > inode_count then (-1, [])
  else if (inodes ino).i_mode &&& IFMT = IFDIR then (-1, [])
  else if (inodes ino).i_mode &&& IFMT = IFCHR ∨ (inodes ino).i_mode &&& IFMT = IFBLK then (-1, [])
  else
    match extract_blocks disk (inodes ino) (inode_size_bytes (inodes ino)) data_start data_end with
    | XStep.ok st => (0, st.out)
    | XStep.fail st => (-1, st.out)

/-- The non-zero entries of indirect sector `indir`, in order; nothing for a
zero, out-of-range or unreadable `indir`. -/
def indirect_pointers (disk : Disk) (indir data_start data_end : Nat) : List Nat :=
  if indir = 0 then []
  else if indir < data_start ∨ indir > data_end then []
  else match read_sector disk indir with
    | none => []
    | some indirbuf =>
      ((List.range 256).map (fun e => le16 indirbuf (e * 2))).filter (fun s => s != 0)

/-- The non-zero data sector pointers of an inode in file order (the block
walker of the specification with the zero entries dropped). -/
def data_pointers (disk : Disk) (fino : idisk_t) (data_start data_end : Nat) : List Nat :=
  if fino.i_mode &&& ILARG = 0 then
    ((List.range 8).map fino.i_addr).filter (fun s => s != 0)
  else
    ((List.range 8).map
      (fun k => indirect_pointers disk (fino.i_addr k) data_start data_end)).flatten

/-! ## Reference definitions for extraction -/

/-- The 512 bytes held by a sector buffer. -/
def sector_bytes (buf : Sector) : List Nat :=
  (List.range 512).map buf

/-- The 512-byte contents of sector `p` of the image; nothing when the sector
cannot be read. -/
def sector_contents (disk : Disk) (p : Nat) : List Nat :=
  match read_sector disk p with
  | some buf => sector_bytes buf
  | none => []

/-- The specification's file content: the contents of the sectors named by the
non-zero pointers, concatenated in file order and truncated to the recorded
size. -/
def spec_file_content (disk : Disk) (fino : idisk_t) (data_start data_end : Nat) : List Nat :=
  (((data_pointers disk fino data_start data_end).map (sector_contents disk)).flatten).take
    (inode_size_bytes fino)

/-- Sector `s` lies in `[data_start, data_end]` and can be read. -/
def sector_ok (disk : Disk) (data_start data_end s : Nat) : Bool :=
  decide (data_start ≤ s) && decide (s ≤ data_end) && (read_sector disk s).isSome

/-! ## Listing (`list_hierarchy`) -/

/-- The buffer of the data sector behind pointer `sec` in the block loops of
`list_hierarchy`; a zero, out-of-range or unreadable sector is skipped. -/
def dir_data_sector (disk : Disk) (sec data_start data_end : Nat) : Option Sector :=
  if sec = 0 then none
  else if sec < data_start ∨ sec > data_end then none
  else read_sector disk sec

/-- The data sector buffers reached through indirect sector `indir`, in order. -/
def dir_indirect_sectors (disk : Disk) (indir data_start data_end : Nat) : List Sector :=
  if indir = 0 then []
  else if indir < data_start ∨ indir > data_end then []
  else match read_sector disk indir with
    | none => []
    | some indirbuf =>
      (List.range 256).filterMap
        (fun e => dir_data_sector disk (le16 indirbuf (e * 2)) data_start data_end)

/-- The data sector buffers of directory inode `din` in the order in which the
block loops of `list_hierarchy` visit them. -/
def dir_sectors (disk : Disk) (din : idisk_t) (data_start data_end : Nat) : List Sector :=
  if din.i_mode &&& ILARG = 0 then
    (List.range 8).filterMap (fun k => dir_data_sector disk (din.i_addr k) data_start data_end)
  else
    ((List.range 8).map
      (fun k => dir_indirect_sectors disk (din.i_addr k) data_start data_end)).flatten

/-- The slots `(secbuf, e)` of directory inode `din` in visiting order: the 32
slots of each visited sector. -/
def dir_slots (disk : Disk) (din : idisk_t) (data_start data_end : Nat) : List (Sector × Nat) :=
  ((dir_sectors disk din data_start data_end).map
    (fun secbuf => (List.range 32).map (fun e => (secbuf, e)))).flatten

/-- How a call of `list_hierarchy` ends: it returns having printed `ls` (one
element per `printf`, without the newline), it reads outside `inodes[]`
(undefined behaviour), or the model ran out of recursion fuel. -/
inductive ListRun where
  | lines (ls : List (List Nat)) : ListRun
  | undefined : ListRun
  | out_of_fuel : ListRun
  deriving DecidableEq

/-- `snprintf(buf, 4096, ...)` of a string: at most 4095 bytes are kept. -/
def snprintf4096 (s : List Nat) : List Nat :=
  s.take 4095

/-- The body of the slot loop of `list_hierarchy` for slot `e` of `secbuf`;
`recurse` is the recursive call.  `inodes[ent_ino]` is read without a range
test. -/
def list_slot (inodes : Nat → idisk_t) (inode_count : Nat)
    (recurse : Nat → List Nat → ListRun) (pfx : List Nat) (secbuf : Sector) (e : Nat) :
    ListRun :=
  if entry_ino secbuf e = 0 then ListRun.lines []
  else if strcmp_eq (entry_nm secbuf e) [DOT] || strcmp_eq (entry_nm secbuf e) [DOT, DOT] then
    ListRun.lines []
  else if entry_ino secbuf e > inode_count then ListRun.undefined
  else if (inodes (entry_ino secbuf e)).i_mode &&& IFMT = IFDIR then
    match recurse (entry_ino secbuf e)
        (snprintf4096 (if pfx = [] then entry_nm secbuf e ++ [SLASH]
          else pfx ++ entry_nm secbuf e ++ [SLASH])) with
    | ListRun.lines sub =>
      ListRun.lines
        ([snprintf4096 (if pfx = [] then entry_nm secbuf e else pfx ++ entry_nm secbuf e)
            ++ [SLASH],
          snprintf4096 (if pfx = [] then entry_nm secbuf e else pfx ++ entry_nm secbuf e)
            ++ [SLASH, DOT, DOT, SLASH],
          snprintf4096 (if pfx = [] then entry_nm secbuf e else pfx ++ entry_nm secbuf e)
            ++ [SLASH, DOT, SLASH]] ++ sub)
    | other => other
  else
    ListRun.lines
      [snprintf4096 (if pfx = [] then entry_nm secbuf e else pfx ++ entry_nm secbuf e)]

/-- The slot loops of `list_hierarchy` over the slots in visiting order. -/
def list_slots (body : Sector → Nat → ListRun) : List (Sector × Nat) → ListRun
  | [] => ListRun.lines []
  | (secbuf, e) :: rest =>
    match body secbuf e with
    | ListRun.lines ls =>
      (match list_slots body rest with
        | ListRun.lines more => ListRun.lines (ls ++ more)
        | other => other)
    | other => other

/-- `list_hierarchy`: the lines printed for directory `dirino` with display
prefix `pfx`.  `fuel` bounds the depth of the recursion. -/
def list_hierarchy (disk : Disk) (inodes : Nat → idisk_t) (inode_count : Nat)
    (data_start data_end : Nat) : Nat → Nat → List Nat → ListRun
  | 0, _, _ => ListRun.out_of_fuel
  | fuel + 1, dirino, pfx =>
    if dirino < 1 ∨ dirino > inode_count then ListRun.lines []
    else if (inodes dirino).i_mode &&& IFMT ≠ IFDIR then ListRun.lines []
    else
      match list_slots
          (list_slot inodes inode_count
            (list_hierarchy disk inodes inode_count data_start data_end fuel) pfx)
          (dir_slots disk (inodes dirino) data_start data_end) with
      | ListRun.lines ls =>
        ListRun.lines ((if pfx = [] then [[DOT, DOT, SLASH], [DOT, SLASH]] else []) ++ ls)
      | other => other

/-! ## Reference listing that follows the specification's words -/

/-- The directory scanner of the specification: the `(i-number, name)` records
of the slots with non-zero i-number, in on-disk order. -/
def dir_entries (disk : Disk) (din : idisk_t) (data_start data_end : Nat) :
    List (Nat × List Nat) :=
  (dir_slots disk din data_start data_end).filterMap
    (fun s => if entry_ino s.1 s.2 = 0 then none
      else some (entry_ino s.1 s.2, entry_nm s.1 s.2))

/-- The entry's inode is a directory: it is an inode of the table and its type
field says directory. -/
def spec_is_dir (inodes : Nat → idisk_t) (inode_count : Nat) (ino : Nat) : Bool :=
  decide (1 ≤ ino) && decide (ino ≤ inode_count) &&
    decide ((inodes ino).i_mode &&& IFMT = IFDIR)

/-- The lines of the reference listing for the given entries: `display` is
`pfx ++ name`; a directory gives `display/`, `display/../`, `display/./` and
then its own listing (`sub`) with prefix `pfx ++ name ++ "/"`, any other entry
the single line `display`. -/
def spec_entries (inodes : Nat → idisk_t) (inode_count : Nat)
    (sub : Nat → List Nat → Option (List (List Nat))) (pfx : List Nat) :
    List (Nat × List Nat) → Option (List (List Nat))
  | [] => some []
  | (ino, nm) :: rest =>
    if spec_is_dir inodes inode_count ino then
      match sub ino (pfx ++ nm ++ [SLASH]), spec_entries inodes inode_count sub pfx rest with
      | some below, some more =>
        some ([pfx ++ nm ++ [SLASH], pfx ++ nm ++ [SLASH, DOT, DOT, SLASH],
          pfx ++ nm ++ [SLASH, DOT, SLASH]] ++ below ++ more)
      | _, _ => none
    else
      match spec_entries inodes inode_count sub pfx rest with
      | some more => some ((pfx ++ nm) :: more)
      | none => none

/-- The reference listing of directory `d` below the header, depth first in
on-disk order, skipping "." and ".."; `none` when the hierarchy is deeper than
`fuel`. -/
def spec_listing (disk : Disk) (inodes : Nat → idisk_t) (inode_count : Nat)
    (data_start data_end : Nat) : Nat → Nat → List Nat → Option (List (List Nat))
  | 0, _, _ => none
  | fuel + 1, d, pfx =>
    spec_entries inodes inode_count
      (spec_listing disk inodes inode_count data_start data_end fuel) pfx
      ((dir_entries disk (inodes d) data_start data_end).filter
        (fun en => !(en.2 == [DOT] || en.2 == [DOT, DOT])))

/-- The reference listing of directory `d` at the top level: "../", "./" and
then the entries. -/
def spec_listing_top (disk : Disk) (inodes : Nat → idisk_t) (inode_count : Nat)
    (data_start data_end : Nat) (fuel d : Nat) : Option (List (List Nat)) :=
  (spec_listing disk inodes inode_count data_start data_end fuel d []).map
    (fun ls => [[DOT, DOT, SLASH], [DOT, SLASH]] ++ ls)

/-! ## The driver (`dosiero_main`)

Strings written by the program are byte lists; `long` has 64 bits (LP64).
The file system is a map from a file name to the image stored under it.
-/

/-- The bytes of an ASCII string literal. -/
def str (s : String) : List Nat :=
  s.toList.map Char.toNat

/-- The newline byte. -/
def NL : Nat := 10

/-- The byte of '-'. -/
def DASH : Nat := 45

/-- A line of text: the bytes of `s` followed by a newline. -/
def line (s : String) : List Nat :=
  str s ++ [NL]

/-- `EXIT_SUCCESS`. -/
def EXIT_SUCCESS : Nat := 0

/-- `EXIT_FAILURE`. -/
def EXIT_FAILURE : Nat := 1

/-- The argument "-h". -/
def OPT_h : List Nat := [DASH, 104]

/-- The argument "-f". -/
def OPT_f : List Nat := [DASH, 102]

/-- The option flags that take no argument: the modes `-x -r -p -l -a -c` and
the interpretation flags `-i -n`. -/
inductive Opt where
  | x | r | p | l | a | c | i | n
  deriving DecidableEq

/-- The letter of a flag. -/
def Opt.letter : Opt → Nat
  | Opt.x => 120
  | Opt.r => 114
  | Opt.p => 112
  | Opt.l => 108
  | Opt.a => 97
  | Opt.c => 99
  | Opt.i => 105
  | Opt.n => 110

/-- The chain `strcmp(argv[i], "-x") == 0 ... strcmp(argv[i], "-n") == 0`: the
flag an argument spells, if any. -/
def opt_of_arg (arg : List Nat) : Option Opt :=
  if arg = [DASH, 120] then some Opt.x
  else if arg = [DASH, 114] then some Opt.r
  else if arg = [DASH, 112] then some Opt.p
  else if arg = [DASH, 108] then some Opt.l
  else if arg = [DASH, 97] then some Opt.a
  else if arg = [DASH, 99] then some Opt.c
  else if arg = [DASH, 105] then some Opt.i
  else if arg = [DASH, 110] then some Opt.n
  else none

/-- The locals `f_seen`, `diskimage` and the eight `*_seen` flags. -/
structure Flags where
  f_seen : Bool
  diskimage : List Nat
  seen : Opt → Bool

/-- The initial values of the flags. -/
def no_flags : Flags :=
  { f_seen := false, diskimage := [], seen := fun _ => false }

/-- The option loop `for (i = 1; i < argc; i++)` over the arguments that are
left; an error is the text written to the error stream before
`return EXIT_FAILURE`. -/
def parse_options : List (List Nat) → Flags → Except (List Nat) Flags
  | [], fl => Except.ok fl
  | arg :: rest, fl =>
    if arg = OPT_f then
      if fl.f_seen then Except.error (line "Error: -f specified more than once")
      else
        match rest with
        | [] => Except.error (line "Error: -f requires a disk image argument")
        | img :: rest2 =>
          parse_options rest2 { f_seen := true, diskimage := img, seen := fl.seen }
    else
      match opt_of_arg arg with
      | some o =>
        if fl.seen o then
          Except.error (str "Error: -" ++ [o.letter] ++ line " specified more than once")
        else
          parse_options rest
            { f_seen := fl.f_seen, diskimage := fl.diskimage,
              seen := fun q => if q = o then true else fl.seen q }
      | none =>
        if arg.head? = some DASH then
          Except.error (str "Error: Unknown option: " ++ arg ++ [NL])
        else parse_options rest fl

/-- A flag as the integer 0 or 1. -/
def flag_int (b : Bool) : Nat :=
  if b then 1 else 0

/-- The sum `x_seen + r_seen + p_seen + l_seen + a_seen + c_seen`. -/
def modes (fl : Flags) : Nat :=
  flag_int (fl.seen Opt.x) + flag_int (fl.seen Opt.r) + flag_int (fl.seen Opt.p)
    + flag_int (fl.seen Opt.l) + flag_int (fl.seen Opt.a) + flag_int (fl.seen Opt.c)

/-- The second loop over the arguments: those that do not begin with '-' and
(except for `argv[1]`) do not directly follow a "-f".  `prev` is `argv[i-1]`,
`none` for `i == 1`. -/
def nonopt_args : Option (List Nat) → List (List Nat) → List (List Nat)
  | _, [] => []
  | prev, arg :: rest =>
    (if arg.head? ≠ some DASH ∧ prev ≠ some OPT_f then [arg] else [])
      ++ nonopt_args (some arg) rest

/-- `isspace` in the C locale. -/
def isspace (b : Nat) : Bool :=
  b == 32 || (9 ≤ b && b ≤ 13)

/-- `isdigit`. -/
def isdigit (b : Nat) : Bool :=
  48 ≤ b && b ≤ 57

/-- `LONG_MAX` for a 64-bit `long`. -/
def LONG_MAX : Int := 9223372036854775807

/-- The value of a digit string in base 10. -/
def digits_value (ds : List Nat) : Nat :=
  ds.foldl (fun acc d => acc * 10 + (d - 48)) 0

/-- `strtol(s, &endptr, 10)`: the value and the unparsed rest (`endptr`).
White space and one sign are skipped; without a digit nothing is consumed and
the value is 0; the value saturates at `LONG_MAX` or `LONG_MIN`. -/
def strtol (s : List Nat) : Int × List Nat :=
  let body := s.dropWhile isspace
  let neg := body.head? = some DASH
  let unsigned := if body.head? = some DASH ∨ body.head? = some 43 then body.drop 1 else body
  let ds := unsigned.takeWhile isdigit
  if ds = [] then (0, s)
  else if neg then
    (if (digits_value ds : Int) > LONG_MAX + 1 then -(LONG_MAX + 1) else -(digits_value ds : Int),
      unsigned.dropWhile isdigit)
  else
    (if (digits_value ds : Int) > LONG_MAX then LONG_MAX else (digits_value ds : Int),
      unsigned.dropWhile isdigit)

/-- The text written by `-h`. -/
def help_text (prog : List Nat) : List Nat :=
  str "Usage: " ++ prog
    ++ line " -f <diskimage> (-x | -r | -p | -l | -a | -c) [options] [arguments]"
    ++ line "Options:"
    ++ line "  -h               Show this help message and exit"
    ++ line "  -f <diskimage>   Specify the disk image file (required)"
    ++ line "  -x               Extract mode (requires -i or -n)"
    ++ line "  -r               Resolve pathname to i-number"
    ++ line "  -p               Reverse-map i-number to pathname"
    ++ line "  -l               List mode (requires -i or -n)"
    ++ line "  -a               Serialize hierarchy to stdout"
    ++ line "  -c               Perform filesystem consistency checking"
    ++ line "  -i               Interpret args as inode numbers (only valid with -x or -l)"
    ++ line "  -n               Interpret args as names (only valid with -x or -l)"

/-- The text of `USAGE_MSG`. -/
def usage_text (prog : List Nat) : List Nat :=
  str "Usage: " ++ prog
    ++ line " -f <diskimage> (-x | -r | -p | -l | -a | -c) [options] [arguments]"

/-- The checks between the option loop and `fopen`: `-f` is required, exactly
one mode, `-i`/`-n` only and exactly once with `-x` or `-l`, and the per-mode
tests of the non-option arguments.  The value is the first non-option argument
(`nonopt_arg`, empty for NULL); an error is the text written to the error
stream. -/
def validate (prog : List Nat) (args : List (List Nat)) (fl : Flags) :
    Except (List Nat) (List Nat) :=
  if !fl.f_seen then Except.error (line "Error: -f <diskimage> is required")
  else if modes fl ≠ 1 then
    Except.error (line "Error: Exactly one of -x, -r, -p, -l, -a, -c must be specified")
  else if (fl.seen Opt.x || fl.seen Opt.l) && !(xor (fl.seen Opt.i) (fl.seen Opt.n)) then
    Except.error (line "Error: Must specify exactly one of -i or -n with -x or -l")
  else if !(fl.seen Opt.x || fl.seen Opt.l) && (fl.seen Opt.i || fl.seen Opt.n) then
    Except.error (line "Error: -i and -n only allowed with -x or -l")
  else
    let nonopt := nonopt_args none args
    let nonopt_arg := nonopt.headD []
    if fl.seen Opt.r && (nonopt.length ≠ 1 || nonopt_arg.head? ≠ some SLASH) then
      Except.error (usage_text prog)
    else if fl.seen Opt.p && (nonopt.length ≠ 1 || nonopt_arg = []
        || (strtol nonopt_arg).2 ≠ [] || (strtol nonopt_arg).1 ≤ 0) then
      Except.error (usage_text prog)
    else if fl.seen Opt.x
        && (nonopt.length ≠ 1 || !(xor (fl.seen Opt.i) (fl.seen Opt.n))) then
      Except.error (usage_text prog)
    else if fl.seen Opt.a && nonopt.length ≠ 0 then Except.error (usage_text prog)
    else if fl.seen Opt.c && nonopt.length ≠ 0 then Except.error (usage_text prog)
    else Except.ok nonopt_arg

/-- What the driver knows about the image after reading the superblock and the
inode area. -/
structure Image where
  inodes : Nat → idisk_t
  inode_count : Nat
  data_start : Nat
  data_end : Nat

/-- The byte at offset `off` of the inode area (sectors 2 ..). -/
def inode_area (disk : Disk) (off : Nat) : Nat :=
  match read_sector disk (2 + off / 512) with
  | some buf => buf (off % 512)
  | none => 0

/-- The decoding of one 32-byte inode record at `p`. -/
def decode_inode (p : Nat → Nat) : idisk_t :=
  { i_mode := le16 p 0, i_nlink := p 2, i_uid := p 3, i_gid := p 4, i_size0 := p 5,
    i_size1 := le16 p 6, i_addr := fun k => le16 p (8 + k * 2) }

/-- An all-zero inode record (`calloc`). -/
def zero_inode : idisk_t :=
  { i_mode := 0, i_nlink := 0, i_uid := 0, i_gid := 0, i_size0 := 0, i_size1 := 0,
    i_addr := fun _ => 0 }

/-- The table `inodes[]`: element 0 stays zero, elements `1..inode_count` are
decoded from the inode area.  (Indices above `inode_count` are outside the
table; the model marks such reads as undefined where they occur.) -/
def load_inodes (disk : Disk) (inode_count : Nat) : Nat → idisk_t := fun ino =>
  if ino < 1 ∨ ino > inode_count then zero_inode
  else decode_inode (fun j => inode_area disk ((ino - 1) * 32 + j))

/-- The layout computed from the superblock buffer. -/
def image_of (disk : Disk) (sbuf : Sector) : Image :=
  { inodes := load_inodes disk (le16 sbuf 0 * 16),
    inode_count := le16 sbuf 0 * 16,
    data_start := 2 + le16 sbuf 0,
    data_end := if le16 sbuf 2 > 0 then le16 sbuf 2 - 1 else 0 }

/-- The `fread` of the whole inode area succeeds: the image holds the `isize`
sectors that follow sector 2. -/
def inode_area_readable (disk : Disk) (isize : Nat) : Bool :=
  (List.range isize).all (fun k => (read_sector disk (2 + k)).isSome)

/-- How a run of the program ends: with an exit status, by reading outside
`inodes[]` (undefined behaviour), or the model ran out of recursion fuel. -/
inductive Ending where
  | exit (code : Nat) : Ending
  | undefined : Ending
  | out_of_fuel : Ending
  deriving DecidableEq

/-- The observable result of a run: how it ends, the bytes written to standard
output and to the error stream, and the name passed to `fopen`, if any. -/
structure MainRun where
  ending : Ending
  out : List Nat
  err : List Nat
  opened : Option (List Nat)
  deriving DecidableEq

/-- `printf("%u\n", n)`. -/
def print_unsigned (n : Nat) : List Nat :=
  str (Nat.repr n) ++ [NL]

/-- The lines of a listing as written to standard output. -/
def print_lines (ls : List (List Nat)) : List Nat :=
  (ls.map (fun l => l ++ [NL])).flatten

/-- The mode `-r`: ending and standard output. -/
def run_r (disk : Disk) (img : Image) (nonopt_arg : List Nat) : Ending × List Nat :=
  match resolve_pathname disk img.inodes img.inode_count nonopt_arg
      img.data_start img.data_end with
  | none => (Ending.out_of_fuel, [])
  | some ino =>
    if ino = 0 then (Ending.exit EXIT_FAILURE, [])
    else (Ending.exit EXIT_SUCCESS, print_unsigned ino)

/-- The mode `-p`: `inum` is the `long` returned by `strtol`; the range test is
made on `(uint32_t)inum`, the table is indexed with `inum`. -/
def run_p (disk : Disk) (img : Image) (nonopt_arg : List Nat) : Ending × List Nat :=
  let inum := (strtol nonopt_arg).1
  if inum < 1 ∨ inum.toNat % 4294967296 > img.inode_count then (Ending.exit EXIT_FAILURE, [])
  else if inum.toNat > img.inode_count then (Ending.undefined, [])
  else if (img.inodes inum.toNat).i_mode &&& 0o100000 = 0 then (Ending.exit EXIT_FAILURE, [])
  else if (img.inodes inum.toNat).i_mode &&& 0o60000 ≠ 0o40000 then
    (Ending.exit EXIT_FAILURE, [])
  else
    match canonical_path disk img.inodes img.inode_count (inum.toNat % 4294967296)
        img.data_start img.data_end with
    | Outcome.null => (Ending.exit EXIT_FAILURE, [])
    | Outcome.undefined => (Ending.undefined, [])
    | Outcome.ok canon => (Ending.exit EXIT_SUCCESS, canon ++ [NL])

/-- The mode `-l` with `-n`; the non-option count was tested before. -/
def run_l (disk : Disk) (img : Image) (fuel : Nat) (nonopt : List (List Nat)) :
    Ending × List Nat :=
  if nonopt.length ≠ 1 then (Ending.exit EXIT_FAILURE, [])
  else
    match resolve_pathname disk img.inodes img.inode_count (nonopt.headD [])
        img.data_start img.data_end with
    | none => (Ending.out_of_fuel, [])
    | some dirino =>
      if dirino = 0 then (Ending.exit EXIT_FAILURE, [])
      else
        match list_hierarchy disk img.inodes img.inode_count img.data_start img.data_end
            fuel dirino [] with
        | ListRun.lines ls => (Ending.exit EXIT_SUCCESS, print_lines ls)
        | ListRun.undefined => (Ending.undefined, [])
        | ListRun.out_of_fuel => (Ending.out_of_fuel, [])

/-- The end of the mode `-x`, from "verify regular file" on, for the i-number
`ino`: `inodes[ino]` is read without a range test. -/
def run_x_ino (disk : Disk) (img : Image) (ino : Nat) : Ending × List Nat :=
  if ino > img.inode_count then (Ending.undefined, [])
  else if (img.inodes ino).i_mode &&& 0o60000 = 0o40000 then (Ending.exit EXIT_FAILURE, [])
  else if (extract_file_to_stdout disk img.inodes img.inode_count ino
      img.data_start img.data_end).1 ≠ 0 then
    (Ending.exit EXIT_FAILURE,
      (extract_file_to_stdout disk img.inodes img.inode_count ino
        img.data_start img.data_end).2)
  else
    (Ending.exit EXIT_SUCCESS,
      (extract_file_to_stdout disk img.inodes img.inode_count ino
        img.data_start img.data_end).2)

/-- The mode `-x`: the i-number is `(uint32_t)strtol(arg)` with `-i`, the
result of `resolve_pathname` otherwise. -/
def run_x (disk : Disk) (img : Image) (i_seen : Bool) (nonopt_arg : List Nat) :
    Ending × List Nat :=
  if i_seen then
    if nonopt_arg = [] ∨ (strtol nonopt_arg).2 ≠ [] ∨ (strtol nonopt_arg).1 ≤ 0 then
      (Ending.exit EXIT_FAILURE, [])
    else run_x_ino disk img ((strtol nonopt_arg).1.toNat % 4294967296)
  else
    match resolve_pathname disk img.inodes img.inode_count nonopt_arg
        img.data_start img.data_end with
    | none => (Ending.out_of_fuel, [])
    | some ino =>
      if ino = 0 then (Ending.exit EXIT_FAILURE, [])
      else run_x_ino disk img ino

/-- The mode dispatch of `dosiero_main` after the inode table is loaded. -/
def run_mode (disk : Disk) (img : Image) (fuel : Nat) (fl : Flags)
    (args : List (List Nat)) (nonopt_arg : List Nat) : Ending × List Nat :=
  if fl.seen Opt.r then run_r disk img nonopt_arg
  else if fl.seen Opt.p then run_p disk img nonopt_arg
  else if fl.seen Opt.l && fl.seen Opt.n then run_l disk img fuel (nonopt_args none args)
  else if fl.seen Opt.x then run_x disk img (fl.seen Opt.i) nonopt_arg
  else (Ending.exit EXIT_SUCCESS, [])

/-- An early return of `dosiero_main` before `fopen`: the status, the text
written to the error stream, nothing on standard output. -/
def early_exit (code : Nat) (msg : List Nat) : MainRun :=
  { ending := Ending.exit code, out := [], err := msg, opened := none }

/-- A return of `dosiero_main` with `EXIT_FAILURE` after `fopen(name)` was
called and before any mode ran. -/
def open_failure (name msg : List Nat) : MainRun :=
  { ending := Ending.exit EXIT_FAILURE, out := [], err := msg, opened := some name }

/-- The part of `dosiero_main` before the mode dispatch: `-h`, the option
loop, the checks, `fopen`, the superblock and the inode table.  An error is
the run that returns early; otherwise the open image, its layout and inode
table, the flags and `nonopt_arg`. -/
def startup (fs : List Nat → Option Disk) (argv : List (List Nat)) :
    Except MainRun (Disk × Image × Flags × List Nat) :=
  if (argv.tail).head? = some OPT_h then
    Except.error (early_exit EXIT_SUCCESS (help_text (argv.headD [])))
  else
    match parse_options (argv.tail) no_flags with
    | Except.error msg => Except.error (early_exit EXIT_FAILURE msg)
    | Except.ok fl =>
      match validate (argv.headD []) (argv.tail) fl with
      | Except.error msg => Except.error (early_exit EXIT_FAILURE msg)
      | Except.ok nonopt_arg =>
        match fs fl.diskimage with
        | none =>
          Except.error (open_failure fl.diskimage
            (str "Error: Unable to open disk image file " ++ [39] ++ fl.diskimage
              ++ [39, NL]))
        | some disk =>
          match read_sector disk 1 with
          | none =>
            Except.error (open_failure fl.diskimage
              (str "Error: Unable to read superblock from " ++ [39] ++ fl.diskimage
                ++ [39, NL]))
          | some sbuf =>
            if !inode_area_readable disk (le16 sbuf 0) then
              Except.error (open_failure fl.diskimage [])
            else Except.ok (disk, image_of disk sbuf, fl, nonopt_arg)

/-- `dosiero_main`: `argv` includes `argv[0]`; `fs` maps a file name to the
image `fopen` opens; `fuel` bounds the recursion depth of the listing. -/
def dosiero_main (fs : List Nat → Option Disk) (fuel : Nat) (argv : List (List Nat)) :
    MainRun :=
  match startup fs argv with
  | Except.error run => run
  | Except.ok (disk, img, fl, nonopt_arg) =>
    { ending := (run_mode disk img fuel fl (argv.tail) nonopt_arg).1,
      out := (run_mode disk img fuel fl (argv.tail) nonopt_arg).2,
      err := [], opened := some fl.diskimage }

/-- The i-number the mode `-x` works on is `ino`: with `-i` the argument is a
positive decimal number whose value, cut to 32 bits, is `ino`; otherwise the
argument is a path that resolves to `ino`, not 0. -/
def x_selects (disk : Disk) (img : Image) (fl : Flags) (nonopt_arg : List Nat) (ino : Nat) :
    Prop :=
  (fl.seen Opt.i = true ∧ nonopt_arg ≠ [] ∧ (strtol nonopt_arg).2 = [] ∧
      0 < (strtol nonopt_arg).1 ∧ (strtol nonopt_arg).1.toNat % 4294967296 = ino) ∨
  (fl.seen Opt.i = false ∧
      resolve_pathname disk img.inodes img.inode_count nonopt_arg
        img.data_start img.data_end = some ino ∧ ino ≠ 0)

/-- The arguments in option position: all arguments except the operand that
follows each "-f". -/
def option_args : List (List Nat) → List (List Nat)
  | [] => []
  | arg :: rest =>
    if arg = OPT_f then
      arg :: (match rest with
        | [] => []
        | _ :: rest2 => option_args rest2)
    else arg :: option_args rest

/-- The flag `o` is one of the six mode flags. -/
def Opt.is_mode : Opt → Bool
  | Opt.i => false
  | Opt.n => false
  | _ => true

/-- The number of times flag `o` is given. -/
def flag_count (o : Opt) (args : List (List Nat)) : Nat :=
  (option_args args).countP (fun arg => opt_of_arg arg == some o)

/-- The number of mode flags (`-x -r -p -l -a -c`) given. -/
def mode_flag_count (args : List (List Nat)) : Nat :=
  flag_count Opt.x args + flag_count Opt.r args + flag_count Opt.p args
    + flag_count Opt.l args + flag_count Opt.a args + flag_count Opt.c args

/-- The flag `o` is present among the arguments. -/
def flag_present (o : Opt) (args : List (List Nat)) : Bool :=
  decide (0 < flag_count o args)

/-! ## Complete sample images for the driver -/

/-- The sector of the inode area that holds inodes `first .. first + 15` of the
table `inodes`. -/
def inode_sector (inodes : Nat → idisk_t) (first : Nat) : Sector := fun off =>
  let ino := inodes (first + off / 32)
  let j := off % 32
  if j = 0 then ino.i_mode % 256
  else if j = 1 then ino.i_mode / 256
  else if j = 2 then ino.i_nlink
  else if j = 3 then ino.i_uid
  else if j = 4 then ino.i_gid
  else if j = 5 then ino.i_size0
  else if j = 6 then ino.i_size1 % 256
  else if j = 7 then ino.i_size1 / 256
  else if j % 2 = 0 then ino.i_addr ((j - 8) / 2) % 256
  else ino.i_addr ((j - 8) / 2) / 256

/-- The sample image as a whole: superblock (`isize = 1`, `fsize = 10`), the
inode sector of `sample_inodes`, and the sectors of `sample_disk`. -/
def sample_image : Disk := fun sec =>
  if sec = 1 then some (data_sector [1, 0, 10, 0])
  else if sec = 2 then some (inode_sector sample_inodes 1)
  else sample_disk sec

/-- A file system that holds the sample image under the name `img`. -/
def sample_fs : List Nat → Option Disk := fun name =>
  if name = [105, 109, 103] then some sample_image else none

/-- The inode table of an image with i-numbers and a sector pointer outside
their ranges: the root (sector 3) holds `z` (99) and `w` (2); directory 2
(sector 4) has `..` = 99; inode 3 is a regular file of 100 bytes whose first
block pointer is 50. -/
def wild_inodes : Nat → idisk_t := fun i =>
  if i = 1 then mk_inode 0o140000 64 3
  else if i = 2 then mk_inode 0o140000 32 4
  else if i = 3 then mk_inode 0o100000 100 50
  else mk_inode 0 0 0

/-- The image with i-numbers outside the table (`isize = 1`, `fsize = 10`). -/
def wild_image : Disk := fun sec =>
  if sec = 1 then some (data_sector [1, 0, 10, 0])
  else if sec = 2 then some (inode_sector wild_inodes 1)
  else if sec = 3 then
    some (dir_sector [(1, [DOT]), (1, [DOT, DOT]), (99, [122]), (2, [119])])
  else if sec = 4 then some (dir_sector [(2, [DOT]), (99, [DOT, DOT])])
  else if sec < 10 then some (data_sector [])
  else none

/-- A file system that holds the image with wild i-numbers under the name
`img`. -/
def wild_fs : List Nat → Option Disk := fun name =>
  if name = [105, 109, 103] then some wild_image else none

/-! ## A deep sample image

288 inodes (`isize = 18`), data area = sectors 20..293.  Inode `i`
(`1 ≤ i ≤ 274`) is a directory whose block (sector `19 + i`) holds ".", ".."
and the entry `aaaaaaaaaaaaaa` for inode `i + 1`; inode 275 is an empty regular
file.  The path of the file has 274 components of 14 bytes.
-/

/-- The 14-byte name `aaaaaaaaaaaaaa`. -/
def NAME14 : List Nat :=
  List.replicate 14 97

/-- The inode table of the deep image. -/
def deep_inodes : Nat → idisk_t := fun i =>
  if 1 ≤ i ∧ i ≤ 274 then mk_inode 0o140000 48 (19 + i)
  else if i = 275 then mk_inode 0o100000 0 0
  else mk_inode 0 0 0

/-- The data sectors of the deep image. -/
def deep_disk : Disk := fun sec =>
  if 20 ≤ sec ∧ sec ≤ 293 then
    some (dir_sector [(sec - 19, [DOT]), (if sec = 20 then 1 else sec - 20, [DOT, DOT]),
      (sec - 18, NAME14)])
  else none

/-! ## Extraction over the pointer sequence without its zero entries -/

/-- The entries of a pointer sequence that are not zero, in order. -/
def nonzero_pointers (ptrs : List Nat) : List Nat :=
  ptrs.filter (fun p => p != 0)

/-- The extraction of the data sectors named by the pointer sequence `ptrs`,
one after the other, while `written < sz`. -/
def extract_pointers (disk : Disk) (sz data_start data_end : Nat) (ptrs : List Nat)
    (st : XState) : XStep :=
  extract_loop (fun p => extract_sector disk sz data_start data_end p) sz ptrs st

/-- The extraction through the non-zero indirect sector pointer `indir`: the
data sectors named by the non-zero entries of the indirect sector. -/
def extract_indirect_nonzero (disk : Disk) (sz data_start data_end : Nat) (indir : Nat)
    (st : XState) : XStep :=
  if indir < data_start ∨ indir > data_end then XStep.fail st
  else match read_sector disk indir with
    | none => XStep.fail st
    | some indirbuf =>
      extract_pointers disk sz data_start data_end
        (nonzero_pointers ((List.range 256).map (fun e => le16 indirbuf (e * 2)))) st

/-- The extraction of inode `fino` from its pointer sequences with all zero
entries removed: the non-zero `i_addr[k]`, and for a large file the non-zero
entries of each indirect sector. -/
def extract_blocks_nonzero (disk : Disk) (fino : idisk_t) (sz data_start data_end : Nat) :
    XStep :=
  if fino.i_mode &&& ILARG = 0 then
    extract_pointers disk sz data_start data_end
      (nonzero_pointers ((List.range 8).map fino.i_addr)) { written := 0, out := [] }
  else
    extract_loop (fun p => extract_indirect_nonzero disk sz data_start data_end p) sz
      (nonzero_pointers ((List.range 8).map fino.i_addr)) { written := 0, out := [] }

/-- The return value and the output of an extraction that ended with `r`. -/
def extract_result (r : XStep) : Int × List Nat :=
  match r with
  | XStep.ok st => (0, st.out)
  | XStep.fail st => (-1, st.out)

/-! ## Sector pointers outside the data range replaced by zero -/

/-- A sector pointer, replaced by zero when it lies outside
`[data_start, data_end]`. -/
def zero_if_bad (data_start data_end p : Nat) : Nat :=
  if p < data_start ∨ p > data_end then 0 else p

/-- An inode with every `i_addr[k]` outside `[data_start, data_end]` replaced
by zero. -/
def clean_inode (data_start data_end : Nat) (ino : idisk_t) : idisk_t :=
  { i_mode := ino.i_mode, i_nlink := ino.i_nlink, i_uid := ino.i_uid, i_gid := ino.i_gid,
    i_size0 := ino.i_size0, i_size1 := ino.i_size1,
    i_addr := fun k => zero_if_bad data_start data_end (ino.i_addr k) }

/-! ## Reference definitions for one step of the parent walk -/

/-- The i-number of the first entry named ".." of a directory, in on-disk
order. -/
def spec_dotdot (entries : List (Nat × List Nat)) : Option Nat :=
  (entries.find? (fun en => en.2 == [DOT, DOT])).map (fun en => en.1)

/-- The name of the first entry, in on-disk order, whose i-number is `cur` and
whose name is neither "." nor "..". -/
def spec_forward_name (entries : List (Nat × List Nat)) (cur : Nat) : Option (List Nat) :=
  (entries.find? (fun en => en.1 == cur && !(en.2 == [DOT] || en.2 == [DOT, DOT]))).map
    (fun en => en.2)

/-! ## A sample image with a cycle

Sixteen inodes (`isize = 1`, `fsize = 10`), data area = sectors 3..9.  The root
(sector 3) holds `a` (2); directory 2 (sector 4) has `..` = 3 and holds `b`
(3); directory 3 (sector 5) has `..` = 2 and holds `a` (2).  Directories 2 and
3 are each other's parent and child.
-/

/-- The inode table of the image with a cycle. -/
def ring_inodes : Nat → idisk_t := fun i =>
  if i = 1 then mk_inode 0o140000 48 3
  else if i = 2 then mk_inode 0o140000 48 4
  else if i = 3 then mk_inode 0o140000 48 5
  else mk_inode 0 0 0

/-- The sectors of the image with a cycle. -/
def ring_image : Disk := fun sec =>
  if sec = 1 then some (data_sector [1, 0, 10, 0])
  else if sec = 2 then some (inode_sector ring_inodes 1)
  else if sec = 3 then some (dir_sector [(1, [DOT]), (1, [DOT, DOT]), (2, [97])])
  else if sec = 4 then some (dir_sector [(2, [DOT]), (3, [DOT, DOT]), (3, [98])])
  else if sec = 5 then some (dir_sector [(3, [DOT]), (2, [DOT, DOT]), (2, [97])])
  else if sec < 10 then some (data_sector [])
  else none

/-- A file system that holds the image with a cycle under the name `img`. -/
def ring_fs : List Nat → Option Disk := fun name =>
  if name = [105, 109, 103] then some ring_image else none

/-! ## A sample image with an unallocated directory

Sixteen inodes (`isize = 1`, `fsize = 10`), data area = sectors 3..9.  The root
(sector 3) holds `u` (6); inode 6 has mode 040000 (type directory, allocated
bit clear) and one block (sector 4) that holds `k` (3); inode 3 is a regular
file.
-/

/-- The state reached when a loop of the extraction ends, whether it runs on
or the function returns -1. -/
def XStep.state : XStep → XState
  | XStep.ok st => st
  | XStep.fail st => st

/-! ## Reference lookup over the entries of a directory -/

/-- The lookup over the entries of a directory in on-disk order: the i-number
of the first entry whose name compares equal to `name` in its first 14 bytes,
0 when there is none. -/
def spec_lookup (entries : List (Nat × List Nat)) (name : List Nat) : Nat :=
  match entries.find? (fun en => strncmp en.2 name 14 == 0) with
  | some en => en.1
  | none => 0

/-- The slot test of `check_sector` as a scan body: the i-number of a slot in
use whose name compares equal, nothing otherwise. -/
def hit_slot (name : List Nat) (secbuf : Sector) (e : Nat) : Option Nat :=
  if check_entry secbuf name e ≠ 0 then some (check_entry secbuf name e) else none

/-- A sector pointer that a directory scan follows: not zero and inside
`[data_start, data_end]`. -/
def good_pointer (data_start data_end p : Nat) : Bool :=
  p != 0 && decide (data_start ≤ p) && decide (p ≤ data_end)

/-! ## A sample image with bad pointers in directories

Sixteen inodes, data area = sectors 3..9.  Inode 1 is a small directory with
`i_addr` = 0, 50, 3, 0, ..: a zero pointer, a pointer outside the data area,
then sector 3, whose slots are an unused slot (i-number 0) named `a`, `.`, `..`
and `a` (2).  Inode 2 is a large directory with `i_addr` = 60, 0, 4, 0, ..;
the indirect sector 4 holds the entries 50, 0, 5, 0, ..; sector 5 holds an
unused slot named `b` and `b` (3).
-/

/-- The inode table of the image with bad pointers. -/
def gap_inodes : Nat → idisk_t := fun i =>
  if i = 1 then
    { i_mode := 0o140000, i_nlink := 1, i_uid := 0, i_gid := 0, i_size0 := 0, i_size1 := 64,
      i_addr := fun k => if k = 1 then 50 else if k = 2 then 3 else 0 }
  else if i = 2 then
    { i_mode := 0o150000, i_nlink := 1, i_uid := 0, i_gid := 0, i_size0 := 0, i_size1 := 32,
      i_addr := fun k => if k = 0 then 60 else if k = 2 then 4 else 0 }
  else mk_inode 0 0 0

/-- The sectors of the image with bad pointers. -/
def gap_disk : Disk := fun sec =>
  if sec = 3 then some (dir_sector [(0, [97]), (1, [DOT]), (1, [DOT, DOT]), (2, [97])])
  else if sec = 4 then some (data_sector [50, 0, 0, 0, 5, 0])
  else if sec = 5 then some (dir_sector [(0, [98]), (3, [98])])
  else if sec < 10 then some (data_sector [])
  else none

/-! ## The parent chain read from the directory entries -/

/-- The chain of parents of directory `cur` as the directory entries give it:
`ParentChain cur names` holds when `cur` is the root and `names` is empty, or
the first ".." entry of `cur` names `parent`, an inode of the table, the first
entry of `parent` with i-number `cur` and a name other than "." and ".." is
named `nm`, and the chain of `parent` gives the names before `nm`.  `names`
runs from the root down to `cur`. -/
inductive ParentChain (disk : Disk) (inodes : Nat → idisk_t) (inode_count : Nat)
    (data_start data_end : Nat) : Nat → List (List Nat) → Prop where
  | root : ParentChain disk inodes inode_count data_start data_end 1 []
  | step (cur parent : Nat) (nm : List Nat) (names : List (List Nat)) :
      cur ≠ 1 →
      spec_dotdot (dir_entries disk (inodes cur) data_start data_end) = some parent →
      parent ≤ inode_count →
      spec_forward_name (dir_entries disk (inodes parent) data_start data_end) cur = some nm →
      ParentChain disk inodes inode_count data_start data_end parent names →
      ParentChain disk inodes inode_count data_start data_end cur (names ++ [nm])

/-! ## A sample image with ambiguous names

Sixteen inodes, data area = sectors 3..11.  The root (sector 3) holds, in this
order, `a` (3), `a` (2), `b` (2), `x/` (4), `c` (4), an entry with the empty
name (5), `d` (5), `p` (6), `r` (8) and `f` (9).  Inodes 2..8 are directories
with one block each (sectors 4..10); directory 6 holds `q` (7), whose `..` is
6; the `..` of directory 8 is inode 9.  Inode 9 is a regular file whose block
(sector 11) holds `..` (1) and `r` (8).
-/

/-- The inode table of the image with ambiguous names. -/
def twin_inodes : Nat → idisk_t := fun i =>
  if i = 1 then mk_inode 0o140000 192 3
  else if 2 ≤ i ∧ i ≤ 8 then mk_inode 0o140000 48 (i + 2)
  else if i = 9 then mk_inode 0o100000 32 11
  else mk_inode 0 0 0

/-- The sectors of the image with ambiguous names. -/
def twin_disk : Disk := fun sec =>
  if sec = 3 then
    some (dir_sector [(1, [DOT]), (1, [DOT, DOT]), (3, [97]), (2, [97]), (2, [98]),
      (4, [120, SLASH]), (4, [99]), (5, []), (5, [100]), (6, [112]), (8, [114]), (9, [102])])
  else if sec = 8 then some (dir_sector [(6, [DOT]), (1, [DOT, DOT]), (7, [113])])
  else if sec = 9 then some (dir_sector [(7, [DOT]), (6, [DOT, DOT])])
  else if sec = 10 then some (dir_sector [(8, [DOT]), (9, [DOT, DOT])])
  else if sec = 11 then some (dir_sector [(1, [DOT, DOT]), (8, [114])])
  else if 4 ≤ sec ∧ sec ≤ 7 then some (dir_sector [(sec - 2, [DOT]), (1, [DOT, DOT])])
  else none

/-! ## A well-formed chain of parents, read from the directory entries -/

/-- The chain of parents of directory `cur` is well formed: `TreeChain cur
names` holds when `cur` is the root and `names` is empty, or the first ".."
entry of `cur` names `parent`, an inode of the table whose type is directory;
the first entry of `parent` with i-number `cur` and a name other than "." and
".." is named `nm`; `nm` is not empty, has no '/', and every entry of `parent`
named `nm` refers to `cur`; and the chain of `parent` is well formed with the
names before `nm`.  `names` runs from the root down to `cur`. -/
inductive TreeChain (disk : Disk) (inodes : Nat → idisk_t) (inode_count : Nat)
    (data_start data_end : Nat) : Nat → List (List Nat) → Prop where
  | root : TreeChain disk inodes inode_count data_start data_end 1 []
  | step (cur parent : Nat) (nm : List Nat) (names : List (List Nat)) :
      cur ≠ 1 →
      spec_dotdot (dir_entries disk (inodes cur) data_start data_end) = some parent →
      parent ≤ inode_count →
      (inodes parent).i_mode &&& IFMT = IFDIR →
      spec_forward_name (dir_entries disk (inodes parent) data_start data_end) cur = some nm →
      (∀ en ∈ dir_entries disk (inodes parent) data_start data_end, en.2 = nm → en.1 = cur) →
      nm ≠ [] → SLASH ∉ nm →
      TreeChain disk inodes inode_count data_start data_end parent names →
      TreeChain disk inodes inode_count data_start data_end cur (names ++ [nm])

/-! ## Tokenising a path -/

theorem spec_components_nil : spec_components [] = [] := by
  simp [spec_components, List.splitOn]

theorem spec_components_cons_slash (l : List Nat) :
    spec_components (SLASH :: l) = spec_components l := by
  simp [spec_components, List.splitOn, List.splitOnP_cons]

theorem spec_components_dropWhile (l : List Nat) :
    spec_components (l.dropWhile (fun b => b == SLASH)) = spec_components l := by
  induction l with
  | nil => rfl
  | cons c l ih =>
    by_cases h : c = SLASH
    · subst h
      simp [List.dropWhile_cons, spec_components_cons_slash, ih]
    · simp [List.dropWhile_cons, h]

theorem spec_components_token (tok rest : List Nat) (htok : tok ≠ [])
    (hno : ∀ b ∈ tok, b ≠ SLASH) :
    spec_components (tok ++ SLASH :: rest) = tok :: spec_components rest := by
  have h := List.splitOnP_first (fun b => b == SLASH) tok (by simpa using hno) SLASH
    (by simp) rest
  have he : tok.isEmpty = false := by cases tok <;> simp_all
  simp only [spec_components, List.splitOn, h, List.filter_cons, he, Bool.not_false, if_true]

theorem spec_components_single (tok : List Nat) (htok : tok ≠ [])
    (hno : ∀ b ∈ tok, b ≠ SLASH) :
    spec_components tok = [tok] := by
  have h := List.splitOnP_eq_single (fun b => b == SLASH) tok (by simpa using hno)
  have he : tok.isEmpty = false := by cases tok <;> simp_all
  simp only [spec_components, List.splitOn, h, List.filter_cons, he, Bool.not_false, if_true,
    List.filter_nil]

theorem takeWhile_no_slash (l : List Nat) :
    ∀ b ∈ l.takeWhile (fun b => b != SLASH), b ≠ SLASH := by
  intro b hb
  have := List.mem_takeWhile_imp hb
  simpa using this

theorem dropWhile_head_slash (l : List Nat) (c : Nat) (r : List Nat)
    (h : l.dropWhile (fun b => b != SLASH) = c :: r) : c = SLASH := by
  have := List.head_dropWhile_not (fun b => b != SLASH) l (by simp [h])
  simpa [h] using this

/-- What one call of `strtok_r` does to the specification's component list. -/
theorem strtok_r_spec (s : List Nat) :
    match strtok_r s with
    | none => spec_components s = []
    | some (tok, save) =>
      spec_components s = tok :: spec_components save ∧ save.length < s.length := by
  unfold strtok_r
  have hlen := (List.dropWhile_sublist (l := s) (fun b => b == SLASH)).length_le
  have hsp := spec_components_dropWhile s
  cases hd : s.dropWhile (fun b => b == SLASH) with
  | nil =>
    rw [hd] at hsp
    simpa [spec_components_nil] using hsp.symm
  | cons c rest =>
    rw [hd] at hsp hlen
    have hc : c ≠ SLASH := by
      have := List.head_dropWhile_not (fun b => b == SLASH) s (by simp [hd])
      simpa [hd] using this
    have hsplit := List.takeWhile_append_dropWhile (fun b => b != SLASH) (c :: rest)
    have htok : (c :: rest).takeWhile (fun b => b != SLASH) ≠ [] := by
      simp [List.takeWhile_cons, hc]
    have hlen2 : ((c :: rest).takeWhile (fun b => b != SLASH)).length
        + ((c :: rest).dropWhile (fun b => b != SLASH)).length = (c :: rest).length := by
      rw [← List.length_append, hsplit]
    have hpos : 0 < ((c :: rest).takeWhile (fun b => b != SLASH)).length :=
      List.length_pos.mpr htok
    simp only []
    cases hr : (c :: rest).dropWhile (fun b => b != SLASH) with
    | nil =>
      rw [hr] at hsplit hlen2
      simp only [List.append_nil] at hsplit
      refine ⟨?_, ?_⟩
      · rw [← hsp, hsplit, List.drop_nil, spec_components_nil]
        have := spec_components_single _ htok (takeWhile_no_slash (c :: rest))
        rw [hsplit] at this
        exact this
      · simp only [List.drop_nil, List.length_nil]
        simp only [List.length_cons] at hlen
        omega
    | cons d r =>
      have hdS : d = SLASH := dropWhile_head_slash _ _ _ hr
      subst hdS
      rw [hr] at hsplit hlen2
      refine ⟨?_, ?_⟩
      · rw [← hsp]
        have := spec_components_token _ r htok (takeWhile_no_slash (c :: rest))
        rw [hsplit] at this
        simpa using this
      · simp only [List.drop_succ_cons, List.drop_zero]
        simp only [List.length_cons] at hlen hlen2
        omega

/-- With enough fuel the loop of `resolve_pathname` computes the specification's
walk over the specification's components. -/
theorem resolve_loop_eq_walk (disk : Disk) (inodes : Nat → idisk_t) (inode_count : Nat)
    (data_start data_end : Nat) (fuel : Nat) :
    ∀ (s : List Nat) (cur : Nat), s.length < fuel →
      resolve_loop disk inodes inode_count data_start data_end fuel (strtok_r s) cur
        = some (spec_walk disk inodes inode_count data_start data_end (spec_components s) cur) := by
  induction fuel with
  | zero => intro s cur h; omega
  | succ fuel ih =>
    intro s cur hlt
    have hspec := strtok_r_spec s
    cases hs : strtok_r s with
    | none =>
      rw [hs] at hspec
      simp only [] at hspec
      simp [resolve_loop, hspec, spec_walk]
    | some ts =>
      obtain ⟨tok, save⟩ := ts
      rw [hs] at hspec
      obtain ⟨hcomp, hlen⟩ := hspec
      rw [hcomp]
      simp only [resolve_loop, spec_walk]
      by_cases h0 : find_in_dir disk inodes inode_count cur tok data_start data_end = 0
      · simp [h0]
      · simp only [h0, if_false]
        exact ih save _ (by omega)

/-- For an absolute path `resolve_pathname` is the specification's walk over the
components of the first 4095 bytes of the path. -/
theorem resolve_pathname_eq_walk (disk : Disk) (inodes : Nat → idisk_t) (inode_count : Nat)
    (data_start data_end : Nat) (p : List Nat) (habs : p.head? = some SLASH) :
    resolve_pathname disk inodes inode_count p data_start data_end
      = some (spec_walk disk inodes inode_count data_start data_end
          (spec_components (p.take 4095)) 1) := by
  unfold resolve_pathname
  simp only [habs, ne_eq, not_true_eq_false, if_false]
  by_cases h1 : strcmp_eq p [SLASH] = true
  · have hp : p = [SLASH] := by simpa [strcmp_eq] using h1
    subst hp
    simp [strcmp_eq, spec_components_cons_slash, spec_components_nil, spec_walk]
  · simp only [h1]
    exact resolve_loop_eq_walk disk inodes inode_count data_start data_end _ _ _
      (Nat.lt_succ_self _)

theorem splitOnP_append_sep (q : Nat → Bool) (a b : List Nat) (sep : Nat) (hsep : q sep = true) :
    (a ++ sep :: b).splitOnP q = a.splitOnP q ++ b.splitOnP q := by
  induction a with
  | nil => simp [List.splitOnP_cons, hsep]
  | cons x xs ih =>
    simp only [List.cons_append, List.splitOnP_cons, ih]
    by_cases hx : q x = true
    · simp [hx]
    · simp only [hx]
      cases h : xs.splitOnP q with
      | nil => exact absurd h (List.splitOnP_ne_nil q xs)
      | cons hd tl => simp [List.modifyHead]

theorem spec_components_append_slash (a b : List Nat) :
    spec_components (a ++ SLASH :: b) = spec_components a ++ spec_components b := by
  simp only [spec_components, List.splitOn]
  rw [splitOnP_append_sep _ a b SLASH (by simp), List.filter_append]

theorem spec_components_replicate_slash (n : Nat) (b : List Nat) :
    spec_components (List.replicate n SLASH ++ b) = spec_components b := by
  induction n with
  | zero => simp
  | succ n ih => simp [List.replicate_succ, spec_components_cons_slash, ih]

theorem spec_walk_append (disk : Disk) (inodes : Nat → idisk_t) (inode_count : Nat)
    (data_start data_end : Nat) (pre rest : List (List Nat)) :
    ∀ cur, spec_walk disk inodes inode_count data_start data_end (pre ++ rest) cur
      = spec_walk disk inodes inode_count data_start data_end rest
          (spec_walk disk inodes inode_count data_start data_end pre cur) := by
  induction pre with
  | nil => intro cur; rfl
  | cons c cs ih =>
    intro cur
    simp only [List.cons_append, spec_walk]
    by_cases h0 : find_in_dir disk inodes inode_count cur c data_start data_end = 0
    · simp only [h0, if_true]
      cases rest with
      | nil => rfl
      | cons r rs => simp [spec_walk, find_in_dir]
    · simp only [h0, if_false]
      exact ih _

theorem find_in_dir_not_dir (disk : Disk) (inodes : Nat → idisk_t) (inode_count : Nat)
    (data_start data_end : Nat) (cur : Nat) (name : List Nat)
    (h : (inodes cur).i_mode &&& IFMT ≠ IFDIR) :
    find_in_dir disk inodes inode_count cur name data_start data_end = 0 := by
  unfold find_in_dir
  split
  · rfl
  · simp [h]

/-! ## Path resolution -/

/-- C1: for an absolute path `p` shorter than 4096 bytes, `resolve_pathname(p)` is
the result of the specification's walk: split `p` on '/', discard the empty
components, start at i-number 1 and replace the current i-number by
`find_in_dir(current, component)` for each component in order, returning 0 as
soon as a lookup returns 0.  (The path "/" satisfies the same equation.) -/
theorem resolve_pathname_is_walk (disk : Disk) (inodes : Nat → idisk_t) (inode_count : Nat)
    (data_start data_end : Nat) (p : List Nat)
    (habs : p.head? = some SLASH) (hlen : p.length < 4096) :
    resolve_pathname disk inodes inode_count p data_start data_end
      = some (spec_walk disk inodes inode_count data_start data_end (spec_components p) 1) := by
  rw [resolve_pathname_eq_walk disk inodes inode_count data_start data_end p habs,
    List.take_of_length_le (by omega)]

/-- C2: for every image, `resolve_pathname("/")` returns 1. -/
theorem resolve_root (disk : Disk) (inodes : Nat → idisk_t) (inode_count : Nat)
    (data_start data_end : Nat) :
    resolve_pathname disk inodes inode_count [SLASH] data_start data_end = some 1 := by
  simp [resolve_pathname, strcmp_eq]

theorem resolve_pathname_is_walk_witness :
    [SLASH, 97].head? = some SLASH ∧ [SLASH, 97].length < 4096 ∧
    resolve_pathname sample_disk sample_inodes 16 [SLASH, 97] 3 9
      = some (spec_walk sample_disk sample_inodes 16 3 9 (spec_components [SLASH, 97]) 1) :=
  ⟨by decide, by decide,
    resolve_pathname_is_walk sample_disk sample_inodes 16 3 9 [SLASH, 97] (by decide) (by decide)⟩

/-- C3: for every image and every absolute path `p`, `resolve_pathname(p ++ "/")`
equals `resolve_pathname(p)`: a trailing slash does not change the result. -/
theorem resolve_trailing_slash (disk : Disk) (inodes : Nat → idisk_t) (inode_count : Nat)
    (data_start data_end : Nat) (p : List Nat) (habs : p.head? = some SLASH) :
    resolve_pathname disk inodes inode_count (p ++ [SLASH]) data_start data_end
      = resolve_pathname disk inodes inode_count p data_start data_end := by
  have habs2 : (p ++ [SLASH]).head? = some SLASH := by
    cases p with
    | nil => simp at habs
    | cons c cs => simpa using habs
  rw [resolve_pathname_eq_walk disk inodes inode_count data_start data_end _ habs2,
    resolve_pathname_eq_walk disk inodes inode_count data_start data_end _ habs]
  by_cases h : p.length < 4095
  · rw [List.take_of_length_le (l := p ++ [SLASH]) (by simp; omega),
      List.take_of_length_le (l := p) (by omega), spec_components_append_slash,
      spec_components_nil, List.append_nil]
  · rw [List.take_append_of_le_length (by omega)]

theorem resolve_trailing_slash_witness :
    [SLASH, 97].head? = some SLASH ∧
    resolve_pathname sample_disk sample_inodes 16 ([SLASH, 97] ++ [SLASH]) 3 9
      = resolve_pathname sample_disk sample_inodes 16 [SLASH, 97] 3 9 :=
  ⟨by decide, resolve_trailing_slash sample_disk sample_inodes 16 3 9 [SLASH, 97] (by decide)⟩

/-- C4, as stated, fails beyond the working buffer: the 4096-byte path made of
4095 '/' bytes followed by `a` resolves to the root (1) because only its first
4095 bytes are tokenised, while its collapsed form `/a` resolves to inode 2 of
the sample image. -/
theorem resolve_collapse_long_path_differs :
    resolve_pathname sample_disk sample_inodes 16
        ([] ++ List.replicate (4094 + 1) SLASH ++ [97]) 3 9 = some 1 ∧
    resolve_pathname sample_disk sample_inodes 16 ([] ++ SLASH :: [97]) 3 9 = some 2 := by
  refine ⟨?_, by decide⟩
  rw [resolve_pathname_eq_walk _ _ _ _ _ _ (by rfl)]
  have ht : List.take 4095 ([] ++ List.replicate (4094 + 1) SLASH ++ [97])
      = List.replicate 4095 SLASH := by
    rw [List.nil_append]
    exact List.take_left' (List.length_replicate _ _)
  rw [ht]
  have hc := spec_components_replicate_slash 4095 []
  rw [List.append_nil, spec_components_nil] at hc
  rw [hc]
  rfl

/-- C4 (amended): for every image and every absolute path `p` shorter than 4096
bytes, if `q` is obtained from `p` by replacing a run of one or more consecutive
'/' bytes by a single '/', then `resolve_pathname(p) = resolve_pathname(q)`. -/
theorem resolve_collapse_slashes (disk : Disk) (inodes : Nat → idisk_t) (inode_count : Nat)
    (data_start data_end : Nat) (a b : List Nat) (n : Nat)
    (habs : (a ++ List.replicate (n + 1) SLASH ++ b).head? = some SLASH)
    (hlen : (a ++ List.replicate (n + 1) SLASH ++ b).length < 4096) :
    resolve_pathname disk inodes inode_count (a ++ List.replicate (n + 1) SLASH ++ b)
        data_start data_end
      = resolve_pathname disk inodes inode_count (a ++ SLASH :: b) data_start data_end := by
  have habs2 : (a ++ SLASH :: b).head? = some SLASH := by
    cases a with
    | nil => simp
    | cons c cs => simpa using habs
  have hlen2 : (a ++ SLASH :: b).length < 4096 := by
    simp only [List.length_append, List.length_replicate, List.length_cons] at hlen ⊢
    omega
  rw [resolve_pathname_eq_walk disk inodes inode_count data_start data_end _ habs,
    resolve_pathname_eq_walk disk inodes inode_count data_start data_end _ habs2,
    List.take_of_length_le (by omega), List.take_of_length_le (by omega)]
  have hp : a ++ List.replicate (n + 1) SLASH ++ b = a ++ SLASH :: (List.replicate n SLASH ++ b) := by
    simp [List.replicate_succ]
  rw [hp, spec_components_append_slash, spec_components_append_slash,
    spec_components_replicate_slash]

theorem resolve_collapse_slashes_witness :
    ([SLASH, 97] ++ List.replicate (1 + 1) SLASH ++ [98]).head? = some SLASH ∧
    ([SLASH, 97] ++ List.replicate (1 + 1) SLASH ++ [98]).length < 4096 ∧
    resolve_pathname sample_disk sample_inodes 16
        ([SLASH, 97] ++ List.replicate (1 + 1) SLASH ++ [98]) 3 9
      = resolve_pathname sample_disk sample_inodes 16 ([SLASH, 97] ++ SLASH :: [98]) 3 9 :=
  ⟨by decide, by decide,
    resolve_collapse_slashes sample_disk sample_inodes 16 3 9 [SLASH, 97] [98] 1
      (by decide) (by decide)⟩

/-- C5: `resolve_pathname` returns 0 for every path that does not begin with
'/', and for every absolute path one of whose components (those of the first
4095 bytes, which are the ones the resolver looks up) has to be looked up in an
inode whose type field is not "directory"; both failures are the same value 0. -/
theorem resolve_not_found (disk : Disk) (inodes : Nat → idisk_t) (inode_count : Nat)
    (data_start data_end : Nat) (p : List Nat) :
    (p.head? ≠ some SLASH →
      resolve_pathname disk inodes inode_count p data_start data_end = some 0) ∧
    (∀ (pre : List (List Nat)) (c : List Nat) (post : List (List Nat)),
      p.head? = some SLASH →
      spec_components (p.take 4095) = pre ++ c :: post →
      (inodes (spec_walk disk inodes inode_count data_start data_end pre 1)).i_mode &&& IFMT
        ≠ IFDIR →
      resolve_pathname disk inodes inode_count p data_start data_end = some 0) := by
  refine ⟨?_, ?_⟩
  · intro h
    simp [resolve_pathname, h]
  · intro pre c post habs hcomp hnd
    rw [resolve_pathname_eq_walk disk inodes inode_count data_start data_end p habs, hcomp,
      spec_walk_append]
    simp [spec_walk, find_in_dir_not_dir disk inodes inode_count data_start data_end _ c hnd]

theorem resolve_not_found_witness :
    ([97].head? ≠ some SLASH ∧
      resolve_pathname sample_disk sample_inodes 16 [97] 3 9 = some 0) ∧
    ([SLASH, 102, SLASH, 120].head? = some SLASH ∧
      spec_components ([SLASH, 102, SLASH, 120].take 4095) = [[102]] ++ [120] :: [] ∧
      (sample_inodes (spec_walk sample_disk sample_inodes 16 3 9 [[102]] 1)).i_mode &&& IFMT
        ≠ IFDIR ∧
      resolve_pathname sample_disk sample_inodes 16 [SLASH, 102, SLASH, 120] 3 9 = some 0) :=
  ⟨⟨by decide, (resolve_not_found sample_disk sample_inodes 16 3 9 [97]).1 (by decide)⟩,
   ⟨by decide, by decide, by decide,
    (resolve_not_found sample_disk sample_inodes 16 3 9 [SLASH, 102, SLASH, 120]).2
      [[102]] [120] [] (by decide) (by decide) (by decide)⟩⟩

/-! ## Directory lookup -/

theorem strncmp_zero_iff (n : Nat) : ∀ (s1 s2 : List Nat),
    strncmp s1 s2 n = 0 ↔ (cstr_of_bytes s1).take n = (cstr_of_bytes s2).take n := by
  induction n with
  | zero => intro s1 s2; simp [strncmp]
  | succ n ih =>
    intro s1 s2
    cases s1 with
    | nil =>
      cases s2 with
      | nil => simp [strncmp]
      | cons b s2 =>
        by_cases hb : b = 0
        · simp [strncmp, cstr_of_bytes, hb]
        · simp [strncmp, cstr_of_bytes, hb, List.takeWhile_cons]
    | cons a s1 =>
      cases s2 with
      | nil =>
        by_cases ha : a = 0
        · simp [strncmp, cstr_of_bytes, ha]
        · simp [strncmp, cstr_of_bytes, ha, List.takeWhile_cons]
      | cons b s2 =>
        by_cases hab : a = b
        · subst hab
          by_cases ha : a = 0
          · simp [strncmp, cstr_of_bytes, ha]
          · have := ih s1 s2
            simp only [cstr_of_bytes] at this
            simp [strncmp, cstr_of_bytes, ha, List.takeWhile_cons, this]
        · have hne : (a : Int) - (b : Int) ≠ 0 := by omega
          by_cases ha : a = 0 <;> by_cases hb : b = 0 <;>
            simp [strncmp, cstr_of_bytes, ha, hb, hab, hne, List.takeWhile_cons]
          all_goals omega

theorem cstr_of_bytes_no_nul (s : List Nat) (h : ∀ b ∈ s, b ≠ 0) : cstr_of_bytes s = s := by
  unfold cstr_of_bytes
  rw [List.takeWhile_eq_self_iff]
  intro b hb
  simpa using h b hb

theorem cstr_of_bytes_idem (s : List Nat) : cstr_of_bytes (cstr_of_bytes s) = cstr_of_bytes s := by
  apply cstr_of_bytes_no_nul
  intro b hb
  have := List.mem_takeWhile_imp hb
  simpa using this

theorem entry_name_field_length (secbuf : Sector) (e : Nat) :
    (entry_name_field secbuf e).length = 14 := by
  simp [entry_name_field]

theorem entry_nm_length (secbuf : Sector) (e : Nat) : (entry_nm secbuf e).length ≤ 14 := by
  unfold entry_nm cstr_of_bytes
  have := (List.takeWhile_sublist (l := entry_name_field secbuf e) (fun b => b != 0)).length_le
  rw [entry_name_field_length] at this
  exact this

theorem check_entry_ne_zero_iff (secbuf : Sector) (name : List Nat) (e : Nat)
    (hino : entry_ino secbuf e ≠ 0) :
    check_entry secbuf name e ≠ 0 ↔ entry_nm secbuf e = (cstr_of_bytes name).take 14 := by
  unfold check_entry
  rw [if_neg hino]
  have h := strncmp_zero_iff 14 (entry_nm secbuf e) name
  have hid : cstr_of_bytes (entry_nm secbuf e) = entry_nm secbuf e := cstr_of_bytes_idem _
  rw [hid, List.take_of_length_le (entry_nm_length secbuf e)] at h
  by_cases hs : strncmp (entry_nm secbuf e) name 14 = 0
  · simp only [hs, if_true]
    exact ⟨fun _ => h.mp hs, fun _ => hino⟩
  · simp only [hs, if_false]
    exact ⟨fun hc => absurd rfl hc, fun hc => absurd (h.mpr hc) hs⟩

theorem nul_padded_iff (field : List Nat) :
    nul_padded field = true ↔
      field = cstr_of_bytes field ++ List.replicate (field.length - (cstr_of_bytes field).length) 0 := by
  have hsplit := List.takeWhile_append_dropWhile (fun b => b != 0) field
  have hlen : (cstr_of_bytes field).length + (field.dropWhile (fun b => b != 0)).length
      = field.length := by
    unfold cstr_of_bytes
    rw [← List.length_append, hsplit]
  unfold nul_padded
  constructor
  · intro h
    have hd : field.dropWhile (fun b => b != 0)
        = List.replicate (field.length - (cstr_of_bytes field).length) 0 := by
      rw [List.eq_replicate_iff]
      refine ⟨by omega, ?_⟩
      intro b hb
      simpa using (List.all_eq_true.mp h) b hb
    rw [← hd]
    exact hsplit.symm
  · intro h
    have hd : field.dropWhile (fun b => b != 0)
        = List.replicate (field.length - (cstr_of_bytes field).length) 0 := by
      have h2 : cstr_of_bytes field ++ field.dropWhile (fun b => b != 0) =
          cstr_of_bytes field ++ List.replicate (field.length - (cstr_of_bytes field).length) 0 := by
        rw [← h]; exact hsplit
      exact List.append_cancel_left h2
    rw [hd]
    simp

theorem field_eq_spec_name14_iff (field name : List Nat) (hlen : field.length = 14)
    (hname : ∀ b ∈ name, b ≠ 0) (hpad : nul_padded field = true) :
    cstr_of_bytes field = name.take 14 ↔ field = spec_name14 name := by
  have hp := (nul_padded_iff field).mp hpad
  constructor
  · intro h
    rw [hp, h, hlen]
    rfl
  · intro h
    have hno : ∀ b ∈ name.take 14, (b != 0) = true := by
      intro b hb
      simpa using hname b (List.mem_of_mem_take hb)
    rw [h]
    unfold spec_name14 cstr_of_bytes
    rw [List.takeWhile_append_of_pos hno]
    cases hk : 14 - (List.take 14 name).length with
    | zero => simp
    | succ k => simp [List.replicate_succ]

/-- C6, as stated, fails on a name field with bytes after its first NUL: the
slot `(2, "a\0b\0...")` matches the query `a` (check_sector returns 2), although
its 14-byte name field differs from the query truncated and NUL-padded to 14
bytes. -/
theorem check_entry_bytes_after_nul :
    entry_ino (dir_sector [(2, [97, 0, 98])]) 0 ≠ 0 ∧
    check_entry (dir_sector [(2, [97, 0, 98])]) [97] 0 ≠ 0 ∧
    check_sector (fun _ => some (dir_sector [(2, [97, 0, 98])])) 3 [97] 3 9 = 2 ∧
    entry_name_field (dir_sector [(2, [97, 0, 98])]) 0 ≠ spec_name14 [97] := by
  decide

/-- C6 (amended): for every directory slot with non-zero i-number and every
query name, the slot loop of `check_sector` treats the slot as a match exactly
when the slot's name field read as a C string (its bytes up to the first NUL)
equals the query truncated to 14 bytes; when the name field is NUL-padded (no
non-NUL byte after a NUL) this is bytewise equality of the 14-byte field with
the query truncated and NUL-padded to 14 bytes; and a query longer than 14
bytes gives the same result as its first 14 bytes. -/
theorem check_entry_match (secbuf : Sector) (e : Nat) (name : List Nat)
    (hino : entry_ino secbuf e ≠ 0) (hname : ∀ b ∈ name, b ≠ 0) :
    (check_entry secbuf name e ≠ 0 ↔ entry_nm secbuf e = name.take 14) ∧
    (nul_padded (entry_name_field secbuf e) = true →
      (check_entry secbuf name e ≠ 0 ↔ entry_name_field secbuf e = spec_name14 name)) ∧
    check_entry secbuf name e = check_entry secbuf (name.take 14) e := by
  have h1 := check_entry_ne_zero_iff secbuf name e hino
  rw [cstr_of_bytes_no_nul name hname] at h1
  have hname2 : ∀ b ∈ name.take 14, b ≠ 0 := fun b hb => hname b (List.mem_of_mem_take hb)
  have h2 := check_entry_ne_zero_iff secbuf (name.take 14) e hino
  rw [cstr_of_bytes_no_nul _ hname2, List.take_take, Nat.min_self] at h2
  refine ⟨h1, ?_, ?_⟩
  · intro hpad
    rw [h1]
    exact field_eq_spec_name14_iff _ name (entry_name_field_length secbuf e) hname hpad
  · have h3 : check_entry secbuf name e ≠ 0 ↔ check_entry secbuf (name.take 14) e ≠ 0 := by
      rw [h1, h2]
    unfold check_entry at h3 ⊢
    rw [if_neg hino] at h3 ⊢
    rw [if_neg hino] at h3
    by_cases ha : strncmp (entry_nm secbuf e) name 14 = 0 <;>
      by_cases hb : strncmp (entry_nm secbuf e) (List.take 14 name) 14 = 0 <;>
      simp_all

theorem check_entry_match_witness :
    entry_ino (dir_sector [(2, [97])]) 0 ≠ 0 ∧ (∀ b ∈ [97], b ≠ 0) ∧
    ((check_entry (dir_sector [(2, [97])]) [97] 0 ≠ 0
        ↔ entry_nm (dir_sector [(2, [97])]) 0 = [97].take 14) ∧
     (nul_padded (entry_name_field (dir_sector [(2, [97])]) 0) = true →
        (check_entry (dir_sector [(2, [97])]) [97] 0 ≠ 0
          ↔ entry_name_field (dir_sector [(2, [97])]) 0 = spec_name14 [97])) ∧
     check_entry (dir_sector [(2, [97])]) [97] 0
        = check_entry (dir_sector [(2, [97])]) ([97].take 14) 0) :=
  ⟨by decide, by decide,
    check_entry_match (dir_sector [(2, [97])]) 0 [97] (by decide) (by decide)⟩

/-! ## Reverse resolution -/

theorem scan_data_some {α : Type} (disk : Disk) (body : Sector → Nat → Option α)
    (sec data_start data_end : Nat) (v : α)
    (h : scan_data disk body sec data_start data_end = some v) :
    ∃ secbuf e, body secbuf e = some v := by
  unfold scan_data at h
  split at h
  · cases h
  · split at h
    · cases h
    · split at h
      · cases h
      · rename_i secbuf _
        obtain ⟨e, _, he⟩ := List.exists_of_findSome?_eq_some h
        exact ⟨secbuf, e, he⟩

theorem scan_indirect_some {α : Type} (disk : Disk) (body : Sector → Nat → Option α)
    (indir data_start data_end : Nat) (v : α)
    (h : scan_indirect disk body indir data_start data_end = some v) :
    ∃ secbuf e, body secbuf e = some v := by
  unfold scan_indirect at h
  split at h
  · cases h
  · split at h
    · cases h
    · split at h
      · cases h
      · obtain ⟨e, _, he⟩ := List.exists_of_findSome?_eq_some h
        exact scan_data_some disk body _ data_start data_end v he

theorem scan_dir_some {α : Type} (disk : Disk) (body : Sector → Nat → Option α)
    (din : idisk_t) (data_start data_end : Nat) (v : α)
    (h : scan_dir disk body din data_start data_end = some v) :
    ∃ secbuf e, body secbuf e = some v := by
  unfold scan_dir at h
  split at h
  · obtain ⟨k, _, hk⟩ := List.exists_of_findSome?_eq_some h
    exact scan_data_some disk body _ data_start data_end v hk
  · obtain ⟨k, _, hk⟩ := List.exists_of_findSome?_eq_some h
    exact scan_indirect_some disk body _ data_start data_end v hk

theorem dotdot_parent_ne_zero (disk : Disk) (din : idisk_t) (data_start data_end parent : Nat)
    (h : scan_dir disk dotdot_slot din data_start data_end = some parent) : parent ≠ 0 := by
  obtain ⟨secbuf, e, he⟩ := scan_dir_some disk dotdot_slot din data_start data_end parent h
  unfold dotdot_slot at he
  split at he
  · cases he
  · split at he
    · cases he
      assumption
    · cases he

theorem find_in_dir_range (disk : Disk) (inodes : Nat → idisk_t) (inode_count : Nat)
    (data_start data_end : Nat) (dirino : Nat) (name : List Nat)
    (h : find_in_dir disk inodes inode_count dirino name data_start data_end ≠ 0) :
    1 ≤ dirino ∧ dirino ≤ inode_count := by
  unfold find_in_dir at h
  split at h
  · exact absurd rfl h
  · omega

theorem canonical_walk_of_chain (disk : Disk) (inodes : Nat → idisk_t) (inode_count : Nat)
    (data_start data_end : Nat) (cur : Nat) (names : List (List Nat))
    (h : UpChain disk inodes inode_count data_start data_end cur names) :
    ∀ (slots : Nat) (acc : List (List Nat)), cur ≠ 0 → names.length ≤ slots →
      canonical_walk disk inodes inode_count data_start data_end slots cur acc
        = Outcome.ok (acc ++ names.reverse) := by
  induction h with
  | root =>
    intro slots acc _ _
    unfold canonical_walk
    simp
  | step cur parent nm names hne hdd hnm hfind _ _ _ ih =>
    intro slots acc hcur hlen
    have hp0 : parent ≠ 0 := dotdot_parent_ne_zero disk _ data_start data_end parent hdd
    have hrange := find_in_dir_range disk inodes inode_count data_start data_end parent nm
      (by rw [hfind]; exact hcur)
    have hple : ¬ parent > inode_count := by omega
    cases slots with
    | zero => simp at hlen
    | succ s =>
      unfold canonical_walk
      simp only [hne, if_false, hdd, hp0, hple, hnm]
      rw [ih s (acc ++ [nm]) hp0 (by simpa using hlen)]
      simp

theorem spec_walk_of_chain (disk : Disk) (inodes : Nat → idisk_t) (inode_count : Nat)
    (data_start data_end : Nat) (cur : Nat) (names : List (List Nat))
    (h : UpChain disk inodes inode_count data_start data_end cur names) :
    cur ≠ 0 → spec_walk disk inodes inode_count data_start data_end names 1 = cur := by
  induction h with
  | root => intro _; rfl
  | step cur parent nm names hne hdd hnm hfind _ _ _ ih =>
    intro hcur
    have hp0 : parent ≠ 0 := dotdot_parent_ne_zero disk _ data_start data_end parent hdd
    rw [spec_walk_append, ih hp0]
    simp only [spec_walk, hfind, hcur, if_false]

theorem chain_names (disk : Disk) (inodes : Nat → idisk_t) (inode_count : Nat)
    (data_start data_end : Nat) (cur : Nat) (names : List (List Nat))
    (h : UpChain disk inodes inode_count data_start data_end cur names) :
    ∀ nm ∈ names, nm ≠ [] ∧ SLASH ∉ nm := by
  induction h with
  | root => intro nm hnm; simp at hnm
  | step cur parent nm names _ _ _ _ hne hsl _ ih =>
    intro c hc
    rcases List.mem_append.mp hc with h1 | h1
    · exact ih c h1
    · simp only [List.mem_singleton] at h1
      subst h1
      exact ⟨hne, hsl⟩

theorem chain_names_nil_iff (disk : Disk) (inodes : Nat → idisk_t) (inode_count : Nat)
    (data_start data_end : Nat) (cur : Nat) (names : List (List Nat))
    (h : UpChain disk inodes inode_count data_start data_end cur names) :
    names = [] ↔ cur = 1 := by
  cases h with
  | root => simp
  | step _ parent nm names hne => simp [hne]

theorem spec_components_canonical (names : List (List Nat))
    (h : ∀ nm ∈ names, nm ≠ [] ∧ SLASH ∉ nm) :
    spec_components (spec_canonical names) = names := by
  unfold spec_canonical
  rw [List.singleton_append, spec_components_cons_slash]
  induction names with
  | nil => simp [spec_components_nil]
  | cons nm rest ih =>
    have hnm := h nm (List.mem_cons_self _ _)
    simp only [List.map_cons, List.flatten_cons, List.append_assoc, List.singleton_append]
    rw [spec_components_token nm _ hnm.1 (fun b hb hbs => hnm.2 (hbs ▸ hb)),
      ih (fun c hc => h c (List.mem_cons_of_mem _ hc))]

theorem foldl_sep (rest : List (List Nat)) : ∀ (out : List Nat), 1 < out.length →
    rest.foldl (fun out c => (if out.length > 1 then out ++ [SLASH] else out) ++ c) out
      = out ++ (rest.map (fun c => SLASH :: c)).flatten := by
  induction rest with
  | nil => intro out _; simp
  | cons c rest ih =>
    intro out hout
    simp only [List.foldl_cons, List.map_cons, List.flatten_cons]
    rw [if_pos hout, ih _ (by simp; omega)]
    simp

theorem flatten_sep_shift (rest : List (List Nat)) :
    (rest.map (fun c => SLASH :: c)).flatten ++ [SLASH]
      = SLASH :: (rest.map (fun c => c ++ [SLASH])).flatten := by
  induction rest with
  | nil => rfl
  | cons c rest ih =>
    simp only [List.map_cons, List.flatten_cons, List.append_assoc, ih]
    simp

theorem assemble_loop_eq (c1 : List Nat) (rest : List (List Nat)) (hc1 : c1 ≠ []) :
    assemble_loop (c1 :: rest).reverse
      = [SLASH] ++ c1 ++ (rest.map (fun c => SLASH :: c)).flatten := by
  unfold assemble_loop
  rw [List.reverse_reverse, List.foldl_cons]
  have h1 : ¬ ([SLASH] : List Nat).length > 1 := by simp
  rw [if_neg h1, foldl_sep rest _ (by
    have := List.length_pos.mpr hc1
    simp only [List.length_append, List.length_singleton]; omega)]

theorem assemble_loop_split (c1 cn : List Nat) (rest : List (List Nat))
    (hlast : (c1 :: rest).getLast? = some cn) :
    ∃ X, [SLASH] ++ c1 ++ (rest.map (fun c => SLASH :: c)).flatten = X ++ cn := by
  rcases List.eq_nil_or_concat rest with h | ⟨r, c, h⟩
  · subst h
    simp only [List.getLast?_singleton, Option.some.injEq] at hlast
    subst hlast
    exact ⟨[SLASH], by simp⟩
  · subst h
    have hc : c = cn := by
      rw [List.concat_eq_append, ← List.cons_append, List.getLast?_append] at hlast
      simpa using hlast
    subst hc
    exact ⟨[SLASH] ++ c1 ++ (r.map (fun c => SLASH :: c)).flatten ++ [SLASH], by simp⟩

theorem assemble_eq_spec (c1 cn : List Nat) (rest : List (List Nat)) (hc1 : c1 ≠ [])
    (hlast : (c1 :: rest).getLast? = some cn) (hcn : cn ≠ [])
    (hsl : cn.getLast? ≠ some SLASH) :
    assemble (c1 :: rest).reverse = spec_canonical (c1 :: rest) := by
  unfold assemble
  rw [assemble_loop_eq c1 rest hc1]
  obtain ⟨X, hX⟩ := assemble_loop_split c1 cn rest hlast
  have hg : ([SLASH] ++ c1 ++ (rest.map (fun c => SLASH :: c)).flatten).getLast? ≠ some SLASH := by
    rw [hX, List.getLast?_append]
    cases hc : cn.getLast? with
    | none => exact absurd (List.getLast?_eq_none_iff.mp hc) hcn
    | some x =>
      rw [hc] at hsl
      simpa using hsl
  rw [if_pos (Or.inr hg)]
  unfold spec_canonical
  simp only [List.map_cons, List.flatten_cons, List.append_assoc]
  rw [flatten_sep_shift]
  simp

theorem canonical_walk_length (disk : Disk) (inodes : Nat → idisk_t) (inode_count : Nat)
    (data_start data_end : Nat) (slots : Nat) :
    ∀ (cur : Nat) (acc comps : List (List Nat)),
      canonical_walk disk inodes inode_count data_start data_end slots cur acc
        = Outcome.ok comps →
      acc.length ≤ comps.length ∧ (cur ≠ 1 → acc.length < comps.length) := by
  induction slots with
  | zero =>
    intro cur acc comps h
    unfold canonical_walk at h
    split at h
    · cases h
      rename_i h1
      exact ⟨le_refl _, fun hc => absurd h1 hc⟩
    · split at h
      · cases h
      · split at h
        · cases h
        · split at h
          · cases h
          · split at h
            · cases h
            · cases h
  | succ s ih =>
    intro cur acc comps h
    unfold canonical_walk at h
    split at h
    · cases h
      rename_i h1
      exact ⟨le_refl _, fun hc => absurd h1 hc⟩
    · split at h
      · cases h
      · split at h
        · cases h
        · split at h
          · cases h
          · split at h
            · cases h
            · have := (ih _ _ _ h).1
              simp only [List.length_append, List.length_singleton] at this
              exact ⟨by omega, fun _ => by omega⟩

theorem chain_unique (disk : Disk) (inodes : Nat → idisk_t) (inode_count : Nat)
    (data_start data_end : Nat) (cur : Nat) (names : List (List Nat))
    (h : UpChain disk inodes inode_count data_start data_end cur names) :
    ∀ names2, UpChain disk inodes inode_count data_start data_end cur names2 →
      names = names2 := by
  induction h with
  | root =>
    intro names2 h2
    cases h2 with
    | root => rfl
    | step _ parent nm names hne => exact absurd rfl hne
  | step cur parent nm names hne hdd hnm _ _ _ _ ih =>
    intro names2 h2
    cases h2 with
    | root => exact absurd rfl hne
    | step _ parent2 nm2 names2 _ hdd2 hnm2 _ _ _ hch2 =>
      rw [hdd] at hdd2
      cases hdd2
      rw [hnm] at hnm2
      cases hnm2
      rw [ih names2 hch2]

theorem chain_nodes (disk : Disk) (inodes : Nat → idisk_t) (inode_count : Nat)
    (data_start data_end : Nat) (cur : Nat) (names : List (List Nat))
    (h : UpChain disk inodes inode_count data_start data_end cur names) :
    1 ≤ cur → cur ≤ inode_count →
    ∃ nodes : List Nat, nodes.length = names.length + 1 ∧ nodes.Nodup ∧
      ∀ c ∈ nodes, (1 ≤ c ∧ c ≤ inode_count) ∧
        ∃ names2, UpChain disk inodes inode_count data_start data_end c names2 ∧
          names2.length ≤ names.length := by
  induction h with
  | root =>
    intro hlo hhi
    refine ⟨[1], rfl, List.nodup_singleton 1, ?_⟩
    intro c hc
    simp only [List.mem_singleton] at hc
    subst hc
    exact ⟨⟨hlo, hhi⟩, [], UpChain.root, le_refl _⟩
  | step cur parent nm names hne hdd hnm hfind hnn hsl hch ih =>
    intro hlo hhi
    have hrange := find_in_dir_range disk inodes inode_count data_start data_end parent nm
      (by rw [hfind]; omega)
    obtain ⟨nodes, hlen, hnd, hmem⟩ := ih hrange.1 hrange.2
    have hcur : UpChain disk inodes inode_count data_start data_end cur (names ++ [nm]) :=
      UpChain.step cur parent nm names hne hdd hnm hfind hnn hsl hch
    refine ⟨cur :: nodes, by simp [hlen], ?_, ?_⟩
    · refine List.nodup_cons.mpr ⟨?_, hnd⟩
      intro hin
      obtain ⟨_, names2, hc2, hl2⟩ := hmem cur hin
      have := chain_unique disk inodes inode_count data_start data_end cur _ hcur names2 hc2
      rw [← this] at hl2
      simp at hl2
    · intro c hc
      rcases List.mem_cons.mp hc with h1 | h1
      · subst h1
        exact ⟨⟨hlo, hhi⟩, _, hcur, le_refl _⟩
      · obtain ⟨hr, names2, hc2, hl2⟩ := hmem c h1
        exact ⟨hr, names2, hc2, by simp; omega⟩

/-- A well-formed ancestor chain visits pairwise different in-range inodes, so
it has fewer links than the table has inodes. -/
theorem chain_length_lt (disk : Disk) (inodes : Nat → idisk_t) (inode_count : Nat)
    (data_start data_end : Nat) (cur : Nat) (names : List (List Nat))
    (h : UpChain disk inodes inode_count data_start data_end cur names)
    (hlo : 1 ≤ cur) (hhi : cur ≤ inode_count) : names.length < inode_count := by
  obtain ⟨nodes, hlen, hnd, hmem⟩ :=
    chain_nodes disk inodes inode_count data_start data_end cur names h hlo hhi
  have hsub : nodes.toFinset ⊆ Finset.Icc 1 inode_count := by
    intro c hc
    have := (hmem c (List.mem_toFinset.mp hc)).1
    exact Finset.mem_Icc.mpr this
  have hcard := Finset.card_le_card hsub
  rw [List.toFinset_card_of_nodup hnd, Nat.card_Icc, hlen] at hcard
  omega

/-- Along a chain whose forward names are found again by `find_in_dir`,
`canonical_path` returns the canonical form of the names and
`resolve_pathname` leads back to the inode. -/
theorem round_trip_of_up_chain (disk : Disk) (inodes : Nat → idisk_t) (inode_count : Nat)
    (data_start data_end : Nat) (i : Nat) (names : List (List Nat))
    (hlo : 1 ≤ i) (hhi : i ≤ inode_count)
    (hchain : UpChain disk inodes inode_count data_start data_end i names)
    (hlen : (spec_canonical names).length < 4096) :
    ∃ p', canonical_path disk inodes inode_count i data_start data_end = Outcome.ok p' ∧
      resolve_pathname disk inodes inode_count p' data_start data_end = some i ∧
      (i ≠ 1 → p' = spec_canonical names) := by
  have hi0 : i ≠ 0 := by omega
  have hrange : ¬ (i < 1 ∨ i > inode_count) := by omega
  have hslots : names.length ≤ inode_count + 2 := by
    have := chain_length_lt disk inodes inode_count data_start data_end i names hchain hlo hhi
    omega
  by_cases h1 : i = 1
  · subst h1
    refine ⟨[SLASH] ++ [SLASH], ?_, ?_, fun h => absurd rfl h⟩
    · unfold canonical_path
      rw [if_neg hrange]
      simp
    · rw [resolve_pathname_eq_walk _ _ _ _ _ _ (by rfl)]
      simp [spec_components_cons_slash, spec_components_nil, spec_walk]
  · have hnames := chain_names disk inodes inode_count data_start data_end i names hchain
    have hne : names ≠ [] := fun h =>
      h1 ((chain_names_nil_iff disk inodes inode_count data_start data_end i names hchain).mp h)
    have hwalk := canonical_walk_of_chain disk inodes inode_count data_start data_end i names
      hchain (inode_count + 2) [] hi0 hslots
    rw [List.nil_append] at hwalk
    obtain ⟨c1, rest, hcons⟩ := List.exists_cons_of_ne_nil hne
    obtain ⟨cn, hcn⟩ : ∃ cn, names.getLast? = some cn := by
      cases h : names.getLast? with
      | none => exact absurd (List.getLast?_eq_none_iff.mp h) hne
      | some x => exact ⟨x, rfl⟩
    have hcnmem : cn ∈ names := List.mem_of_getLast?_eq_some hcn
    have hcnsl : cn.getLast? ≠ some SLASH := fun h =>
      (hnames cn hcnmem).2 (List.mem_of_getLast?_eq_some h)
    have hasm : assemble names.reverse = spec_canonical names := by
      rw [hcons] at hcn ⊢
      exact assemble_eq_spec c1 cn rest
        (hnames c1 (by rw [hcons]; exact List.mem_cons_self _ _)).1 hcn
        (hnames cn hcnmem).1 hcnsl
    refine ⟨spec_canonical names, ?_, ?_, fun _ => rfl⟩
    · simp only [canonical_path, hrange, h1, if_false, hwalk, hasm]
    · rw [resolve_pathname_eq_walk _ _ _ _ _ _ (by simp [spec_canonical]),
        List.take_of_length_le (by omega), spec_components_canonical names hnames]
      exact congrArg some
        (spec_walk_of_chain disk inodes inode_count data_start data_end i names hchain hi0)

/-- C8 (what the code does): for every image with `inode_count ≥ 1`,
`canonical_path(1)` returns the two-character string "//" (`strcpy(r, "/")`
followed by `strcat(r, "/")`), not "/". -/
theorem canonical_path_root_double_slash (disk : Disk) (inodes : Nat → idisk_t)
    (inode_count : Nat) (data_start data_end : Nat) (h : 1 ≤ inode_count) :
    canonical_path disk inodes inode_count 1 data_start data_end
      = Outcome.ok [SLASH, SLASH] := by
  have hrange : ¬ (1 < 1 ∨ 1 > inode_count) := by omega
  unfold canonical_path
  rw [if_neg hrange]
  simp

theorem canonical_path_root_double_slash_witness :
    1 ≤ 16 ∧ canonical_path sample_disk sample_inodes 16 1 3 9 = Outcome.ok [SLASH, SLASH] :=
  ⟨by decide, canonical_path_root_double_slash sample_disk sample_inodes 16 3 9 (by decide)⟩

/-- C9, as stated, fails for a name ending in '/' and for an empty name: in the
image with malformed names, directory 2 is reached by the name `x/` and
`canonical_path(2)` is "/x/" where the stated form is "/x//"; directory 4 is
reached by the empty name and then `y`, and `canonical_path(4)` is "/y/" where
the stated form is "//y/". -/
theorem canonical_path_malformed_names :
    canonical_walk odd_disk odd_inodes 16 3 9 (16 + 2) 2 [] = Outcome.ok [[120, SLASH]] ∧
    canonical_path odd_disk odd_inodes 16 2 3 9 = Outcome.ok [SLASH, 120, SLASH] ∧
    spec_canonical [[120, SLASH]] = [SLASH, 120, SLASH, SLASH] ∧
    canonical_walk odd_disk odd_inodes 16 3 9 (16 + 2) 4 [] = Outcome.ok [[121], []] ∧
    canonical_path odd_disk odd_inodes 16 4 3 9 = Outcome.ok [SLASH, 121, SLASH] ∧
    spec_canonical [[], [121]] = [SLASH, SLASH, 121, SLASH] := by
  decide

/-- C9 (amended): for every directory i-number `t ≠ 1` for which the walk of
`canonical_path` succeeds, having collected the names `c1` (child of the root)
.. `cn` (the name of `t`), if `c1` is non-empty and `cn` is non-empty and does
not end in '/', the returned string is exactly
"/" ++ c1 ++ "/" ++ ... ++ "/" ++ cn ++ "/". -/
theorem canonical_path_format (disk : Disk) (inodes : Nat → idisk_t) (inode_count : Nat)
    (data_start data_end : Nat) (t : Nat) (names : List (List Nat))
    (hlo : 1 ≤ t) (hhi : t ≤ inode_count) (ht : t ≠ 1)
    (hwalk : canonical_walk disk inodes inode_count data_start data_end (inode_count + 2) t []
      = Outcome.ok names.reverse)
    (hc1 : names.head? ≠ some [])
    (hcn : ∀ cn, names.getLast? = some cn → cn ≠ [] ∧ cn.getLast? ≠ some SLASH) :
    canonical_path disk inodes inode_count t data_start data_end
      = Outcome.ok (spec_canonical names) := by
  have hrange : ¬ (t < 1 ∨ t > inode_count) := by omega
  have hl := (canonical_walk_length disk inodes inode_count data_start data_end _ _ _ _ hwalk).2 ht
  have hne : names ≠ [] := by
    intro h
    subst h
    simp at hl
  obtain ⟨c1, rest, hcons⟩ := List.exists_cons_of_ne_nil hne
  obtain ⟨cn, hlast⟩ : ∃ cn, names.getLast? = some cn := by
    cases h : names.getLast? with
    | none => exact absurd (List.getLast?_eq_none_iff.mp h) hne
    | some x => exact ⟨x, rfl⟩
  have hcn2 := hcn cn hlast
  subst hcons
  have hc1ne : c1 ≠ [] := by
    intro h
    subst h
    simp at hc1
  simp only [canonical_path, hrange, ht, if_false, hwalk,
    assemble_eq_spec c1 cn rest hc1ne hlast hcn2.1 hcn2.2]

theorem canonical_path_format_witness :
    1 ≤ 2 ∧ 2 ≤ 16 ∧ 2 ≠ 1 ∧
    canonical_walk sample_disk sample_inodes 16 3 9 (16 + 2) 2 []
      = Outcome.ok ([[97]] : List (List Nat)).reverse ∧
    ([[97]] : List (List Nat)).head? ≠ some [] ∧
    (∀ cn, ([[97]] : List (List Nat)).getLast? = some cn →
      cn ≠ [] ∧ cn.getLast? ≠ some SLASH) ∧
    canonical_path sample_disk sample_inodes 16 2 3 9 = Outcome.ok (spec_canonical [[97]]) :=
  ⟨by decide, by decide, by decide, by decide, by decide, by decide,
    canonical_path_format sample_disk sample_inodes 16 3 9 2 [[97]]
      (by decide) (by decide) (by decide) (by decide) (by decide) (by decide)⟩

/-! ## Extraction -/

theorem extract_loop_written (body : Nat → XState → XStep) (sz : Nat) (c : Nat → Nat)
    (hbody : ∀ (i : Nat) (st st1 : XState), st.written < sz → st.written = st.out.length →
      body i st = XStep.ok st1 →
      st1.written = st1.out.length ∧ st1.written = min sz (st.written + 512 * c i)) :
    ∀ (is : List Nat) (st st1 : XState), st.written = st.out.length → st.written ≤ sz →
      extract_loop body sz is st = XStep.ok st1 →
      st1.written = st1.out.length ∧
        st1.written = min sz (st.written + 512 * (is.map c).sum) := by
  intro is
  induction is with
  | nil =>
    intro st st1 hinv hle h
    simp only [extract_loop, XStep.ok.injEq] at h
    subst h
    exact ⟨hinv, by simp; omega⟩
  | cons i is ih =>
    intro st st1 hinv hle h
    unfold extract_loop at h
    by_cases hlt : st.written < sz
    · rw [if_pos hlt] at h
      cases hb : body i st with
      | fail e => rw [hb] at h; cases h
      | ok st2 =>
        rw [hb] at h
        have h2 := hbody i st st2 hlt hinv hb
        have h3 := ih st2 st1 h2.1 (by rw [h2.2]; exact Nat.min_le_left _ _) h
        refine ⟨h3.1, ?_⟩
        rw [h3.2, h2.2]
        simp only [List.map_cons, List.sum_cons]
        omega
    · rw [if_neg hlt] at h
      simp only [XStep.ok.injEq] at h
      subst h
      exact ⟨hinv, by omega⟩

theorem extract_sector_written (disk : Disk) (sz data_start data_end sec : Nat)
    (st st1 : XState) (hlt : st.written < sz) (hinv : st.written = st.out.length)
    (h : extract_sector disk sz data_start data_end sec st = XStep.ok st1) :
    st1.written = st1.out.length ∧
      st1.written = min sz (st.written + 512 * (if sec ≠ 0 then 1 else 0)) := by
  unfold extract_sector at h
  split at h
  · rename_i h0
    simp only [XStep.ok.injEq] at h
    subst h
    exact ⟨hinv, by simp [h0]; omega⟩
  · rename_i h0
    split at h
    · cases h
    · split at h
      · cases h
      · simp only [XStep.ok.injEq] at h
        subst h
        simp only [List.length_append, List.length_map, List.length_range, h0, ne_eq,
          not_false_eq_true, if_true]
        refine ⟨by omega, ?_⟩
        split <;> omega

theorem length_filter_map_eq_sum (f : Nat → Nat) (is : List Nat) :
    ((is.map f).filter (fun s => s != 0)).length
      = (is.map (fun i => if f i ≠ 0 then 1 else 0)).sum := by
  induction is with
  | nil => rfl
  | cons i is ih =>
    by_cases h : f i = 0
    · simp [List.filter_cons, h, ih]
    · simp [List.filter_cons, h, ih]
      omega

theorem extract_indirect_written (disk : Disk) (sz data_start data_end indir : Nat)
    (st st1 : XState) (hlt : st.written < sz) (hinv : st.written = st.out.length)
    (h : extract_indirect disk sz data_start data_end indir st = XStep.ok st1) :
    st1.written = st1.out.length ∧
      st1.written = min sz (st.written
        + 512 * (indirect_pointers disk indir data_start data_end).length) := by
  unfold extract_indirect at h
  unfold indirect_pointers
  split at h
  · rename_i h0
    simp only [XStep.ok.injEq] at h
    subst h
    exact ⟨hinv, by simp [h0]; omega⟩
  · rename_i h0
    split at h
    · cases h
    · rename_i h1
      split at h
      · cases h
      · rename_i indirbuf hr
        rw [if_neg h0, if_neg h1]
        rw [length_filter_map_eq_sum]
        exact extract_loop_written _ sz _
          (fun e s s1 hl hi hb =>
            extract_sector_written disk sz data_start data_end _ s s1 hl hi hb)
          _ st st1 hinv (by omega) h

theorem extract_blocks_written (disk : Disk) (fino : idisk_t) (sz data_start data_end : Nat)
    (st1 : XState) (h : extract_blocks disk fino sz data_start data_end = XStep.ok st1) :
    st1.out.length = min sz (512 * (data_pointers disk fino data_start data_end).length) := by
  unfold extract_blocks at h
  unfold data_pointers
  split at h
  · rename_i hl
    rw [if_pos hl, length_filter_map_eq_sum]
    have := extract_loop_written _ sz _
      (fun k s s1 hl hi hb =>
        extract_sector_written disk sz data_start data_end (fino.i_addr k) s s1 hl hi hb)
      _ _ st1 rfl (Nat.zero_le _) h
    rw [← this.1, this.2]
    simp
  · rename_i hl
    rw [if_neg hl, List.length_flatten, List.map_map]
    have := extract_loop_written _ sz _
      (fun k s s1 hl hi hb =>
        extract_indirect_written disk sz data_start data_end (fino.i_addr k) s s1 hl hi hb)
      _ _ st1 rfl (Nat.zero_le _) h
    rw [← this.1, this.2]
    simp [Function.comp_def]

/-- C10, as stated, fails for a file with holes: inode 5 of the sample image is
a regular file of recorded size 7 whose block pointers are all zero, and its
extraction returns 0 having written no byte. -/
theorem extract_all_holes :
    (sample_inodes 5).i_mode &&& IFMT = 0 ∧
    inode_size_bytes (sample_inodes 5) = 7 ∧
    extract_file_to_stdout sample_disk sample_inodes 16 5 3 9 = (0, []) := by
  decide

/-- C10 (amended): for every inode with recorded size `s` whose extraction
succeeds (`extract_file_to_stdout` returns 0), exactly `min(s, 512 * n)` bytes
are written, where `n` is the number of non-zero data sector pointers of the
file (the non-zero `i_addr[k]`, or the non-zero entries of its indirect sectors
when the large bit is set): exactly `s` bytes when those pointers cover the
size, fewer when zero pointers leave it uncovered. -/
theorem extract_writes_size (disk : Disk) (inodes : Nat → idisk_t) (inode_count : Nat)
    (ino : Nat) (data_start data_end : Nat)
    (h : (extract_file_to_stdout disk inodes inode_count ino data_start data_end).1 = 0) :
    (extract_file_to_stdout disk inodes inode_count ino data_start data_end).2.length
      = min (inode_size_bytes (inodes ino))
          (512 * (data_pointers disk (inodes ino) data_start data_end).length) := by
  unfold extract_file_to_stdout at h ⊢
  split at h
  · simp at h
  · rename_i h1
    rw [if_neg h1]
    split at h
    · simp at h
    · rename_i h2
      rw [if_neg h2]
      split at h
      · simp at h
      · rename_i h3
        rw [if_neg h3]
        cases hb : extract_blocks disk (inodes ino) (inode_size_bytes (inodes ino))
            data_start data_end with
        | fail st => rw [hb] at h; simp at h
        | ok st =>
          simp only []
          exact extract_blocks_written disk _ _ data_start data_end st hb

theorem extract_writes_size_witness :
    (extract_file_to_stdout sample_disk sample_inodes 16 3 3 9).1 = 0 ∧
    (extract_file_to_stdout sample_disk sample_inodes 16 3 3 9).2.length
      = min (inode_size_bytes (sample_inodes 3))
          (512 * (data_pointers sample_disk (sample_inodes 3) 3 9).length) :=
  ⟨by decide, extract_writes_size sample_disk sample_inodes 16 3 3 9 (by decide)⟩

/-! ## Extracted content -/

theorem take_take_append (n : Nat) (a b : List Nat) :
    ((a.take n) ++ b).take n = (a ++ b).take n := by
  by_cases h : a.length ≤ n
  · rw [List.take_of_length_le h]
  · have h1 : n ≤ a.length := by omega
    have h2 : (a.take n).length = n := by simp [List.length_take]; omega
    rw [List.take_append_eq_append_take, List.take_append_eq_append_take, h2]
    simp [List.take_take]
    omega

theorem extract_loop_content (body : Nat → XState → XStep) (sz : Nat) (content : Nat → List Nat)
    (is : List Nat) :
    (∀ i ∈ is, ∀ st : XState, st.written < sz → st.written = st.out.length →
      ∃ st1, body i st = XStep.ok st1 ∧ st1.written = st1.out.length ∧
        st1.out = (st.out ++ content i).take sz) →
    ∀ st : XState, st.written = st.out.length → st.written ≤ sz →
      ∃ st1, extract_loop body sz is st = XStep.ok st1 ∧ st1.written = st1.out.length ∧
        st1.out = (st.out ++ (is.map content).flatten).take sz := by
  induction is with
  | nil =>
    intro _ st hinv hle
    refine ⟨st, rfl, hinv, ?_⟩
    simp only [List.map_nil, List.flatten_nil, List.append_nil]
    rw [List.take_of_length_le (by omega)]
  | cons i is ih =>
    intro hbody st hinv hle
    unfold extract_loop
    by_cases hlt : st.written < sz
    · rw [if_pos hlt]
      obtain ⟨st2, hb, hinv2, hout2⟩ := hbody i (List.mem_cons_self _ _) st hlt hinv
      rw [hb]
      have hle2 : st2.written ≤ sz := by
        rw [hinv2, hout2]
        exact List.length_take_le _ _
      obtain ⟨st1, hl, hinv1, hout1⟩ :=
        ih (fun j hj => hbody j (List.mem_cons_of_mem _ hj)) st2 hinv2 hle2
      refine ⟨st1, hl, hinv1, ?_⟩
      rw [hout1, hout2, take_take_append]
      simp [List.append_assoc]
    · rw [if_neg hlt]
      refine ⟨st, rfl, hinv, ?_⟩
      rw [List.take_append_eq_append_take, List.take_of_length_le (by omega)]
      have : sz - st.out.length = 0 := by omega
      simp [this]

theorem extract_sector_content (disk : Disk) (sz data_start data_end sec : Nat) (st : XState)
    (hok : sec ≠ 0 → sector_ok disk data_start data_end sec = true)
    (hlt : st.written < sz) (hinv : st.written = st.out.length) :
    ∃ st1, extract_sector disk sz data_start data_end sec st = XStep.ok st1 ∧
      st1.written = st1.out.length ∧
      st1.out = (st.out ++ (if sec = 0 then [] else sector_contents disk sec)).take sz := by
  unfold extract_sector
  by_cases h0 : sec = 0
  · simp only [h0, if_true]
    refine ⟨st, rfl, hinv, ?_⟩
    rw [List.append_nil, List.take_of_length_le (by omega)]
  · have h := hok h0
    simp only [sector_ok, Bool.and_eq_true, decide_eq_true_eq] at h
    obtain ⟨⟨h1, h2⟩, h3⟩ := h
    have hr : ¬ (sec < data_start ∨ sec > data_end) := by omega
    obtain ⟨buf, hbuf⟩ := Option.isSome_iff_exists.mp h3
    simp only [h0, hr, if_false, hbuf, sector_contents, sector_bytes]
    refine ⟨_, rfl, ?_, ?_⟩
    · simp only [List.length_append, List.length_map, List.length_range]
      omega
    · simp only []
      rw [List.take_append_eq_append_take, List.take_of_length_le (by omega), ← hinv,
        ← List.map_take, List.take_range]
      have ht : (if sz - st.written > 512 then 512 else sz - st.written)
          = min (sz - st.written) 512 := by
        split <;> omega
      rw [ht]

theorem flatten_map_nonzero (f : Nat → Nat) (g : Nat → List Nat) (is : List Nat) :
    (is.map (fun i => if f i = 0 then [] else g (f i))).flatten
      = ((((is.map f).filter (fun s => s != 0))).map g).flatten := by
  induction is with
  | nil => rfl
  | cons i is ih =>
    by_cases h : f i = 0
    · simp [List.filter_cons, h, ih]
    · simp [List.filter_cons, h, ih]

theorem extract_indirect_content (disk : Disk) (sz data_start data_end indir : Nat) (st : XState)
    (hok : indir ≠ 0 → sector_ok disk data_start data_end indir = true)
    (hptr : ∀ p ∈ indirect_pointers disk indir data_start data_end,
      sector_ok disk data_start data_end p = true)
    (hlt : st.written < sz) (hinv : st.written = st.out.length) :
    ∃ st1, extract_indirect disk sz data_start data_end indir st = XStep.ok st1 ∧
      st1.written = st1.out.length ∧
      st1.out = (st.out ++ ((indirect_pointers disk indir data_start data_end).map
        (sector_contents disk)).flatten).take sz := by
  unfold extract_indirect
  by_cases h0 : indir = 0
  · simp only [h0, if_true, indirect_pointers]
    refine ⟨st, rfl, hinv, ?_⟩
    simp only [List.map_nil, List.flatten_nil, List.append_nil]
    rw [List.take_of_length_le (by omega)]
  · have h := hok h0
    simp only [sector_ok, Bool.and_eq_true, decide_eq_true_eq] at h
    obtain ⟨⟨h1, h2⟩, h3⟩ := h
    have hr : ¬ (indir < data_start ∨ indir > data_end) := by omega
    obtain ⟨indirbuf, hbuf⟩ := Option.isSome_iff_exists.mp h3
    have hip : indirect_pointers disk indir data_start data_end
        = ((List.range 256).map (fun e => le16 indirbuf (e * 2))).filter (fun s => s != 0) := by
      simp only [indirect_pointers, h0, hr, if_false, hbuf]
    simp only [h0, hr, if_false, hbuf]
    rw [hip, ← flatten_map_nonzero (fun e => le16 indirbuf (e * 2)) (sector_contents disk)]
    apply extract_loop_content _ sz
      (fun e => if le16 indirbuf (e * 2) = 0 then [] else sector_contents disk (le16 indirbuf (e * 2)))
    · intro e he s hl hi
      apply extract_sector_content disk sz data_start data_end _ s _ hl hi
      intro hne
      apply hptr
      rw [hip]
      exact List.mem_filter.mpr ⟨List.mem_map.mpr ⟨e, he, rfl⟩, by simpa using hne⟩
    · exact hinv
    · omega

theorem extract_blocks_content (disk : Disk) (fino : idisk_t) (sz data_start data_end : Nat)
    (hind : fino.i_mode &&& ILARG ≠ 0 → ∀ k, k < 8 → fino.i_addr k ≠ 0 →
      sector_ok disk data_start data_end (fino.i_addr k) = true)
    (hdata : ∀ p ∈ data_pointers disk fino data_start data_end,
      sector_ok disk data_start data_end p = true) :
    ∃ st1, extract_blocks disk fino sz data_start data_end = XStep.ok st1 ∧
      st1.out = (((data_pointers disk fino data_start data_end).map
        (sector_contents disk)).flatten).take sz := by
  unfold extract_blocks
  by_cases hl : fino.i_mode &&& ILARG = 0
  · have hdp : data_pointers disk fino data_start data_end
        = ((List.range 8).map fino.i_addr).filter (fun s => s != 0) := by
      simp only [data_pointers, hl, if_true]
    rw [if_pos hl, hdp, ← flatten_map_nonzero fino.i_addr (sector_contents disk)]
    obtain ⟨st1, h1, _, h3⟩ := extract_loop_content
      (fun k => extract_sector disk sz data_start data_end (fino.i_addr k)) sz
      (fun k => if fino.i_addr k = 0 then [] else sector_contents disk (fino.i_addr k))
      (List.range 8)
      (fun k hk s hlt hi =>
        extract_sector_content disk sz data_start data_end _ s
          (fun hne => hdata _ (by
            rw [hdp]
            exact List.mem_filter.mpr ⟨List.mem_map.mpr ⟨k, hk, rfl⟩, by simpa using hne⟩))
          hlt hi)
      { written := 0, out := [] } rfl (Nat.zero_le _)
    exact ⟨st1, h1, by simpa using h3⟩
  · have hdp : data_pointers disk fino data_start data_end
        = ((List.range 8).map
            (fun k => indirect_pointers disk (fino.i_addr k) data_start data_end)).flatten := by
      simp only [data_pointers, hl, if_false]
    rw [if_neg hl, hdp]
    obtain ⟨st1, h1, _, h3⟩ := extract_loop_content
      (fun k => extract_indirect disk sz data_start data_end (fino.i_addr k)) sz
      (fun k => ((indirect_pointers disk (fino.i_addr k) data_start data_end).map
        (sector_contents disk)).flatten)
      (List.range 8)
      (fun k hk s hlt hi =>
        extract_indirect_content disk sz data_start data_end _ s
          (fun hne => hind hl k (List.mem_range.mp hk) hne)
          (fun p hp => hdata p (by
            rw [hdp]
            exact List.mem_flatten.mpr ⟨_, List.mem_map.mpr ⟨k, hk, rfl⟩, hp⟩))
          hlt hi)
      { written := 0, out := [] } rfl (Nat.zero_le _)
    refine ⟨st1, h1, ?_⟩
    rw [h3, List.map_flatten, List.flatten_flatten, List.map_map, List.map_map]
    simp [Function.comp_def]

/-- C11: for every regular-file inode all of whose non-zero sector pointers
(the indirect-sector pointers of a large file included) lie in
`[data_start, data_end]` and name sectors the image holds, the bytes written by
`extract_file_to_stdout` are the concatenation, in file order, of the 512-byte
contents of the sectors named by its non-zero pointers, truncated to the
inode's recorded size, and the function returns 0. -/
theorem extract_content (disk : Disk) (inodes : Nat → idisk_t) (inode_count : Nat)
    (ino : Nat) (data_start data_end : Nat)
    (hlo : 1 ≤ ino) (hhi : ino ≤ inode_count)
    (hreg : (inodes ino).i_mode &&& IFMT = 0)
    (hind : (inodes ino).i_mode &&& ILARG ≠ 0 → ∀ k, k < 8 → (inodes ino).i_addr k ≠ 0 →
      sector_ok disk data_start data_end ((inodes ino).i_addr k) = true)
    (hdata : ∀ p ∈ data_pointers disk (inodes ino) data_start data_end,
      sector_ok disk data_start data_end p = true) :
    extract_file_to_stdout disk inodes inode_count ino data_start data_end
      = (0, spec_file_content disk (inodes ino) data_start data_end) := by
  have hrange : ¬ (ino < 1 ∨ ino > inode_count) := by omega
  obtain ⟨st1, h1, h2⟩ := extract_blocks_content disk (inodes ino)
    (inode_size_bytes (inodes ino)) data_start data_end hind hdata
  unfold extract_file_to_stdout
  rw [if_neg hrange, hreg, if_neg (by decide), if_neg (by decide), h1]
  simp only [h2, spec_file_content]

theorem extract_content_witness :
    1 ≤ 3 ∧ 3 ≤ 16 ∧ (sample_inodes 3).i_mode &&& IFMT = 0 ∧
    ((sample_inodes 3).i_mode &&& ILARG ≠ 0 → ∀ k, k < 8 → (sample_inodes 3).i_addr k ≠ 0 →
      sector_ok sample_disk 3 9 ((sample_inodes 3).i_addr k) = true) ∧
    (∀ p ∈ data_pointers sample_disk (sample_inodes 3) 3 9, sector_ok sample_disk 3 9 p = true) ∧
    extract_file_to_stdout sample_disk sample_inodes 16 3 3 9
      = (0, spec_file_content sample_disk (sample_inodes 3) 3 9) :=
  ⟨by decide, by decide, by decide, by decide, by decide,
    extract_content sample_disk sample_inodes 16 3 3 9 (by decide) (by decide) (by decide)
      (by decide) (by decide)⟩

/-! ## The command line -/

theorem opt_of_arg_f : opt_of_arg OPT_f = none := by decide

theorem opt_of_arg_h : opt_of_arg OPT_h = none := by decide

theorem flag_count_nil (o : Opt) : flag_count o [] = 0 := rfl

theorem flag_count_f (o : Opt) (img : List Nat) (rest : List (List Nat)) :
    flag_count o (OPT_f :: img :: rest) = flag_count o rest := by
  simp [flag_count, option_args, opt_of_arg_f]

theorem flag_count_cons (o : Opt) (arg : List Nat) (rest : List (List Nat))
    (hf : arg ≠ OPT_f) :
    flag_count o (arg :: rest)
      = (if opt_of_arg arg = some o then 1 else 0) + flag_count o rest := by
  have ho : option_args (arg :: rest) = arg :: option_args rest := by
    rw [option_args.eq_def]
    simp only [hf, if_false]
  unfold flag_count
  rw [ho, List.countP_cons]
  simp only [beq_iff_eq]
  omega

/-- The option loop sets each flag exactly when it is given, and fails when a
flag is given twice. -/
theorem parse_options_seen (n : Nat) :
    ∀ (args : List (List Nat)) (fl fl2 : Flags), args.length = n →
      parse_options args fl = Except.ok fl2 →
      ∀ o, flag_int (fl2.seen o) = flag_int (fl.seen o) + flag_count o args := by
  induction n using Nat.strong_induction_on with
  | _ n ih =>
    intro args fl fl2 hlen h o
    cases args with
    | nil =>
      simp only [parse_options, Except.ok.injEq] at h
      subst h
      simp [flag_count_nil]
    | cons arg rest =>
      unfold parse_options at h
      by_cases hf : arg = OPT_f
      · rw [if_pos hf] at h
        by_cases hs : fl.f_seen = true
        · simp [hs] at h
        · simp only [hs] at h
          cases rest with
          | nil => simp at h
          | cons img rest2 =>
            simp only [Bool.false_eq_true, if_false] at h
            have := ih rest2.length (by simp at hlen; omega) rest2 _ fl2 rfl h o
            rw [hf, flag_count_f]
            exact this
      · rw [if_neg hf] at h
        rw [flag_count_cons o arg rest hf]
        cases hq : opt_of_arg arg with
        | none =>
          rw [hq] at h
          simp only [] at h
          by_cases hd : arg.head? = some DASH
          · simp [hd] at h
          · rw [if_neg hd] at h
            have := ih rest.length (by simp at hlen; omega) rest fl fl2 rfl h o
            simp only [reduceCtorEq, if_false, Nat.zero_add]
            exact this
        | some q =>
          rw [hq] at h
          simp only [] at h
          by_cases hs : fl.seen q = true
          · simp [hs] at h
          · rw [if_neg hs] at h
            have := ih rest.length (by simp at hlen; omega) rest _ fl2 rfl h o
            rw [this]
            by_cases hqo : q = o
            · subst hqo
              simp only [if_true, Option.some.injEq]
              have : fl.seen q = false := by simpa using hs
              simp [this, flag_int]
            · have hoq : ¬ o = q := fun hh => hqo hh.symm
              simp [hoq, hqo]

theorem parse_options_flag (args : List (List Nat)) (fl : Flags)
    (h : parse_options args no_flags = Except.ok fl) (o : Opt) :
    flag_int (fl.seen o) = flag_count o args := by
  have := parse_options_seen args.length args no_flags fl rfl h o
  simpa [no_flags, flag_int] using this

theorem parse_options_modes (args : List (List Nat)) (fl : Flags)
    (h : parse_options args no_flags = Except.ok fl) :
    modes fl = mode_flag_count args := by
  simp only [modes, mode_flag_count, parse_options_flag args fl h]

theorem parse_options_present (args : List (List Nat)) (fl : Flags)
    (h : parse_options args no_flags = Except.ok fl) (o : Opt) :
    fl.seen o = flag_present o args := by
  have := parse_options_flag args fl h o
  unfold flag_present
  cases hs : fl.seen o <;> simp [hs, flag_int] at this ⊢ <;> omega

theorem validate_error (prog : List Nat) (args : List (List Nat)) (fl : Flags)
    (h : fl.f_seen = false ∨ modes fl ≠ 1 ∨
      ((fl.seen Opt.x || fl.seen Opt.l) && !(xor (fl.seen Opt.i) (fl.seen Opt.n))) = true ∨
      (!(fl.seen Opt.x || fl.seen Opt.l) && (fl.seen Opt.i || fl.seen Opt.n)) = true) :
    ∃ msg, validate prog args fl = Except.error msg := by
  unfold validate
  by_cases h1 : (!fl.f_seen) = true
  · rw [if_pos h1]; exact ⟨_, rfl⟩
  · rw [if_neg h1]
    by_cases h2 : modes fl ≠ 1
    · rw [if_pos h2]; exact ⟨_, rfl⟩
    · rw [if_neg h2]
      by_cases h3 : ((fl.seen Opt.x || fl.seen Opt.l)
          && !(xor (fl.seen Opt.i) (fl.seen Opt.n))) = true
      · rw [if_pos h3]; exact ⟨_, rfl⟩
      · rw [if_neg h3]
        by_cases h4 : (!(fl.seen Opt.x || fl.seen Opt.l)
            && (fl.seen Opt.i || fl.seen Opt.n)) = true
        · rw [if_pos h4]; exact ⟨_, rfl⟩
        · exfalso
          rcases h with h | h | h | h
          · simp [h] at h1
          · exact h2 h
          · exact h3 h
          · exact h4 h

theorem dosiero_main_help (fs : List Nat → Option Disk) (fuel : Nat) (argv : List (List Nat))
    (hh : (argv.tail).head? = some OPT_h) :
    dosiero_main fs fuel argv = early_exit EXIT_SUCCESS (help_text (argv.headD [])) := by
  simp only [dosiero_main, startup, hh, if_true]

theorem dosiero_main_parse_error (fs : List Nat → Option Disk) (fuel : Nat)
    (argv : List (List Nat)) (msg : List Nat)
    (hh : (argv.tail).head? ≠ some OPT_h)
    (hp : parse_options (argv.tail) no_flags = Except.error msg) :
    dosiero_main fs fuel argv = early_exit EXIT_FAILURE msg := by
  simp only [dosiero_main, startup, hh, if_false, hp]

theorem dosiero_main_validate_error (fs : List Nat → Option Disk) (fuel : Nat)
    (argv : List (List Nat)) (fl : Flags) (msg : List Nat)
    (hh : (argv.tail).head? ≠ some OPT_h)
    (hp : parse_options (argv.tail) no_flags = Except.ok fl)
    (hv : validate (argv.headD []) (argv.tail) fl = Except.error msg) :
    dosiero_main fs fuel argv = early_exit EXIT_FAILURE msg := by
  simp only [dosiero_main, startup, hh, if_false, hp, hv]

/-- When the flags the option loop leaves cannot pass the checks, the run ends
with `EXIT_FAILURE` before `fopen`. -/
theorem dosiero_main_early_failure (fs : List Nat → Option Disk) (fuel : Nat)
    (argv : List (List Nat)) (hh : (argv.tail).head? ≠ some OPT_h)
    (h : ∀ fl, parse_options (argv.tail) no_flags = Except.ok fl →
      ∃ msg, validate (argv.headD []) (argv.tail) fl = Except.error msg) :
    ∃ msg, dosiero_main fs fuel argv = early_exit EXIT_FAILURE msg := by
  cases hp : parse_options (argv.tail) no_flags with
  | error msg => exact ⟨msg, dosiero_main_parse_error fs fuel argv msg hh hp⟩
  | ok fl =>
    obtain ⟨msg, hv⟩ := h fl hp
    exact ⟨msg, dosiero_main_validate_error fs fuel argv fl msg hh hp hv⟩

/-- C17: for every argument vector whose first argument is not `-h`, when the
number of mode flags given among `-x -r -p -l -a -c` is not exactly one,
`dosiero_main` returns `EXIT_FAILURE` (non-zero) without calling `fopen` and
without writing to standard output. -/
theorem main_requires_one_mode (fs : List Nat → Option Disk) (fuel : Nat)
    (argv : List (List Nat)) (hh : (argv.tail).head? ≠ some OPT_h)
    (hm : mode_flag_count (argv.tail) ≠ 1) :
    (dosiero_main fs fuel argv).ending = Ending.exit EXIT_FAILURE ∧
    EXIT_FAILURE ≠ 0 ∧
    (dosiero_main fs fuel argv).opened = none ∧
    (dosiero_main fs fuel argv).out = [] := by
  obtain ⟨msg, hmain⟩ := dosiero_main_early_failure fs fuel argv hh (fun fl hp =>
    validate_error _ _ fl (Or.inr (Or.inl (by
      rw [parse_options_modes _ fl hp]; exact hm))))
  rw [hmain]
  exact ⟨rfl, by decide, rfl, rfl⟩

theorem main_requires_one_mode_witness :
    ([[100], OPT_f, [105, 109, 103], [DASH, 120], [DASH, 114], [SLASH]].tail).head?
      ≠ some OPT_h ∧
    mode_flag_count ([[100], OPT_f, [105, 109, 103], [DASH, 120], [DASH, 114], [SLASH]].tail)
      ≠ 1 ∧
    (dosiero_main sample_fs 0
      [[100], OPT_f, [105, 109, 103], [DASH, 120], [DASH, 114], [SLASH]]).ending
      = Ending.exit EXIT_FAILURE ∧
    EXIT_FAILURE ≠ 0 ∧
    (dosiero_main sample_fs 0
      [[100], OPT_f, [105, 109, 103], [DASH, 120], [DASH, 114], [SLASH]]).opened = none ∧
    (dosiero_main sample_fs 0
      [[100], OPT_f, [105, 109, 103], [DASH, 120], [DASH, 114], [SLASH]]).out = [] :=
  ⟨by decide, by decide,
    main_requires_one_mode sample_fs 0
      [[100], OPT_f, [105, 109, 103], [DASH, 120], [DASH, 114], [SLASH]]
      (by decide) (by decide)⟩

/-- C18, as stated, fails when the first argument is `-h`: the arguments
`-h -x -i -n` hold exactly one mode flag, `-x`, together with both `-i` and
`-n`, and `dosiero_main` returns `EXIT_SUCCESS`. -/
theorem help_overrides_flag_checks :
    mode_flag_count [OPT_h, [DASH, 120], [DASH, 105], [DASH, 110]] = 1 ∧
    flag_present Opt.x [OPT_h, [DASH, 120], [DASH, 105], [DASH, 110]] = true ∧
    flag_present Opt.i [OPT_h, [DASH, 120], [DASH, 105], [DASH, 110]] = true ∧
    flag_present Opt.n [OPT_h, [DASH, 120], [DASH, 105], [DASH, 110]] = true ∧
    (dosiero_main sample_fs 0
      [[100], OPT_h, [DASH, 120], [DASH, 105], [DASH, 110]]).ending
      = Ending.exit EXIT_SUCCESS ∧
    EXIT_SUCCESS = 0 := by
  refine ⟨by decide, by decide, by decide, by decide, ?_, rfl⟩
  rw [dosiero_main_help sample_fs 0 _ (by decide)]
  rfl

/-- C18 (amended): for every argument vector whose first argument is not `-h`
and that holds exactly one mode flag: if the mode is `-x` or `-l`,
`dosiero_main` returns `EXIT_FAILURE` (non-zero) unless exactly one of `-i` and
`-n` is present; if the mode is `-r`, `-p`, `-a` or `-c`, it returns
`EXIT_FAILURE` whenever `-i` or `-n` is present. -/
theorem main_checks_i_n (fs : List Nat → Option Disk) (fuel : Nat)
    (argv : List (List Nat)) (hh : (argv.tail).head? ≠ some OPT_h)
    (hm : mode_flag_count (argv.tail) = 1) :
    ((flag_present Opt.x (argv.tail) = true ∨ flag_present Opt.l (argv.tail) = true) →
      xor (flag_present Opt.i (argv.tail)) (flag_present Opt.n (argv.tail)) = false →
      (dosiero_main fs fuel argv).ending = Ending.exit EXIT_FAILURE) ∧
    ((flag_present Opt.r (argv.tail) = true ∨ flag_present Opt.p (argv.tail) = true ∨
        flag_present Opt.a (argv.tail) = true ∨ flag_present Opt.c (argv.tail) = true) →
      (flag_present Opt.i (argv.tail) = true ∨ flag_present Opt.n (argv.tail) = true) →
      (dosiero_main fs fuel argv).ending = Ending.exit EXIT_FAILURE) ∧
    EXIT_FAILURE ≠ 0 := by
  refine ⟨?_, ?_, by decide⟩
  · intro hxl hin
    obtain ⟨msg, hmain⟩ := dosiero_main_early_failure fs fuel argv hh (fun fl hp =>
      validate_error _ _ fl (Or.inr (Or.inr (Or.inl (by
        simp only [parse_options_present _ fl hp, hin]
        rcases hxl with h | h <;> simp [h])))))
    rw [hmain]; rfl
  · intro hmode hin
    obtain ⟨msg, hmain⟩ := dosiero_main_early_failure fs fuel argv hh (fun fl hp => by
      have hx := parse_options_flag _ fl hp Opt.x
      have hl := parse_options_flag _ fl hp Opt.l
      have hxl : flag_count Opt.x (argv.tail) = 0 ∧ flag_count Opt.l (argv.tail) = 0 := by
        unfold mode_flag_count at hm
        simp only [flag_present, decide_eq_true_eq] at hmode
        omega
      rw [hxl.1] at hx
      rw [hxl.2] at hl
      have hx2 : fl.seen Opt.x = false := by
        cases h : fl.seen Opt.x <;> simp [h, flag_int] at hx ⊢
      have hl2 : fl.seen Opt.l = false := by
        cases h : fl.seen Opt.l <;> simp [h, flag_int] at hl ⊢
      exact validate_error _ _ fl (Or.inr (Or.inr (Or.inr (by
        simp only [hx2, hl2, parse_options_present _ fl hp]
        rcases hin with h | h <;> simp [h]))))
      )
    rw [hmain]; rfl

theorem main_checks_i_n_witness :
    ([[100], OPT_f, [105, 109, 103], [DASH, 114], [SLASH], [DASH, 110]].tail).head?
      ≠ some OPT_h ∧
    mode_flag_count ([[100], OPT_f, [105, 109, 103], [DASH, 114], [SLASH], [DASH, 110]].tail)
      = 1 ∧
    (dosiero_main sample_fs 0
      [[100], OPT_f, [105, 109, 103], [DASH, 114], [SLASH], [DASH, 110]]).ending
      = Ending.exit EXIT_FAILURE :=
  ⟨by decide, by decide,
    (main_checks_i_n sample_fs 0
      [[100], OPT_f, [105, 109, 103], [DASH, 114], [SLASH], [DASH, 110]]
      (by decide) (by decide)).2.1 (by decide) (by decide)⟩

theorem help_text_head (prog : List Nat) : (help_text prog).head? = some 85 := rfl

theorem usage_text_ne_help_text (prog : List Nat) : usage_text prog ≠ help_text prog := by
  intro h
  have := congrArg List.length h
  simp [usage_text, help_text, line] at this

theorem parse_options_error_head (n : Nat) :
    ∀ (args : List (List Nat)) (fl : Flags) (msg : List Nat), args.length = n →
      parse_options args fl = Except.error msg → msg.head? = some 69 := by
  induction n using Nat.strong_induction_on with
  | _ n ih =>
    intro args fl msg hlen h
    cases args with
    | nil => simp [parse_options] at h
    | cons arg rest =>
      unfold parse_options at h
      by_cases hf : arg = OPT_f
      · rw [if_pos hf] at h
        by_cases hs : fl.f_seen = true
        · simp only [hs, if_true, Except.error.injEq] at h
          subst h; rfl
        · simp only [hs] at h
          cases rest with
          | nil =>
            simp only [Bool.false_eq_true, if_false, Except.error.injEq] at h
            subst h; rfl
          | cons img rest2 =>
            simp only [Bool.false_eq_true, if_false] at h
            exact ih rest2.length (by simp at hlen; omega) rest2 _ msg rfl h
      · rw [if_neg hf] at h
        cases hq : opt_of_arg arg with
        | none =>
          rw [hq] at h
          simp only [] at h
          by_cases hd : arg.head? = some DASH
          · simp only [hd, if_true, Except.error.injEq] at h
            subst h; rfl
          · rw [if_neg hd] at h
            exact ih rest.length (by simp at hlen; omega) rest fl msg rfl h
        | some q =>
          rw [hq] at h
          simp only [] at h
          by_cases hs : fl.seen q = true
          · simp only [hs, if_true, Except.error.injEq] at h
            subst h; rfl
          · rw [if_neg hs] at h
            exact ih rest.length (by simp at hlen; omega) rest _ msg rfl h

theorem parse_options_rejects_h (n : Nat) :
    ∀ (args : List (List Nat)) (fl : Flags), args.length = n →
      OPT_h ∈ option_args args → ∃ msg, parse_options args fl = Except.error msg := by
  induction n using Nat.strong_induction_on with
  | _ n ih =>
    intro args fl hlen hmem
    cases args with
    | nil => simp [option_args] at hmem
    | cons arg rest =>
      rw [option_args.eq_def] at hmem
      unfold parse_options
      by_cases hf : arg = OPT_f
      · simp only [hf, if_true] at hmem ⊢
        by_cases hs : fl.f_seen = true
        · rw [if_pos hs]
          exact ⟨_, rfl⟩
        · simp only [hs, Bool.false_eq_true, if_false]
          cases rest with
          | nil => exact ⟨_, rfl⟩
          | cons img rest2 =>
            simp only [List.mem_cons] at hmem
            rcases hmem with hm | hm
            · exact absurd hm (by decide)
            · exact ih rest2.length (by simp at hlen; omega) rest2 _ rfl hm
      · simp only [hf, if_false, List.mem_cons] at hmem ⊢
        rcases hmem with hm | hm
        · subst hm
          exact ⟨_, by simp only [opt_of_arg_h]; rfl⟩
        · cases hq : opt_of_arg arg with
          | none =>
            simp only []
            by_cases hd : arg.head? = some DASH
            · rw [if_pos hd]
              exact ⟨_, rfl⟩
            · simp only [hd, if_false]
              exact ih rest.length (by simp at hlen; omega) rest fl rfl hm
          | some q =>
            simp only []
            by_cases hs : fl.seen q = true
            · rw [if_pos hs]
              exact ⟨_, rfl⟩
            · simp only [hs, Bool.false_eq_true, if_false]
              exact ih rest.length (by simp at hlen; omega) rest _ rfl hm

theorem validate_error_form (prog : List Nat) (args : List (List Nat)) (fl : Flags)
    (msg : List Nat) (h : validate prog args fl = Except.error msg) :
    msg.head? = some 69 ∨ msg = usage_text prog := by
  unfold validate at h
  split at h
  · cases h; exact Or.inl rfl
  · split at h
    · cases h; exact Or.inl rfl
    · split at h
      · cases h; exact Or.inl rfl
      · split at h
        · cases h; exact Or.inl rfl
        · simp only [] at h
          split at h
          · cases h; exact Or.inr rfl
          · split at h
            · cases h; exact Or.inr rfl
            · split at h
              · cases h; exact Or.inr rfl
              · split at h
                · cases h; exact Or.inr rfl
                · split at h
                  · cases h; exact Or.inr rfl
                  · cases h

/-- Unless `-h` is the first argument, the error stream never receives the
help text. -/
theorem dosiero_main_no_help (fs : List Nat → Option Disk) (fuel : Nat)
    (argv : List (List Nat)) (hh : argv.tail.head? ≠ some OPT_h) :
    (dosiero_main fs fuel argv).err ≠ help_text (argv.headD []) := by
  have hne : ∀ msg : List Nat, msg.head? = some 69 → msg ≠ help_text (argv.headD []) := by
    intro msg hm he
    rw [he, help_text_head] at hm
    cases hm
  have hnil : ([] : List Nat) ≠ help_text (argv.headD []) := by
    intro he
    have := help_text_head (argv.headD [])
    rw [← he] at this
    cases this
  cases hp : parse_options argv.tail no_flags with
  | error msg =>
    rw [dosiero_main_parse_error fs fuel argv msg hh hp]
    exact hne msg (parse_options_error_head _ _ _ _ rfl hp)
  | ok fl =>
    cases hv : validate (argv.headD []) argv.tail fl with
    | error msg =>
      rw [dosiero_main_validate_error fs fuel argv fl msg hh hp hv]
      rcases validate_error_form _ _ _ _ hv with h | h
      · exact hne msg h
      · show msg ≠ _
        rw [h]
        exact usage_text_ne_help_text _
    | ok nonopt_arg =>
      simp only [dosiero_main, startup, hh, if_false, hp, hv]
      cases hfs : fs fl.diskimage with
      | none => exact hne _ rfl
      | some disk =>
        simp only []
        cases hsb : read_sector disk 1 with
        | none => exact hne _ rfl
        | some sbuf =>
          simp only []
          by_cases hr : (!inode_area_readable disk (le16 sbuf 0)) = true
          · rw [if_pos hr]; exact hnil
          · rw [if_neg hr]; exact hnil

/-- C19: when the first argument is `-h`, whatever follows, `dosiero_main`
returns `EXIT_SUCCESS`, writes nothing to standard output, writes the help text
to the error stream and does not call `fopen`.  When the first argument is not
`-h`, the help text is never written, and a `-h` in a later option position
makes the run end with `EXIT_FAILURE`, nothing on standard output and no
`fopen`. -/
theorem help_only_first (fs : List Nat → Option Disk) (fuel : Nat) (argv : List (List Nat)) :
    (argv.tail.head? = some OPT_h →
      (dosiero_main fs fuel argv).ending = Ending.exit EXIT_SUCCESS ∧
      (dosiero_main fs fuel argv).out = [] ∧
      (dosiero_main fs fuel argv).err = help_text (argv.headD []) ∧
      (dosiero_main fs fuel argv).opened = none) ∧
    (argv.tail.head? ≠ some OPT_h →
      (dosiero_main fs fuel argv).err ≠ help_text (argv.headD []) ∧
      (OPT_h ∈ option_args argv.tail →
        (dosiero_main fs fuel argv).ending = Ending.exit EXIT_FAILURE ∧
        (dosiero_main fs fuel argv).out = [] ∧
        (dosiero_main fs fuel argv).opened = none)) := by
  refine ⟨?_, ?_⟩
  · intro hh
    rw [dosiero_main_help fs fuel argv hh]
    exact ⟨rfl, rfl, rfl, rfl⟩
  · intro hh
    refine ⟨dosiero_main_no_help fs fuel argv hh, ?_⟩
    intro hmem
    obtain ⟨msg, hp⟩ := parse_options_rejects_h _ argv.tail no_flags rfl hmem
    rw [dosiero_main_parse_error fs fuel argv msg hh hp]
    exact ⟨rfl, rfl, rfl⟩

theorem help_only_first_witness :
    ((dosiero_main sample_fs 0 [[100], OPT_h, [DASH, 122]]).ending = Ending.exit EXIT_SUCCESS ∧
      (dosiero_main sample_fs 0 [[100], OPT_h, [DASH, 122]]).out = [] ∧
      (dosiero_main sample_fs 0 [[100], OPT_h, [DASH, 122]]).err = help_text [100] ∧
      (dosiero_main sample_fs 0 [[100], OPT_h, [DASH, 122]]).opened = none) ∧
    ((dosiero_main sample_fs 0 [[100], [DASH, 114], OPT_h]).ending = Ending.exit EXIT_FAILURE ∧
      (dosiero_main sample_fs 0 [[100], [DASH, 114], OPT_h]).out = [] ∧
      (dosiero_main sample_fs 0 [[100], [DASH, 114], OPT_h]).opened = none) :=
  ⟨(help_only_first sample_fs 0 [[100], OPT_h, [DASH, 122]]).1 (by decide),
    ((help_only_first sample_fs 0 [[100], [DASH, 114], OPT_h]).2 (by decide)).2 (by decide)⟩

/-- C20, as stated, fails: with the arguments `-f img -h` the run ends with
`EXIT_FAILURE` and the error stream receives "Error: Unknown option: -h", not
the usage text. -/
theorem f_img_h_fails :
    dosiero_main sample_fs 0 [[100], OPT_f, [105, 109, 103], OPT_h]
      = early_exit EXIT_FAILURE (str "Error: Unknown option: " ++ OPT_h ++ [NL]) ∧
    EXIT_FAILURE ≠ 0 := by
  refine ⟨?_, by decide⟩
  exact dosiero_main_parse_error sample_fs 0 _ _ (by decide) rfl

/-- C20 (amended): for every image name `img`, the invocation `-f img -h` ends
with `EXIT_FAILURE`, writes nothing to standard output and writes
"Error: Unknown option: -h" to the error stream, without calling `fopen`; with
`-h` first (`-h -f img`) the run ends with `EXIT_SUCCESS`, writes nothing to
standard output and writes the help text to the error stream. -/
theorem f_img_h_unknown_option (fs : List Nat → Option Disk) (fuel : Nat)
    (prog img : List Nat) :
    dosiero_main fs fuel [prog, OPT_f, img, OPT_h]
      = early_exit EXIT_FAILURE (str "Error: Unknown option: " ++ OPT_h ++ [NL]) ∧
    dosiero_main fs fuel [prog, OPT_h, OPT_f, img]
      = early_exit EXIT_SUCCESS (help_text prog) := by
  refine ⟨?_, ?_⟩
  · exact dosiero_main_parse_error fs fuel _ _
      (by show some OPT_f ≠ some OPT_h; decide) rfl
  · exact dosiero_main_help fs fuel _ rfl

/-! ## The mode `-x` -/

theorem flag_int_eq_zero (b : Bool) (h : flag_int b = 0) : b = false := by
  cases b <;> simp [flag_int] at h ⊢

theorem validate_ok_modes (prog : List Nat) (args : List (List Nat)) (fl : Flags)
    (arg : List Nat) (h : validate prog args fl = Except.ok arg) : modes fl = 1 := by
  unfold validate at h
  split at h
  · cases h
  · split at h
    · cases h
    · rename_i hm
      simpa using hm

theorem startup_ok (fs : List Nat → Option Disk) (argv : List (List Nat)) (disk : Disk)
    (img : Image) (fl : Flags) (arg : List Nat)
    (h : startup fs argv = Except.ok (disk, img, fl, arg)) :
    parse_options argv.tail no_flags = Except.ok fl ∧
    validate (argv.headD []) argv.tail fl = Except.ok arg := by
  unfold startup at h
  split at h
  · cases h
  · split at h
    · cases h
    · rename_i fl0 hp
      split at h
      · cases h
      · rename_i arg0 hv
        split at h
        · cases h
        · split at h
          · cases h
          · split at h
            · cases h
            · simp only [Except.ok.injEq, Prod.mk.injEq] at h
              obtain ⟨_, _, h3, h4⟩ := h
              subst h3 h4
              exact ⟨hp, hv⟩

theorem dosiero_main_of_startup (fs : List Nat → Option Disk) (fuel : Nat)
    (argv : List (List Nat)) (disk : Disk) (img : Image) (fl : Flags) (arg : List Nat)
    (h : startup fs argv = Except.ok (disk, img, fl, arg)) :
    dosiero_main fs fuel argv
      = { ending := (run_mode disk img fuel fl argv.tail arg).1,
          out := (run_mode disk img fuel fl argv.tail arg).2,
          err := [], opened := some fl.diskimage } := by
  simp only [dosiero_main, h]

theorem run_x_of_selects (disk : Disk) (img : Image) (fl : Flags) (arg : List Nat) (ino : Nat)
    (h : x_selects disk img fl arg ino) :
    run_x disk img (fl.seen Opt.i) arg = run_x_ino disk img ino := by
  unfold run_x
  rcases h with ⟨hi, h1, h2, h3, h4⟩ | ⟨hi, hr, h0⟩
  · have hc : ¬ (arg = [] ∨ (strtol arg).2 ≠ [] ∨ (strtol arg).1 ≤ 0) := by
      rintro (h | h | h)
      · exact h1 h
      · exact h h2
      · omega
    rw [hi, if_pos rfl, if_neg hc, h4]
  · rw [hi, hr]
    simp [h0]

/-- A run that reaches the mode dispatch with `-x` ends as the tail of the
`-x` branch does for the selected i-number. -/
theorem dosiero_main_x (fs : List Nat → Option Disk) (fuel : Nat)
    (argv : List (List Nat)) (disk : Disk) (img : Image) (fl : Flags) (arg : List Nat)
    (ino : Nat)
    (h : startup fs argv = Except.ok (disk, img, fl, arg))
    (hx : fl.seen Opt.x = true) (hsel : x_selects disk img fl arg ino) :
    (dosiero_main fs fuel argv).ending = (run_x_ino disk img ino).1 ∧
    (dosiero_main fs fuel argv).out = (run_x_ino disk img ino).2 := by
  have hm := validate_ok_modes _ _ _ _ (startup_ok fs argv disk img fl arg h).2
  unfold modes at hm
  have hx1 : flag_int (fl.seen Opt.x) = 1 := by rw [hx]; rfl
  have hr : fl.seen Opt.r = false := flag_int_eq_zero _ (by omega)
  have hp : fl.seen Opt.p = false := flag_int_eq_zero _ (by omega)
  have hl : fl.seen Opt.l = false := flag_int_eq_zero _ (by omega)
  rw [dosiero_main_of_startup fs fuel argv disk img fl arg h]
  simp only [run_mode, hr, hp, hl, hx, Bool.false_and, Bool.false_eq_true, if_false, if_true,
    run_x_of_selects disk img fl arg ino hsel, and_self]

/-- C12: for every i-number in `1..inode_count` whose type field is directory,
character special or block special, `extract_file_to_stdout` returns -1 and
writes no byte, and a run of `-x` on that i-number ends with `EXIT_FAILURE`
(non-zero) with nothing on standard output. -/
theorem extract_rejects_special (disk : Disk) (img : Image) (ino : Nat)
    (hlo : 1 ≤ ino) (hhi : ino ≤ img.inode_count)
    (htype : (img.inodes ino).i_mode &&& IFMT = IFDIR ∨
      (img.inodes ino).i_mode &&& IFMT = IFCHR ∨ (img.inodes ino).i_mode &&& IFMT = IFBLK) :
    extract_file_to_stdout disk img.inodes img.inode_count ino img.data_start img.data_end
      = (-1, []) ∧
    (∀ (fs : List Nat → Option Disk) (fuel : Nat) (argv : List (List Nat)) (fl : Flags)
        (arg : List Nat),
      startup fs argv = Except.ok (disk, img, fl, arg) → fl.seen Opt.x = true →
      x_selects disk img fl arg ino →
      (dosiero_main fs fuel argv).ending = Ending.exit EXIT_FAILURE ∧
      (dosiero_main fs fuel argv).out = []) ∧
    EXIT_FAILURE ≠ 0 := by
  have hrange : ¬ (ino < 1 ∨ ino > img.inode_count) := by omega
  have hex : extract_file_to_stdout disk img.inodes img.inode_count ino
      img.data_start img.data_end = (-1, []) := by
    unfold extract_file_to_stdout
    rw [if_neg hrange]
    by_cases hd : (img.inodes ino).i_mode &&& IFMT = IFDIR
    · rw [if_pos hd]
    · rw [if_neg hd]
      have : (img.inodes ino).i_mode &&& IFMT = IFCHR ∨
          (img.inodes ino).i_mode &&& IFMT = IFBLK := by
        rcases htype with h | h | h
        · exact absurd h hd
        · exact Or.inl h
        · exact Or.inr h
      rw [if_pos this]
  refine ⟨hex, ?_, by decide⟩
  intro fs fuel argv fl arg hs hx hsel
  obtain ⟨h1, h2⟩ := dosiero_main_x fs fuel argv disk img fl arg ino hs hx hsel
  rw [h1, h2]
  have hle : ¬ ino > img.inode_count := by omega
  unfold run_x_ino
  rw [if_neg hle]
  by_cases hd : (img.inodes ino).i_mode &&& 0o60000 = 0o40000
  · rw [if_pos hd]
    exact ⟨rfl, rfl⟩
  · rw [if_neg hd, hex]
    exact ⟨rfl, rfl⟩

theorem extract_rejects_special_witness :
    1 ≤ 2 ∧ 2 ≤ (image_of sample_image (data_sector [1, 0, 10, 0])).inode_count ∧
    ((image_of sample_image (data_sector [1, 0, 10, 0])).inodes 2).i_mode &&& IFMT = IFDIR ∧
    extract_file_to_stdout sample_image
        (image_of sample_image (data_sector [1, 0, 10, 0])).inodes
        (image_of sample_image (data_sector [1, 0, 10, 0])).inode_count 2
        (image_of sample_image (data_sector [1, 0, 10, 0])).data_start
        (image_of sample_image (data_sector [1, 0, 10, 0])).data_end = (-1, []) ∧
    (dosiero_main sample_fs 0
      [[100], OPT_f, [105, 109, 103], [DASH, 120], [SLASH, 97], [DASH, 110]]).ending
      = Ending.exit EXIT_FAILURE ∧
    (dosiero_main sample_fs 0
      [[100], OPT_f, [105, 109, 103], [DASH, 120], [SLASH, 97], [DASH, 110]]).out = [] :=
  ⟨by decide, by decide, by decide,
    (extract_rejects_special sample_image (image_of sample_image (data_sector [1, 0, 10, 0])) 2
      (by decide) (by decide) (Or.inl (by decide))).1,
    (extract_rejects_special sample_image (image_of sample_image (data_sector [1, 0, 10, 0])) 2
      (by decide) (by decide) (Or.inl (by decide))).2.1 sample_fs 0
      [[100], OPT_f, [105, 109, 103], [DASH, 120], [SLASH, 97], [DASH, 110]] _ _
      rfl rfl (Or.inr ⟨rfl, by decide, by decide⟩)⟩

/-! ## Bad pointers during extraction -/

theorem range_split (n k : Nat) (h : k < n) :
    ∃ post, List.range n = List.range k ++ k :: post := by
  induction n with
  | zero => omega
  | succ n ih =>
    by_cases hk : k = n
    · subst hk
      exact ⟨[], List.range_succ _⟩
    · obtain ⟨post, hp⟩ := ih (by omega)
      exact ⟨post ++ [n], by rw [List.range_succ, hp]; simp⟩

/-- A loop of the extraction that reaches an index whose body returns -1
returns -1: `pre` are the indices before it, `c` counts the sectors each of
them writes, `m` further sectors may be written inside the failing body. -/
theorem extract_loop_meets_fail (body : Nat → XState → XStep) (sz : Nat) (c : Nat → Nat)
    (hbody : ∀ (j : Nat) (st st1 : XState), st.written < sz → st.written = st.out.length →
      body j st = XStep.ok st1 →
      st1.written = st1.out.length ∧ st1.written = min sz (st.written + 512 * c j))
    (i m : Nat)
    (hfail : ∀ st : XState, st.written = st.out.length → st.written + 512 * m < sz →
      ∃ e, body i st = XStep.fail e)
    (post : List Nat) :
    ∀ (pre : List Nat) (st : XState), st.written = st.out.length →
      st.written + 512 * ((pre.map c).sum + m) < sz →
      ∃ e, extract_loop body sz (pre ++ i :: post) st = XStep.fail e := by
  intro pre
  induction pre with
  | nil =>
    intro st hinv hlt
    simp only [List.map_nil, List.sum_nil, Nat.zero_add] at hlt
    obtain ⟨e, he⟩ := hfail st hinv hlt
    refine ⟨e, ?_⟩
    simp only [List.nil_append, extract_loop]
    rw [if_pos (by omega), he]
  | cons j pre ih =>
    intro st hinv hlt
    simp only [List.map_cons, List.sum_cons] at hlt
    simp only [List.cons_append, extract_loop]
    rw [if_pos (by omega)]
    cases hb : body j st with
    | fail e => exact ⟨e, rfl⟩
    | ok st1 =>
      obtain ⟨h1, h2⟩ := hbody j st st1 (by omega) hinv hb
      simp only []
      apply ih st1 h1
      rw [h2]
      have : st.written + 512 * c j ≤ sz := by omega
      rw [Nat.min_eq_right this]
      omega

theorem extract_sector_bad (disk : Disk) (sz data_start data_end sec : Nat) (st : XState)
    (h0 : sec ≠ 0) (hbad : sec < data_start ∨ sec > data_end) :
    extract_sector disk sz data_start data_end sec st = XStep.fail st := by
  unfold extract_sector
  rw [if_neg h0, if_pos hbad]

theorem extract_indirect_bad (disk : Disk) (sz data_start data_end indir : Nat) (st : XState)
    (h0 : indir ≠ 0) (hbad : indir < data_start ∨ indir > data_end) :
    extract_indirect disk sz data_start data_end indir st = XStep.fail st := by
  unfold extract_indirect
  rw [if_neg h0, if_pos hbad]

theorem extract_status_of_fail (disk : Disk) (inodes : Nat → idisk_t) (inode_count : Nat)
    (ino : Nat) (data_start data_end : Nat)
    (h : ∃ e, extract_blocks disk (inodes ino) (inode_size_bytes (inodes ino))
      data_start data_end = XStep.fail e) :
    (extract_file_to_stdout disk inodes inode_count ino data_start data_end).1 = -1 := by
  obtain ⟨e, he⟩ := h
  unfold extract_file_to_stdout
  split
  · rfl
  · split
    · rfl
    · split
      · rfl
      · rw [he]

/-- C13: while extracting a regular file, a non-zero sector pointer outside
`[data_start, data_end]` that is met before `size` bytes have been written
(the non-zero data pointers before it cover less than `size` bytes) makes
`extract_file_to_stdout` return -1: a direct pointer `i_addr[k]` of a small
file, an indirect pointer `i_addr[k]` of a large file, or entry `e` of the
indirect sector behind a non-zero `i_addr[k]`; and a run of `-x` on an in-range i-number whose
extraction does not return 0 ends with `EXIT_FAILURE` (non-zero). -/
theorem extract_bad_pointer (disk : Disk) (img : Image) (ino : Nat) :
    (∀ k, k < 8 → (img.inodes ino).i_mode &&& ILARG = 0 →
      (img.inodes ino).i_addr k ≠ 0 →
      ((img.inodes ino).i_addr k < img.data_start ∨ (img.inodes ino).i_addr k > img.data_end) →
      512 * (((List.range k).map (img.inodes ino).i_addr).filter (fun s => s != 0)).length
        < inode_size_bytes (img.inodes ino) →
      (extract_file_to_stdout disk img.inodes img.inode_count ino
        img.data_start img.data_end).1 = -1) ∧
    (∀ k, k < 8 → (img.inodes ino).i_mode &&& ILARG ≠ 0 →
      (img.inodes ino).i_addr k ≠ 0 →
      ((img.inodes ino).i_addr k < img.data_start ∨ (img.inodes ino).i_addr k > img.data_end) →
      512 * ((List.range k).map (fun j => (indirect_pointers disk ((img.inodes ino).i_addr j)
          img.data_start img.data_end).length)).sum
        < inode_size_bytes (img.inodes ino) →
      (extract_file_to_stdout disk img.inodes img.inode_count ino
        img.data_start img.data_end).1 = -1) ∧
    (∀ k e indirbuf, k < 8 → e < 256 → (img.inodes ino).i_mode &&& ILARG ≠ 0 →
      (img.inodes ino).i_addr k ≠ 0 →
      read_sector disk ((img.inodes ino).i_addr k) = some indirbuf →
      le16 indirbuf (e * 2) ≠ 0 →
      (le16 indirbuf (e * 2) < img.data_start ∨ le16 indirbuf (e * 2) > img.data_end) →
      512 * (((List.range k).map (fun j => (indirect_pointers disk ((img.inodes ino).i_addr j)
            img.data_start img.data_end).length)).sum
          + (((List.range e).map (fun j => le16 indirbuf (j * 2))).filter
              (fun s => s != 0)).length)
        < inode_size_bytes (img.inodes ino) →
      (extract_file_to_stdout disk img.inodes img.inode_count ino
        img.data_start img.data_end).1 = -1) ∧
    (∀ (fs : List Nat → Option Disk) (fuel : Nat) (argv : List (List Nat)) (fl : Flags)
        (arg : List Nat),
      startup fs argv = Except.ok (disk, img, fl, arg) → fl.seen Opt.x = true →
      x_selects disk img fl arg ino → ino ≤ img.inode_count →
      (extract_file_to_stdout disk img.inodes img.inode_count ino
        img.data_start img.data_end).1 ≠ 0 →
      (dosiero_main fs fuel argv).ending = Ending.exit EXIT_FAILURE) ∧
    EXIT_FAILURE ≠ 0 := by
  refine ⟨?_, ?_, ?_, ?_, by decide⟩
  · intro k hk hsmall h0 hbad hlt
    apply extract_status_of_fail
    obtain ⟨post, hpost⟩ := range_split 8 k hk
    unfold extract_blocks
    rw [if_pos hsmall, hpost]
    apply extract_loop_meets_fail _ _ (fun j => if (img.inodes ino).i_addr j ≠ 0 then 1 else 0)
      (fun j s s1 hl hi hb => extract_sector_written disk _ _ _ _ s s1 hl hi hb) k 0
      (fun s _ _ => ⟨s, extract_sector_bad disk _ _ _ _ s h0 hbad⟩) post (List.range k)
      { written := 0, out := [] } rfl
    rw [length_filter_map_eq_sum] at hlt
    simpa using hlt
  · intro k hk hlarge h0 hbad hlt
    apply extract_status_of_fail
    obtain ⟨post, hpost⟩ := range_split 8 k hk
    unfold extract_blocks
    rw [if_neg hlarge, hpost]
    apply extract_loop_meets_fail _ _
      (fun j => (indirect_pointers disk ((img.inodes ino).i_addr j)
        img.data_start img.data_end).length)
      (fun j s s1 hl hi hb => extract_indirect_written disk _ _ _ _ s s1 hl hi hb) k 0
      (fun s _ _ => ⟨s, extract_indirect_bad disk _ _ _ _ s h0 hbad⟩) post (List.range k)
      { written := 0, out := [] } rfl
    simpa using hlt
  · intro k e indirbuf hk he hlarge hz hread h0 hbad hlt
    apply extract_status_of_fail
    obtain ⟨post, hpost⟩ := range_split 8 k hk
    obtain ⟨epost, hepost⟩ := range_split 256 e he
    unfold extract_blocks
    rw [if_neg hlarge, hpost]
    apply extract_loop_meets_fail _ _
      (fun j => (indirect_pointers disk ((img.inodes ino).i_addr j)
        img.data_start img.data_end).length)
      (fun j s s1 hl hi hb => extract_indirect_written disk _ _ _ _ s s1 hl hi hb) k
      ((((List.range e).map (fun j => le16 indirbuf (j * 2))).filter (fun s => s != 0)).length)
      ?_ post (List.range k) { written := 0, out := [] } rfl
    · simpa using hlt
    · intro s hinv hs
      unfold extract_indirect
      rw [if_neg hz]
      by_cases hr : (img.inodes ino).i_addr k < img.data_start ∨
          (img.inodes ino).i_addr k > img.data_end
      · rw [if_pos hr]; exact ⟨s, rfl⟩
      · rw [if_neg hr, hread]
        simp only []
        rw [hepost]
        apply extract_loop_meets_fail _ _
          (fun j => if le16 indirbuf (j * 2) ≠ 0 then 1 else 0)
          (fun j s0 s1 hl hi hb => extract_sector_written disk _ _ _ _ s0 s1 hl hi hb) e 0
          (fun s0 _ _ => ⟨s0, extract_sector_bad disk _ _ _ _ s0 h0 hbad⟩) epost
          (List.range e) s hinv
        rw [length_filter_map_eq_sum] at hs
        simpa using hs
  · intro fs fuel argv fl arg hs hx hsel hle hst
    obtain ⟨h1, _⟩ := dosiero_main_x fs fuel argv disk img fl arg ino hs hx hsel
    rw [h1]
    unfold run_x_ino
    rw [if_neg (by omega)]
    by_cases hd : (img.inodes ino).i_mode &&& 0o60000 = 0o40000
    · rw [if_pos hd]
    · rw [if_neg hd, if_pos hst]

theorem extract_bad_pointer_witness :
    (extract_file_to_stdout wild_image
        (image_of wild_image (data_sector [1, 0, 10, 0])).inodes
        (image_of wild_image (data_sector [1, 0, 10, 0])).inode_count 3
        (image_of wild_image (data_sector [1, 0, 10, 0])).data_start
        (image_of wild_image (data_sector [1, 0, 10, 0])).data_end).1 = -1 ∧
    (dosiero_main wild_fs 0
      [[100], OPT_f, [105, 109, 103], [DASH, 120], [51], [DASH, 105]]).ending
      = Ending.exit EXIT_FAILURE :=
  ⟨(extract_bad_pointer wild_image (image_of wild_image (data_sector [1, 0, 10, 0])) 3).1 0
      (by decide) (by decide) (by decide) (by decide) (by decide),
    (extract_bad_pointer wild_image (image_of wild_image (data_sector [1, 0, 10, 0]))
      3).2.2.2.1 wild_fs 0
      [[100], OPT_f, [105, 109, 103], [DASH, 120], [51], [DASH, 105]] _ _ rfl rfl
      (Or.inl ⟨rfl, by decide, by decide, by decide, by decide⟩) (by decide) (by decide)⟩

/-! ## Listing -/

theorem snprintf4096_fits (s : List Nat) (h : s.length ≤ 4095) : snprintf4096 s = s := by
  unfold snprintf4096
  exact List.take_of_length_le h

theorem display_name (pfx nm : List Nat) : (if pfx = [] then nm else pfx ++ nm) = pfx ++ nm := by
  split
  · rename_i h; rw [h]; rfl
  · rfl

theorem display_dir (pfx nm : List Nat) :
    (if pfx = [] then nm ++ [SLASH] else pfx ++ nm ++ [SLASH]) = pfx ++ nm ++ [SLASH] := by
  split
  · rename_i h; rw [h]; rfl
  · rfl

theorem list_slots_cons_nil (body : Sector → Nat → ListRun) (s : Sector × Nat)
    (rest : List (Sector × Nat)) (h : body s.1 s.2 = ListRun.lines []) :
    list_slots body (s :: rest) = list_slots body rest := by
  obtain ⟨secbuf, e⟩ := s
  simp only [list_slots]
  simp only [] at h
  rw [h]
  cases list_slots body rest <;> simp

/-- The slot loops of `list_hierarchy` print the reference lines of the slots'
entries, provided the recursive calls do, the entries' i-numbers are inside the
table and the lines fit the buffers. -/
theorem list_slots_refines (inodes : Nat → idisk_t) (inode_count : Nat)
    (recurse : Nat → List Nat → ListRun) (sub : Nat → List Nat → Option (List (List Nat)))
    (pfx : List Nat)
    (hsub : ∀ (ino : Nat) (p : List Nat) (ls : List (List Nat)),
      spec_is_dir inodes inode_count ino = true → p ≠ [] → sub ino p = some ls →
      (∀ l ∈ ls, l.length ≤ 4095) → recurse ino p = ListRun.lines ls) :
    ∀ (slots : List (Sector × Nat)) (ls : List (List Nat)),
      (∀ s ∈ slots, entry_ino s.1 s.2 ≤ inode_count) →
      spec_entries inodes inode_count sub pfx
        ((slots.filterMap (fun s => if entry_ino s.1 s.2 = 0 then none
            else some (entry_ino s.1 s.2, entry_nm s.1 s.2))).filter
          (fun en => !(en.2 == [DOT] || en.2 == [DOT, DOT]))) = some ls →
      (∀ l ∈ ls, l.length ≤ 4095) →
      list_slots (list_slot inodes inode_count recurse pfx) slots = ListRun.lines ls := by
  intro slots
  induction slots with
  | nil =>
    intro ls _ hs _
    simp only [List.filterMap_nil, List.filter_nil, spec_entries, Option.some.injEq] at hs
    subst hs
    rfl
  | cons s rest ih =>
    intro ls hr hs hshort
    have hr2 : ∀ s2 ∈ rest, entry_ino s2.1 s2.2 ≤ inode_count :=
      fun s2 h2 => hr s2 (List.mem_cons_of_mem _ h2)
    by_cases h0 : entry_ino s.1 s.2 = 0
    · rw [list_slots_cons_nil _ _ _ (by simp only [list_slot, h0, if_true])]
      simp only [List.filterMap_cons, h0, if_true] at hs
      exact ih ls hr2 hs hshort
    · by_cases hdots : (strcmp_eq (entry_nm s.1 s.2) [DOT]
          || strcmp_eq (entry_nm s.1 s.2) [DOT, DOT]) = true
      · rw [list_slots_cons_nil _ _ _ (by simp only [list_slot, h0, if_false, hdots, if_true])]
        have hd2 : (!(entry_nm s.1 s.2 == [DOT] || entry_nm s.1 s.2 == [DOT, DOT])) = false := by
          simp only [strcmp_eq] at hdots
          rw [hdots]; rfl
        simp only [List.filterMap_cons, h0, if_false, List.filter_cons, hd2,
          Bool.false_eq_true] at hs
        exact ih ls hr2 hs hshort
      · have hd2 : (!(entry_nm s.1 s.2 == [DOT] || entry_nm s.1 s.2 == [DOT, DOT])) = true := by
          simp only [strcmp_eq, Bool.not_eq_true] at hdots
          rw [hdots]; rfl
        have hle : ¬ entry_ino s.1 s.2 > inode_count := by
          have := hr s (List.mem_cons_self _ _)
          omega
        simp only [List.filterMap_cons, h0, if_false, List.filter_cons, hd2, if_true,
          spec_entries] at hs
        obtain ⟨secbuf, e⟩ := s
        simp only [] at h0 hdots hle hs
        by_cases hdir : spec_is_dir inodes inode_count (entry_ino secbuf e) = true
        · rw [if_pos hdir] at hs
          cases hb : sub (entry_ino secbuf e) (pfx ++ entry_nm secbuf e ++ [SLASH]) with
          | none => rw [hb] at hs; simp at hs
          | some below =>
            rw [hb] at hs
            cases hm : spec_entries inodes inode_count sub pfx
                ((rest.filterMap (fun s => if entry_ino s.1 s.2 = 0 then none
                  else some (entry_ino s.1 s.2, entry_nm s.1 s.2))).filter
                  (fun en => !(en.2 == [DOT] || en.2 == [DOT, DOT]))) with
            | none => rw [hm] at hs; simp at hs
            | some more =>
              rw [hm] at hs
              simp only [Option.some.injEq] at hs
              subst hs
              have hl1 : (pfx ++ entry_nm secbuf e ++ [SLASH]).length ≤ 4095 :=
                hshort _ (by simp)
              have hl0 : (pfx ++ entry_nm secbuf e).length ≤ 4095 := by
                simp only [List.length_append, List.length_singleton] at hl1 ⊢
                omega
              have hrec := hsub _ _ below hdir (by simp) hb
                (fun l hl => hshort l (by simp [hl]))
              have hrest := ih more hr2 hm (fun l hl => hshort l (by simp [hl]))
              have htype : (inodes (entry_ino secbuf e)).i_mode &&& IFMT = IFDIR := by
                simp only [spec_is_dir, Bool.and_eq_true, decide_eq_true_eq] at hdir
                exact hdir.2
              simp only [list_slots, list_slot, h0, if_false, hdots, hle, htype, if_true,
                display_name, display_dir, snprintf4096_fits _ hl1, snprintf4096_fits _ hl0,
                hrec, hrest, Bool.false_eq_true]
        · rw [if_neg hdir] at hs
          cases hm : spec_entries inodes inode_count sub pfx
              ((rest.filterMap (fun s => if entry_ino s.1 s.2 = 0 then none
                else some (entry_ino s.1 s.2, entry_nm s.1 s.2))).filter
                (fun en => !(en.2 == [DOT] || en.2 == [DOT, DOT]))) with
          | none => rw [hm] at hs; simp at hs
          | some more =>
            rw [hm] at hs
            simp only [Option.some.injEq] at hs
            subst hs
            have hl0 : (pfx ++ entry_nm secbuf e).length ≤ 4095 := hshort _ (by simp)
            have hrest := ih more hr2 hm (fun l hl => hshort l (by simp [hl]))
            have htype : ¬ (inodes (entry_ino secbuf e)).i_mode &&& IFMT = IFDIR := by
              intro ht
              apply hdir
              simp only [spec_is_dir, Bool.and_eq_true, decide_eq_true_eq]
              exact ⟨⟨by omega, by omega⟩, ht⟩
            simp only [list_slots, list_slot, h0, if_false, hdots, hle, htype,
              display_name, snprintf4096_fits _ hl0, hrest, Bool.false_eq_true]
            simp

/-- For a directory whose reference listing exists within `fuel` levels,
`list_hierarchy` prints the header (at the top level only) and then exactly
the reference lines, provided the i-numbers of all directory entries are
inside the table and the lines fit the 4096-byte buffers. -/
theorem list_hierarchy_refines_spec (disk : Disk) (inodes : Nat → idisk_t) (inode_count : Nat)
    (data_start data_end : Nat)
    (hent : ∀ d, 1 ≤ d → d ≤ inode_count → (inodes d).i_mode &&& IFMT = IFDIR →
      ∀ en ∈ dir_entries disk (inodes d) data_start data_end, en.1 ≤ inode_count)
    (fuel : Nat) :
    ∀ (d : Nat) (pfx : List Nat) (ls : List (List Nat)),
      spec_is_dir inodes inode_count d = true →
      spec_listing disk inodes inode_count data_start data_end fuel d pfx = some ls →
      (∀ l ∈ ls, l.length ≤ 4095) →
      list_hierarchy disk inodes inode_count data_start data_end fuel d pfx
        = ListRun.lines ((if pfx = [] then [[DOT, DOT, SLASH], [DOT, SLASH]] else []) ++ ls) := by
  induction fuel with
  | zero =>
    intro d pfx ls _ hs _
    simp [spec_listing] at hs
  | succ fuel ih =>
    intro d pfx ls hdir hs hshort
    simp only [spec_is_dir, Bool.and_eq_true, decide_eq_true_eq] at hdir
    obtain ⟨⟨hlo, hhi⟩, htype⟩ := hdir
    have hrange : ¬ (d < 1 ∨ d > inode_count) := by omega
    have hslots : ∀ s ∈ dir_slots disk (inodes d) data_start data_end,
        entry_ino s.1 s.2 ≤ inode_count := by
      intro s hs2
      by_cases h0 : entry_ino s.1 s.2 = 0
      · omega
      · exact hent d hlo hhi htype (entry_ino s.1 s.2, entry_nm s.1 s.2)
          (List.mem_filterMap.mpr ⟨s, hs2, by simp only [h0, if_false]⟩)
    have hloop := list_slots_refines inodes inode_count
      (list_hierarchy disk inodes inode_count data_start data_end fuel)
      (spec_listing disk inodes inode_count data_start data_end fuel) pfx
      (fun ino p ls2 hd hp hsub hsh => by
        have := ih ino p ls2 hd hsub hsh
        rw [if_neg hp, List.nil_append] at this
        exact this)
      (dir_slots disk (inodes d) data_start data_end) ls hslots hs hshort
    simp only [list_hierarchy, hrange, if_false, htype, ne_eq, not_true_eq_false, hloop]

/-- C14 (amended): for every image in which the
i-numbers of all directory entries are inside the inode table, and every
directory `d` in range whose reference listing exists (the hierarchy below `d`
is finite) and has no line of 4096 bytes or more, `list_hierarchy(d, "")`
prints exactly the lines of the reference listing: "../", "./", then for each
entry in on-disk order other than "." and "..", with `display = prefix ++ name`,
either `display/`, `display/../`, `display/./` and the listing of that
directory with prefix `display/`, or the single line `display`. -/
theorem list_hierarchy_reference (disk : Disk) (inodes : Nat → idisk_t) (inode_count : Nat)
    (data_start data_end : Nat) (fuel d : Nat) (ls : List (List Nat))
    (hlo : 1 ≤ d) (hhi : d ≤ inode_count) (hdir : (inodes d).i_mode &&& IFMT = IFDIR)
    (hent : ∀ d2, 1 ≤ d2 → d2 ≤ inode_count → (inodes d2).i_mode &&& IFMT = IFDIR →
      ∀ en ∈ dir_entries disk (inodes d2) data_start data_end, en.1 ≤ inode_count)
    (hspec : spec_listing_top disk inodes inode_count data_start data_end fuel d = some ls)
    (hshort : ∀ l ∈ ls, l.length < 4096) :
    list_hierarchy disk inodes inode_count data_start data_end fuel d [] = ListRun.lines ls := by
  unfold spec_listing_top at hspec
  cases hs : spec_listing disk inodes inode_count data_start data_end fuel d [] with
  | none => rw [hs] at hspec; simp at hspec
  | some body =>
    rw [hs] at hspec
    simp only [Option.map_some', Option.some.injEq] at hspec
    subst hspec
    have := list_hierarchy_refines_spec disk inodes inode_count data_start data_end hent fuel
      d [] body (by simp [spec_is_dir, hlo, hhi, hdir]) hs
      (fun l hl => by
        have := hshort l (by simp [hl])
        omega)
    rw [this]
    simp

theorem list_hierarchy_reference_witness :
    1 ≤ 1 ∧ 1 ≤ 16 ∧ (sample_inodes 1).i_mode &&& IFMT = IFDIR ∧
    spec_listing_top sample_disk sample_inodes 16 3 9 2 1
      = some [[DOT, DOT, SLASH], [DOT, SLASH], [97, SLASH], [97, SLASH, DOT, DOT, SLASH],
          [97, SLASH, DOT, SLASH], [102], [101, SLASH], [101, SLASH, DOT, DOT, SLASH],
          [101, SLASH, DOT, SLASH]] ∧
    list_hierarchy sample_disk sample_inodes 16 3 9 2 1 []
      = ListRun.lines [[DOT, DOT, SLASH], [DOT, SLASH], [97, SLASH], [97, SLASH, DOT, DOT, SLASH],
          [97, SLASH, DOT, SLASH], [102], [101, SLASH], [101, SLASH, DOT, DOT, SLASH],
          [101, SLASH, DOT, SLASH]] :=
  ⟨by decide, by decide, by decide, by decide,
    list_hierarchy_reference sample_disk sample_inodes 16 3 9 2 1 _
      (by decide) (by decide) (by decide)
      (by
        intro d2 h1 h2 hd2
        have hcases : d2 = 1 ∨ d2 = 2 ∨ d2 = 3 ∨ d2 = 4 ∨ d2 = 5 ∨ d2 = 6 ∨ d2 = 7 ∨ d2 = 8 ∨
            d2 = 9 ∨ d2 = 10 ∨ d2 = 11 ∨ d2 = 12 ∨ d2 = 13 ∨ d2 = 14 ∨ d2 = 15 ∨ d2 = 16 := by
          omega
        rcases hcases with h | h | h | h | h | h | h | h | h | h | h | h | h | h | h | h <;>
          subst h <;> first | decide | exact absurd hd2 (by decide))
      (by decide) (by decide)⟩

/-! ## Lines longer than the buffers -/

theorem snprintf4096_length (s : List Nat) : (snprintf4096 s).length ≤ 4095 := by
  unfold snprintf4096
  exact List.length_take_le _ _

theorem list_slot_line_length (inodes : Nat → idisk_t) (inode_count : Nat)
    (recurse : Nat → List Nat → ListRun) (pfx : List Nat) (secbuf : Sector) (e : Nat)
    (hrec : ∀ ino p ls, recurse ino p = ListRun.lines ls → ∀ l ∈ ls, l.length ≤ 4099)
    (ls : List (List Nat))
    (h : list_slot inodes inode_count recurse pfx secbuf e = ListRun.lines ls) :
    ∀ l ∈ ls, l.length ≤ 4099 := by
  unfold list_slot at h
  split at h
  · cases h; simp
  · split at h
    · cases h; simp
    · split at h
      · cases h
      · split at h
        · split at h
          · rename_i sub hsub
            cases h
            intro l hl
            have hd := snprintf4096_length
              (if pfx = [] then entry_nm secbuf e else pfx ++ entry_nm secbuf e)
            simp only [List.cons_append, List.nil_append, List.mem_cons] at hl
            rcases hl with h1 | h1 | h1 | h1
            · rw [h1]; simp only [List.length_append, List.length_cons, List.length_nil]; omega
            · rw [h1]; simp only [List.length_append, List.length_cons, List.length_nil]; omega
            · rw [h1]; simp only [List.length_append, List.length_cons, List.length_nil]; omega
            · exact hrec _ _ _ hsub l h1
          · rename_i hne
            exact (hne ls h).elim
        · cases h
          intro l hl
          simp only [List.mem_singleton] at hl
          have hd := snprintf4096_length
            (if pfx = [] then entry_nm secbuf e else pfx ++ entry_nm secbuf e)
          rw [hl]; omega

theorem list_slots_line_length (body : Sector → Nat → ListRun)
    (hbody : ∀ secbuf e ls, body secbuf e = ListRun.lines ls → ∀ l ∈ ls, l.length ≤ 4099) :
    ∀ (slots : List (Sector × Nat)) (ls : List (List Nat)),
      list_slots body slots = ListRun.lines ls → ∀ l ∈ ls, l.length ≤ 4099 := by
  intro slots
  induction slots with
  | nil =>
    intro ls h
    simp only [list_slots, ListRun.lines.injEq] at h
    subst h
    simp
  | cons s rest ih =>
    intro ls h
    obtain ⟨secbuf, e⟩ := s
    simp only [list_slots] at h
    cases hb : body secbuf e with
    | undefined => rw [hb] at h; cases h
    | out_of_fuel => rw [hb] at h; cases h
    | lines a =>
      rw [hb] at h
      simp only [] at h
      cases hr : list_slots body rest with
      | undefined => rw [hr] at h; cases h
      | out_of_fuel => rw [hr] at h; cases h
      | lines b =>
        rw [hr] at h
        simp only [ListRun.lines.injEq] at h
        subst h
        intro l hl
        rcases List.mem_append.mp hl with h1 | h1
        · exact hbody _ _ _ hb l h1
        · exact ih b hr l h1

/-- No line printed by `list_hierarchy` is longer than 4095 + 4 bytes: the
display name is cut to 4095 bytes by `snprintf`. -/
theorem list_hierarchy_line_length (disk : Disk) (inodes : Nat → idisk_t) (inode_count : Nat)
    (data_start data_end : Nat) (fuel : Nat) :
    ∀ (d : Nat) (pfx : List Nat) (ls : List (List Nat)),
      list_hierarchy disk inodes inode_count data_start data_end fuel d pfx = ListRun.lines ls →
      ∀ l ∈ ls, l.length ≤ 4099 := by
  induction fuel with
  | zero => intro d pfx ls h; simp [list_hierarchy] at h
  | succ fuel ih =>
    intro d pfx ls h
    unfold list_hierarchy at h
    split at h
    · cases h; simp
    · split at h
      · cases h; simp
      · split at h
        · rename_i body hbody
          cases h
          have hb := list_slots_line_length _
            (fun secbuf e ls2 h2 =>
              list_slot_line_length inodes inode_count _ pfx secbuf e ih ls2 h2)
            _ body hbody
          intro l hl
          rcases List.mem_append.mp hl with h1 | h1
          · split at h1
            · simp only [List.mem_cons, List.mem_singleton, List.mem_nil_iff, or_false] at h1
              rcases h1 with h2 | h2 <;> rw [h2] <;> decide
            · simp at h1
          · exact hb l h1
        · rename_i hne
          exact (hne ls h).elim
/-! ## The deep image -/

theorem le16_bytes (a : Nat) (h : a < 65536) : (a % 256 ||| (a / 256) <<< 8) % 65536 = a := by
  have h1 : (a / 256) <<< 8 = 2 ^ 8 * (a / 256) := by
    rw [Nat.shiftLeft_eq, Nat.mul_comm]
  have h2 : a % 256 < 2 ^ 8 := by
    have := Nat.mod_lt a (show 256 > 0 by decide)
    simpa using this
  rw [Nat.lor_comm, h1, ← Nat.mul_add_lt_is_or h2]
  have : 2 ^ 8 * (a / 256) + a % 256 = a := by
    have := Nat.div_add_mod a 256
    simpa using this
  rw [this]
  exact Nat.mod_eq_of_lt h

theorem entry_ino_dir_sector (entries : List (Nat × List Nat)) (e ino : Nat) (nm : List Nat)
    (hget : entries.get? e = some (ino, nm)) (hlt : ino < 65536) :
    entry_ino (dir_sector entries) e = ino := by
  unfold entry_ino le16 dir_sector
  have h1 : e * 16 / 16 = e := Nat.mul_div_cancel _ (by decide)
  have h2 : (e * 16 + 1) / 16 = e := by omega
  have h3 : e * 16 % 16 = 0 := Nat.mul_mod_left _ _
  have h4 : (e * 16 + 1) % 16 = 1 := by omega
  simp only [h1, h2, h3, h4, hget, if_true]
  simp only [show ¬ (1 = 0) by decide, if_false, if_true]
  exact le16_bytes ino hlt

theorem entry_ino_dir_sector_none (entries : List (Nat × List Nat)) (e : Nat)
    (hget : entries.get? e = none) :
    entry_ino (dir_sector entries) e = 0 := by
  unfold entry_ino le16 dir_sector
  have h1 : e * 16 / 16 = e := Nat.mul_div_cancel _ (by decide)
  have h2 : (e * 16 + 1) / 16 = e := by omega
  simp only [h1, h2, hget]
  rfl

theorem filterMap_range_none {α : Type} (f : Nat → Option α) (n : Nat)
    (h : ∀ e, n ≤ e → f e = none) (m : Nat) :
    (List.range (n + m)).filterMap f = (List.range n).filterMap f := by
  induction m with
  | zero => rfl
  | succ m ih =>
    rw [← Nat.add_assoc, List.range_succ, List.filterMap_append, ih]
    simp [h (n + m) (by omega)]

/-- A directory sector with three slots yields its three entries. -/
theorem dir_sector_entries (a b c : Nat) (ha : a < 65536) (hb : b < 65536) (hc : c < 65536)
    (ha0 : a ≠ 0) (hb0 : b ≠ 0) (hc0 : c ≠ 0) :
    ((List.range 32).map
        (fun e => (dir_sector [(a, [DOT]), (b, [DOT, DOT]), (c, NAME14)], e))).filterMap
      (fun s => if entry_ino s.1 s.2 = 0 then none
        else some (entry_ino s.1 s.2, entry_nm s.1 s.2))
      = [(a, [DOT]), (b, [DOT, DOT]), (c, NAME14)] := by
  rw [List.filterMap_map]
  have hnone : ∀ e, 3 ≤ e →
      ((fun s : Sector × Nat => if entry_ino s.1 s.2 = 0 then none
          else some (entry_ino s.1 s.2, entry_nm s.1 s.2)) ∘
        (fun e => (dir_sector [(a, [DOT]), (b, [DOT, DOT]), (c, NAME14)], e))) e = none := by
    intro e he
    have hg : [(a, [DOT]), (b, [DOT, DOT]), (c, NAME14)].get? e = none := by
      rw [List.get?_eq_none]
      simpa using he
    simp only [Function.comp, entry_ino_dir_sector_none _ e hg, if_true]
  rw [show (32 : Nat) = 3 + 29 from rfl, filterMap_range_none _ 3 hnone 29]
  have e0 := entry_ino_dir_sector [(a, [DOT]), (b, [DOT, DOT]), (c, NAME14)] 0 a [DOT] rfl ha
  have e1 := entry_ino_dir_sector [(a, [DOT]), (b, [DOT, DOT]), (c, NAME14)] 1 b [DOT, DOT]
    rfl hb
  have e2 := entry_ino_dir_sector [(a, [DOT]), (b, [DOT, DOT]), (c, NAME14)] 2 c NAME14 rfl hc
  have n0 : entry_nm (dir_sector [(a, [DOT]), (b, [DOT, DOT]), (c, NAME14)]) 0 = [DOT] := rfl
  have n1 : entry_nm (dir_sector [(a, [DOT]), (b, [DOT, DOT]), (c, NAME14)]) 1 = [DOT, DOT] :=
    rfl
  have n2 : entry_nm (dir_sector [(a, [DOT]), (b, [DOT, DOT]), (c, NAME14)]) 2 = NAME14 := rfl
  simp only [show List.range 3 = [0, 1, 2] from rfl, List.filterMap_cons, List.filterMap_nil,
    Function.comp, e0, e1, e2, n0, n1, n2, ha0, hb0, hc0, if_false]

theorem deep_dir_entries (j : Nat) (h1 : 1 ≤ j) (h2 : j ≤ 274) :
    dir_entries deep_disk (deep_inodes j) 20 293
      = [(j, [DOT]), (if 19 + j = 20 then 1 else 19 + j - 20, [DOT, DOT]), (j + 1, NAME14)] := by
  have hin : deep_inodes j = mk_inode 0o140000 48 (19 + j) := by
    simp only [deep_inodes, h1, h2, and_self, if_true]
  have hsec : dir_data_sector deep_disk (19 + j) 20 293
      = some (dir_sector [(j, [DOT]), (if 19 + j = 20 then 1 else 19 + j - 20, [DOT, DOT]),
          (j + 1, NAME14)]) := by
    have hr : ¬ (19 + j < 20 ∨ 19 + j > 293) := by omega
    have hd : 20 ≤ 19 + j ∧ 19 + j ≤ 293 := by omega
    simp only [dir_data_sector, show ¬ (19 + j = 0) by omega, if_false, hr, read_sector,
      deep_disk, hd, and_self, if_true]
    have e1 : 19 + j - 19 = j := by omega
    have e2 : 19 + j - 18 = j + 1 := by omega
    rw [e1, e2]
  have hzero : dir_data_sector deep_disk 0 20 293 = none := rfl
  have hsecs : dir_sectors deep_disk (deep_inodes j) 20 293
      = [dir_sector [(j, [DOT]), (if 19 + j = 20 then 1 else 19 + j - 20, [DOT, DOT]),
          (j + 1, NAME14)]] := by
    rw [hin]
    have hm : (49152 : Nat) &&& ILARG = 0 := by decide
    simp only [dir_sectors, hm, if_true, show List.range 8 = [0, 1, 2, 3, 4, 5, 6, 7] from rfl,
      List.filterMap_cons, List.filterMap_nil, mk_inode, if_true, hsec,
      show ¬ (1 = 0) by decide, show ¬ (2 = 0) by decide, show ¬ (3 = 0) by decide,
      show ¬ (4 = 0) by decide, show ¬ (5 = 0) by decide, show ¬ (6 = 0) by decide,
      show ¬ (7 = 0) by decide, if_false, hzero]
  unfold dir_entries dir_slots
  rw [hsecs]
  simp only [List.map_cons, List.map_nil, List.flatten_cons, List.flatten_nil, List.append_nil]
  apply dir_sector_entries <;> (try split) <;> omega

theorem deep_spec_entries (fuel j : Nat) (pfx : List Nat) (h1 : 1 ≤ j) (h2 : j ≤ 274) :
    spec_listing deep_disk deep_inodes 288 20 293 (fuel + 1) j pfx
      = spec_entries deep_inodes 288 (spec_listing deep_disk deep_inodes 288 20 293 fuel) pfx
          [(j + 1, NAME14)] := by
  simp only [spec_listing, deep_dir_entries j h1 h2]
  rfl

/-- The reference listing of directory `j` of the deep image has a line that
is 14 bytes longer than the prefix for every directory level at or below `j`
and 14 bytes for the file at the bottom. -/
theorem deep_spec_listing (k : Nat) :
    ∀ (j : Nat) (pfx : List Nat) (fuel : Nat), j + k = 274 → 1 ≤ j → k < fuel →
      ∃ ls, spec_listing deep_disk deep_inodes 288 20 293 fuel j pfx = some ls ∧
        ∃ l ∈ ls, l.length = pfx.length + 15 * k + 14 := by
  induction k with
  | zero =>
    intro j pfx fuel hj h1 hf
    obtain ⟨f, rfl⟩ : ∃ f, fuel = f + 1 := ⟨fuel - 1, by omega⟩
    have hj2 : j = 274 := by omega
    subst hj2
    rw [deep_spec_entries f 274 pfx (by decide) (by decide)]
    have hnd : spec_is_dir deep_inodes 288 (274 + 1) = false := by decide
    simp only [spec_entries, hnd, Bool.false_eq_true, if_false]
    exact ⟨_, rfl, pfx ++ NAME14, List.mem_singleton.mpr rfl, by simp [NAME14]⟩
  | succ k ih =>
    intro j pfx fuel hj h1 hf
    obtain ⟨f, rfl⟩ : ∃ f, fuel = f + 1 := ⟨fuel - 1, by omega⟩
    rw [deep_spec_entries f j pfx h1 (by omega)]
    have hd : spec_is_dir deep_inodes 288 (j + 1) = true := by
      have hr : 1 ≤ j + 1 ∧ j + 1 ≤ 274 := by omega
      have hin : deep_inodes (j + 1) = mk_inode 0o140000 48 (19 + (j + 1)) := by
        simp only [deep_inodes, hr, and_self, if_true]
      unfold spec_is_dir
      rw [hin]
      simp only [Bool.and_eq_true, decide_eq_true_eq]
      refine ⟨⟨by omega, by omega⟩, ?_⟩
      show (49152 : Nat) &&& IFMT = IFDIR
      decide
    obtain ⟨below, hb, l, hl, hlen⟩ := ih (j + 1) (pfx ++ NAME14 ++ [SLASH]) f (by omega)
      (by omega) (by omega)
    simp only [spec_entries, hd, if_true, hb]
    refine ⟨_, rfl, l, by simp [hl], ?_⟩
    rw [hlen]
    simp [NAME14]
    omega

/-- C14, as stated, fails on a deep hierarchy: in the deep image the reference
listing of the root exists and contains the 4109-byte line naming the file at
the bottom of 274 nested directories, while no line `list_hierarchy` prints is
longer than 4099 bytes (display names are cut to 4095 bytes by `snprintf`), so
what it prints is not the reference listing. -/
theorem list_hierarchy_truncates :
    (spec_listing_top deep_disk deep_inodes 288 20 293 275 1).isSome = true ∧
    (spec_listing_top deep_disk deep_inodes 288 20 293 275 1).map ListRun.lines
      ≠ some (list_hierarchy deep_disk deep_inodes 288 20 293 275 1 []) := by
  obtain ⟨ls, hs, l, hl, hlen⟩ := deep_spec_listing 273 1 [] 275 (by decide) (by decide)
    (by decide)
  unfold spec_listing_top
  rw [hs]
  refine ⟨rfl, ?_⟩
  intro h
  simp only [Option.map_some', Option.some.injEq] at h
  have hb := list_hierarchy_line_length deep_disk deep_inodes 288 20 293 275 1 [] _ h.symm l
    (by simp [hl])
  rw [hlen] at hb
  simp at hb

/-! ## I-numbers outside the inode table -/

/-- C15 (what the code does): on the sample image, which has 16 inodes, the
invocation `-x 4294967299 -i` (the number is 2^32 + 3) ends with
`EXIT_SUCCESS` and writes the five bytes of inode 3, because the i-number is
cut to 32 bits before any range test; `-p 4294967298` passes the range test,
which is made on `(uint32_t)inum`, and then indexes `inodes[]` with the uncut
value; and `-x 17 -i` reads `inodes[17]` before `extract_file_to_stdout` makes
its range test. -/
theorem inumber_cut_to_32_bits :
    dosiero_main sample_fs 0
        [[100], OPT_f, [105, 109, 103], [DASH, 120], str "4294967299", [DASH, 105]]
      = { ending := Ending.exit EXIT_SUCCESS, out := [104, 101, 108, 108, 111], err := [],
          opened := some [105, 109, 103] } ∧
    (dosiero_main sample_fs 0
        [[100], OPT_f, [105, 109, 103], [DASH, 112], str "4294967298"]).ending
      = Ending.undefined ∧
    (dosiero_main sample_fs 0
        [[100], OPT_f, [105, 109, 103], [DASH, 120], str "17", [DASH, 105]]).ending
      = Ending.undefined := by
  decide

/-- C16 (what the code does): in the image whose root holds the entry `z` with
i-number 99 (the table has 16 inodes) and whose directory 2 has `..` = 99,
`list_hierarchy` of the root reads `inodes[99]`, `canonical_path(2)` reads
`inodes[99]`, and `-x /z -n` reads `inodes[99]`: each is a read outside the
table, not an error return. -/
theorem table_index_unchecked :
    list_hierarchy wild_image wild_inodes 16 3 9 2 1 [] = ListRun.undefined ∧
    canonical_path wild_image wild_inodes 16 2 3 9 = Outcome.undefined ∧
    resolve_pathname wild_image wild_inodes 16 [SLASH, 122] 3 9 = some 99 ∧
    (dosiero_main wild_fs 2
        [[100], OPT_f, [105, 109, 103], [DASH, 120], [SLASH, 122], [DASH, 110]]).ending
      = Ending.undefined ∧
    (dosiero_main wild_fs 2
        [[100], OPT_f, [105, 109, 103], [DASH, 108], [SLASH], [DASH, 110]]).ending
      = Ending.undefined ∧
    (dosiero_main wild_fs 2 [[100], OPT_f, [105, 109, 103], [DASH, 112], [50]]).ending
      = Ending.undefined := by
  decide

/-! ## A command line without `-f` -/

theorem parse_options_f_seen (n : Nat) :
    ∀ (args : List (List Nat)) (fl fl2 : Flags), args.length = n → OPT_f ∉ args →
      parse_options args fl = Except.ok fl2 → fl2.f_seen = fl.f_seen := by
  induction n with
  | zero =>
    intro args fl fl2 hlen _ h
    have : args = [] := List.length_eq_zero.mp hlen
    subst this
    simp only [parse_options, Except.ok.injEq] at h
    rw [← h]
  | succ n ih =>
    intro args fl fl2 hlen hf h
    cases args with
    | nil => simp at hlen
    | cons arg rest =>
      have hne : arg ≠ OPT_f := fun e => hf (by simp [e])
      have hrest : OPT_f ∉ rest := fun e => hf (by simp [e])
      have hl : rest.length = n := by simpa using hlen
      unfold parse_options at h
      rw [if_neg hne] at h
      cases ho : opt_of_arg arg with
      | some o =>
        rw [ho] at h
        simp only [] at h
        by_cases hs : fl.seen o = true
        · simp [hs] at h
        · rw [if_neg hs] at h
          exact ih rest
            { f_seen := fl.f_seen, diskimage := fl.diskimage,
              seen := fun q => if q = o then true else fl.seen q } fl2 hl hrest h
      | none =>
        rw [ho] at h
        simp only [] at h
        by_cases hd : arg.head? = some DASH
        · simp [hd] at h
        · rw [if_neg hd] at h
          exact ih rest _ fl2 hl hrest h

/-- C21: for every argument vector that holds no `-f` and whose first argument
is not `-h` (the empty argument list is one), `dosiero_main` returns
`EXIT_FAILURE`, writes nothing to standard output and does not call `fopen`. -/
theorem main_requires_f (fs : List Nat → Option Disk) (fuel : Nat) (argv : List (List Nat))
    (hh : argv.tail.head? ≠ some OPT_h) (hf : OPT_f ∉ argv.tail) :
    (dosiero_main fs fuel argv).ending = Ending.exit EXIT_FAILURE ∧
    (dosiero_main fs fuel argv).out = [] ∧
    (dosiero_main fs fuel argv).opened = none := by
  obtain ⟨msg, hmain⟩ := dosiero_main_early_failure fs fuel argv hh (fun fl hp =>
    validate_error _ _ fl (Or.inl (by
      rw [parse_options_f_seen _ argv.tail no_flags fl rfl hf hp]; rfl)))
  rw [hmain]
  exact ⟨rfl, rfl, rfl⟩

theorem main_requires_f_witness :
    ([[100]] : List (List Nat)).tail.head? ≠ some OPT_h ∧
    OPT_f ∉ ([[100]] : List (List Nat)).tail ∧
    (dosiero_main sample_fs 0 [[100]]).ending = Ending.exit EXIT_FAILURE ∧
    (dosiero_main sample_fs 0 [[100]]).out = [] ∧
    (dosiero_main sample_fs 0 [[100]]).opened = none :=
  ⟨by decide, by decide, main_requires_f sample_fs 0 [[100]] (by decide) (by decide)⟩

/-! ## The data range -/

/-- C30: for the layout `dosiero_main` computes from the superblock values
`isize` and `fsize`, the range test `!(s < data_start || s > data_end)`
accepts `s` exactly when `2 + isize ≤ s ≤ fsize - 1` over the integers; with
`fsize = 0` the test rejects every sector, `check_sector` finds nothing and
the extraction of any non-zero pointer fails. -/
theorem data_range_test (disk : Disk) (sbuf : Sector) (s : Nat) :
    (¬ (s < (image_of disk sbuf).data_start ∨ s > (image_of disk sbuf).data_end)
      ↔ ((2 : Int) + (le16 sbuf 0 : Int) ≤ (s : Int) ∧ (s : Int) ≤ (le16 sbuf 2 : Int) - 1)) ∧
    (le16 sbuf 2 = 0 →
      (s < (image_of disk sbuf).data_start ∨ s > (image_of disk sbuf).data_end) ∧
      (∀ name, check_sector disk s name (image_of disk sbuf).data_start
        (image_of disk sbuf).data_end = 0) ∧
      (∀ sz st, s ≠ 0 → extract_sector disk sz (image_of disk sbuf).data_start
        (image_of disk sbuf).data_end s st = XStep.fail st)) := by
  have hrange : le16 sbuf 2 = 0 →
      (s < (image_of disk sbuf).data_start ∨ s > (image_of disk sbuf).data_end) := by
    intro h0
    simp only [image_of, h0, gt_iff_lt, Nat.lt_irrefl, if_false]
    omega
  refine ⟨?_, fun h0 => ⟨hrange h0, ?_, ?_⟩⟩
  · simp only [image_of]
    split <;> omega
  · intro name
    unfold check_sector
    by_cases hs : s = 0
    · rw [if_pos hs]
    · rw [if_neg hs, if_pos (hrange h0)]
  · intro sz st hs
    unfold extract_sector
    rw [if_neg hs, if_pos (hrange h0)]

/-! ## Zero pointers during extraction -/

theorem extract_loop_map (body : Nat → XState → XStep) (g : Nat → Nat) (sz : Nat) :
    ∀ (is : List Nat) (st : XState),
      extract_loop (fun i => body (g i)) sz is st = extract_loop body sz (is.map g) st := by
  intro is
  induction is with
  | nil => intro st; rfl
  | cons i is ih =>
    intro st
    simp only [extract_loop, List.map_cons]
    split
    · cases body (g i) st with
      | ok st1 => exact ih st1
      | fail e => rfl
    · rfl

theorem extract_loop_done (body : Nat → XState → XStep) (sz : Nat) (is : List Nat)
    (st : XState) (h : ¬ st.written < sz) : extract_loop body sz is st = XStep.ok st := by
  cases is with
  | nil => rfl
  | cons i is => simp only [extract_loop, if_neg h]

theorem extract_loop_skip (body : Nat → XState → XStep) (sz : Nat)
    (hzero : ∀ st, body 0 st = XStep.ok st) :
    ∀ (ptrs : List Nat) (st : XState),
      extract_loop body sz ptrs st = extract_loop body sz (nonzero_pointers ptrs) st := by
  intro ptrs
  induction ptrs with
  | nil => intro st; rfl
  | cons p ps ih =>
    intro st
    by_cases hp : p = 0
    · subst hp
      have hf : nonzero_pointers (0 :: ps) = nonzero_pointers ps := by
        simp [nonzero_pointers]
      rw [hf, ← ih st]
      by_cases hw : st.written < sz
      · simp only [extract_loop, if_pos hw, hzero]
      · rw [extract_loop_done body sz _ st hw, extract_loop_done body sz _ st hw]
    · have hf : nonzero_pointers (p :: ps) = p :: nonzero_pointers ps := by
        simp [nonzero_pointers, hp]
      rw [hf]
      simp only [extract_loop]
      split
      · cases body p st with
        | ok st1 => exact ih st1
        | fail e => rfl
      · rfl

theorem extract_indirect_eq_nonzero (disk : Disk) (sz data_start data_end indir : Nat)
    (st : XState) (h : indir ≠ 0) :
    extract_indirect disk sz data_start data_end indir st
      = extract_indirect_nonzero disk sz data_start data_end indir st := by
  unfold extract_indirect extract_indirect_nonzero
  rw [if_neg h]
  split
  · rfl
  · cases read_sector disk indir with
    | none => rfl
    | some indirbuf =>
      simp only [extract_pointers]
      rw [← extract_loop_skip _ sz (fun st => by simp [extract_sector])]
      exact extract_loop_map (fun p => extract_sector disk sz data_start data_end p)
        (fun e => le16 indirbuf (e * 2)) sz (List.range 256) st
theorem extract_loop_congr (body1 body2 : Nat → XState → XStep) (sz : Nat) :
    ∀ (is : List Nat) (st : XState), (∀ i ∈ is, ∀ st1, body1 i st1 = body2 i st1) →
      extract_loop body1 sz is st = extract_loop body2 sz is st := by
  intro is
  induction is with
  | nil => intro st _; rfl
  | cons i is ih =>
    intro st h
    simp only [extract_loop]
    rw [h i (by simp) st]
    split
    · cases body2 i st with
      | ok st1 => exact ih st1 (fun j hj => h j (by simp [hj]))
      | fail e => rfl
    · rfl

theorem extract_blocks_eq_nonzero (disk : Disk) (fino : idisk_t)
    (sz data_start data_end : Nat) :
    extract_blocks disk fino sz data_start data_end
      = extract_blocks_nonzero disk fino sz data_start data_end := by
  unfold extract_blocks extract_blocks_nonzero
  split
  · simp only [extract_pointers]
    rw [← extract_loop_skip _ sz (fun st => by simp [extract_sector])]
    exact extract_loop_map (fun p => extract_sector disk sz data_start data_end p)
      fino.i_addr sz (List.range 8) _
  · rw [extract_loop_map (fun p => extract_indirect disk sz data_start data_end p)
      fino.i_addr sz (List.range 8) _]
    rw [extract_loop_skip _ sz (fun st => by simp [extract_indirect])]
    apply extract_loop_congr
    intro p hp st1
    have hp0 : p ≠ 0 := by
      simp only [nonzero_pointers, List.mem_filter, bne_iff_ne] at hp
      exact hp.2
    exact extract_indirect_eq_nonzero disk sz data_start data_end p st1 hp0

/-- C28: for every regular-file inode in range, the return value and the
output of `extract_file_to_stdout` are those of the extraction over the same
pointer sequences with all zero entries removed (the non-zero `i_addr[k]`, and
for a large file the non-zero entries of each indirect sector); an indirect
sector that holds only zero entries leaves the output and `written` as they
were. -/
theorem extract_skips_zero_pointers (disk : Disk) (inodes : Nat → idisk_t)
    (inode_count ino data_start data_end : Nat)
    (hlo : 1 ≤ ino) (hhi : ino ≤ inode_count) (hreg : (inodes ino).i_mode &&& IFMT = 0) :
    extract_file_to_stdout disk inodes inode_count ino data_start data_end
      = extract_result (extract_blocks_nonzero disk (inodes ino)
          (inode_size_bytes (inodes ino)) data_start data_end) ∧
    (∀ (indir : Nat) (indirbuf : Sector) (st : XState),
      data_start ≤ indir → indir ≤ data_end → read_sector disk indir = some indirbuf →
      (∀ e, e < 256 → le16 indirbuf (e * 2) = 0) →
      extract_indirect disk (inode_size_bytes (inodes ino)) data_start data_end indir st
        = XStep.ok st) := by
  have hrange : ¬ (ino < 1 ∨ ino > inode_count) := by omega
  refine ⟨?_, ?_⟩
  · unfold extract_file_to_stdout
    rw [if_neg hrange, hreg, if_neg (by decide), if_neg (by decide),
      extract_blocks_eq_nonzero]
    rfl
  · intro indir indirbuf st hge hle hread hz
    by_cases h0 : indir = 0
    · simp [extract_indirect, h0]
    · have hr : ¬ (indir < data_start ∨ indir > data_end) := by omega
      rw [extract_indirect_eq_nonzero disk _ data_start data_end indir st h0]
      unfold extract_indirect_nonzero
      rw [if_neg hr, hread]
      have hnil : nonzero_pointers ((List.range 256).map (fun e => le16 indirbuf (e * 2)))
          = [] := by
        simp only [nonzero_pointers, List.filter_eq_nil_iff, List.mem_map, List.mem_range]
        rintro p ⟨e, he, rfl⟩
        simp [hz e he]
      simp only [hnil]
      rfl

theorem extract_skips_zero_pointers_witness :
    1 ≤ 3 ∧ 3 ≤ 16 ∧ (sample_inodes 3).i_mode &&& IFMT = 0 ∧
    extract_file_to_stdout sample_disk sample_inodes 16 3 3 9
      = extract_result (extract_blocks_nonzero sample_disk (sample_inodes 3)
          (inode_size_bytes (sample_inodes 3)) 3 9) :=
  ⟨by decide, by decide, by decide,
    (extract_skips_zero_pointers sample_disk sample_inodes 16 3 3 9
      (by decide) (by decide) (by decide)).1⟩

/-! ## Bad sectors during directory lookup -/

theorem first_hit_congr (body1 body2 : Nat → Nat) (is : List Nat)
    (h : ∀ i ∈ is, body1 i = body2 i) : first_hit body1 is = first_hit body2 is := by
  induction is with
  | nil => rfl
  | cons i is ih =>
    simp only [first_hit]
    rw [h i (by simp), ih (fun j hj => h j (by simp [hj]))]

theorem first_hit_filter (body : Nat → Nat) (keep : Nat → Bool) (is : List Nat)
    (h : ∀ i ∈ is, keep i = false → body i = 0) :
    first_hit body is = first_hit body (is.filter keep) := by
  induction is with
  | nil => rfl
  | cons i is ih =>
    have ih2 := ih (fun j hj => h j (by simp [hj]))
    by_cases hk : keep i = true
    · rw [List.filter_cons_of_pos hk]
      simp only [first_hit]
      rw [ih2]
    · have hk2 : keep i = false := by simpa using hk
      rw [List.filter_cons_of_neg hk]
      simp only [first_hit]
      rw [h i (by simp) hk2, ← ih2]
      simp

theorem check_sector_zero_if_bad (disk : Disk) (sec : Nat) (name : List Nat)
    (data_start data_end : Nat) :
    check_sector disk (zero_if_bad data_start data_end sec) name data_start data_end
      = check_sector disk sec name data_start data_end := by
  unfold zero_if_bad
  by_cases h : sec < data_start ∨ sec > data_end
  · rw [if_pos h]
    unfold check_sector
    by_cases h0 : sec = 0
    · simp [h0]
    · simp [h0, h]
  · rw [if_neg h]

theorem find_in_indirect_zero_if_bad (disk : Disk) (indir : Nat) (name : List Nat)
    (data_start data_end : Nat) :
    find_in_indirect disk (zero_if_bad data_start data_end indir) name data_start data_end
      = find_in_indirect disk indir name data_start data_end := by
  unfold zero_if_bad
  by_cases h : indir < data_start ∨ indir > data_end
  · rw [if_pos h]
    unfold find_in_indirect
    by_cases h0 : indir = 0
    · simp [h0]
    · simp [h0, h]
  · rw [if_neg h]

/-! ## One step of the parent walk -/

theorem findSome_flatten_map {α β γ : Type} (f : β → List γ) (g : γ → Option α) (l : List β) :
    ((l.map f).flatten).findSome? g = l.findSome? (fun b => (f b).findSome? g) := by
  induction l with
  | nil => rfl
  | cons b l ih =>
    simp only [List.map_cons, List.flatten_cons, List.findSome?_append, List.findSome?_cons, ih]
    cases (f b).findSome? g <;> rfl

theorem findSome_filterMap {α β γ : Type} (h : β → Option γ) (g : γ → Option α) (l : List β) :
    (l.filterMap h).findSome? g = l.findSome? (fun b => (h b).bind g) := by
  induction l with
  | nil => rfl
  | cons b l ih =>
    cases hb : h b with
    | none => simp [List.filterMap_cons, hb, List.findSome?_cons, ih]
    | some c =>
      simp only [List.filterMap_cons, hb, List.findSome?_cons, ih, Option.some_bind]

theorem scan_data_eq {α : Type} (disk : Disk) (body : Sector → Nat → Option α)
    (sec data_start data_end : Nat) :
    scan_data disk body sec data_start data_end
      = (dir_data_sector disk sec data_start data_end).bind
          (fun secbuf => ((List.range 32).map (fun e => (secbuf, e))).findSome?
            (fun s => body s.1 s.2)) := by
  unfold scan_data dir_data_sector
  split
  · rfl
  · split
    · rfl
    · cases read_sector disk sec with
      | none => rfl
      | some secbuf =>
        simp only [Option.some_bind, scan_slots, List.findSome?_map]
        rfl

theorem scan_indirect_eq {α : Type} (disk : Disk) (body : Sector → Nat → Option α)
    (indir data_start data_end : Nat) :
    scan_indirect disk body indir data_start data_end
      = (((dir_indirect_sectors disk indir data_start data_end).map
          (fun secbuf => (List.range 32).map (fun e => (secbuf, e)))).flatten).findSome?
            (fun s => body s.1 s.2) := by
  unfold scan_indirect dir_indirect_sectors
  split
  · rfl
  · split
    · rfl
    · cases read_sector disk indir with
      | none => rfl
      | some indirbuf =>
        simp only [findSome_flatten_map, findSome_filterMap]
        congr 1
        funext e
        exact scan_data_eq disk body _ data_start data_end

theorem scan_dir_eq_slots {α : Type} (disk : Disk) (body : Sector → Nat → Option α)
    (din : idisk_t) (data_start data_end : Nat) :
    scan_dir disk body din data_start data_end
      = (dir_slots disk din data_start data_end).findSome? (fun s => body s.1 s.2) := by
  unfold scan_dir dir_slots dir_sectors
  split
  · simp only [findSome_flatten_map, findSome_filterMap]
    congr 1
    funext k
    exact scan_data_eq disk body _ data_start data_end
  · rw [findSome_flatten_map, findSome_flatten_map]
    congr 1
    funext k
    rw [scan_indirect_eq, findSome_flatten_map]
theorem dotdot_slots_eq (slots : List (Sector × Nat)) :
    slots.findSome? (fun s => dotdot_slot s.1 s.2)
      = spec_dotdot (slots.filterMap
          (fun s => if entry_ino s.1 s.2 = 0 then none
            else some (entry_ino s.1 s.2, entry_nm s.1 s.2))) := by
  induction slots with
  | nil => rfl
  | cons s rest ih =>
    rw [List.findSome?_cons, List.filterMap_cons, ih]
    by_cases h0 : entry_ino s.1 s.2 = 0
    · have hv : dotdot_slot s.1 s.2 = none := by simp [dotdot_slot, h0]
      simp only [hv, h0, if_true]
    · by_cases hn : entry_nm s.1 s.2 = [DOT, DOT]
      · have hv : dotdot_slot s.1 s.2 = some (entry_ino s.1 s.2) := by
          simp [dotdot_slot, h0, strcmp_eq, hn]
        simp [hv, h0, spec_dotdot, List.find?_cons, hn]
      · have hv : dotdot_slot s.1 s.2 = none := by
          simp [dotdot_slot, h0, strcmp_eq, hn]
        simp [hv, h0, spec_dotdot, List.find?_cons, hn]

theorem spec_forward_name_hit (en : Nat × List Nat) (rest : List (Nat × List Nat)) (cur : Nat)
    (h : (en.1 == cur && !(en.2 == [DOT] || en.2 == [DOT, DOT])) = true) :
    spec_forward_name (en :: rest) cur = some en.2 := by
  unfold spec_forward_name
  rw [List.find?_cons, h]
  rfl

theorem spec_forward_name_miss (en : Nat × List Nat) (rest : List (Nat × List Nat)) (cur : Nat)
    (h : (en.1 == cur && !(en.2 == [DOT] || en.2 == [DOT, DOT])) = false) :
    spec_forward_name (en :: rest) cur = spec_forward_name rest cur := by
  unfold spec_forward_name
  rw [List.find?_cons, h]

theorem forward_slots_eq (cur : Nat) (hcur : cur ≠ 0) (slots : List (Sector × Nat)) :
    slots.findSome? (fun s => name_slot cur s.1 s.2)
      = spec_forward_name (slots.filterMap
          (fun s => if entry_ino s.1 s.2 = 0 then none
            else some (entry_ino s.1 s.2, entry_nm s.1 s.2))) cur := by
  induction slots with
  | nil => rfl
  | cons s rest ih =>
    rw [List.findSome?_cons, ih]
    by_cases h0 : entry_ino s.1 s.2 = 0
    · have hc : entry_ino s.1 s.2 ≠ cur := by rw [h0]; exact fun h => hcur h.symm
      have hv : name_slot cur s.1 s.2 = none := by simp [name_slot, hc]
      rw [hv, List.filterMap_cons_none (by simp only [h0, if_true])]
    · have he : (fun s : Sector × Nat => if entry_ino s.1 s.2 = 0 then none
            else some (entry_ino s.1 s.2, entry_nm s.1 s.2)) s
          = some (entry_ino s.1 s.2, entry_nm s.1 s.2) := if_neg h0
      rw [@List.filterMap_cons_some _ _ (fun s : Sector × Nat =>
        if entry_ino s.1 s.2 = 0 then none else some (entry_ino s.1 s.2, entry_nm s.1 s.2))
        s rest _ he]
      by_cases hc : entry_ino s.1 s.2 = cur
      · by_cases hd : entry_nm s.1 s.2 = [DOT] ∨ entry_nm s.1 s.2 = [DOT, DOT]
        · have hb : (entry_nm s.1 s.2 == [DOT] || entry_nm s.1 s.2 == [DOT, DOT]) = true := by
            rcases hd with h | h <;> simp [h]
          have hv : name_slot cur s.1 s.2 = none := by
            simp only [name_slot, hc, ne_eq, not_true_eq_false, if_false, strcmp_eq, hb, if_true]
          rw [hv, spec_forward_name_miss _ _ _ (by simp only [hb]; simp)]
        · have hb : (entry_nm s.1 s.2 == [DOT] || entry_nm s.1 s.2 == [DOT, DOT]) = false := by
            simpa using hd
          have hv : name_slot cur s.1 s.2 = some (entry_nm s.1 s.2) := by
            simp only [name_slot, hc, ne_eq, not_true_eq_false, if_false, strcmp_eq, hb,
              Bool.false_eq_true]
          rw [hv, spec_forward_name_hit _ _ _ (by simp only [hb]; simp [hc])]
      · have hv : name_slot cur s.1 s.2 = none := by simp [name_slot, hc]
        rw [hv, spec_forward_name_miss _ _ _ (by simp [hc])]

theorem scan_dotdot_eq (disk : Disk) (din : idisk_t) (data_start data_end : Nat) :
    scan_dir disk dotdot_slot din data_start data_end
      = spec_dotdot (dir_entries disk din data_start data_end) := by
  rw [scan_dir_eq_slots]
  exact dotdot_slots_eq _

theorem scan_forward_eq (disk : Disk) (din : idisk_t) (data_start data_end cur : Nat)
    (hcur : cur ≠ 0) :
    scan_dir disk (name_slot cur) din data_start data_end
      = spec_forward_name (dir_entries disk din data_start data_end) cur := by
  rw [scan_dir_eq_slots]
  exact forward_slots_eq cur hcur _
theorem canonical_walk_no_dotdot (disk : Disk) (inodes : Nat → idisk_t) (inode_count : Nat)
    (data_start data_end slots cur : Nat) (comps : List (List Nat)) (hcur1 : cur ≠ 1)
    (h : spec_dotdot (dir_entries disk (inodes cur) data_start data_end) = none) :
    canonical_walk disk inodes inode_count data_start data_end slots cur comps
      = Outcome.null := by
  rw [← scan_dotdot_eq] at h
  unfold canonical_walk
  simp only [hcur1, if_false, h]

theorem canonical_walk_no_forward (disk : Disk) (inodes : Nat → idisk_t) (inode_count : Nat)
    (data_start data_end slots cur parent : Nat) (comps : List (List Nat))
    (hcur0 : cur ≠ 0) (hcur1 : cur ≠ 1)
    (hdd : spec_dotdot (dir_entries disk (inodes cur) data_start data_end) = some parent)
    (hple : parent ≤ inode_count)
    (h : spec_forward_name (dir_entries disk (inodes parent) data_start data_end) cur = none) :
    canonical_walk disk inodes inode_count data_start data_end slots cur comps
      = Outcome.null := by
  rw [← scan_dotdot_eq] at hdd
  rw [← scan_forward_eq disk _ data_start data_end cur hcur0] at h
  have hp0 : parent ≠ 0 := dotdot_parent_ne_zero disk _ data_start data_end parent hdd
  have hgt : ¬ parent > inode_count := by omega
  unfold canonical_walk
  simp only [hcur1, if_false, hdd, hp0, hgt, h]

/-! ## A parent walk that never reaches the root -/

theorem ring_walk_unbounded :
    ∀ (slots : Nat) (comps : List (List Nat)),
      canonical_walk ring_image ring_inodes 16 3 9 slots 2 comps = Outcome.undefined ∧
      canonical_walk ring_image ring_inodes 16 3 9 slots 3 comps = Outcome.undefined := by
  have h2 : scan_dir ring_image dotdot_slot (ring_inodes 2) 3 9 = some 3 := by decide
  have h3 : scan_dir ring_image dotdot_slot (ring_inodes 3) 3 9 = some 2 := by decide
  have n2 : scan_dir ring_image (name_slot 2) (ring_inodes 3) 3 9 = some [97] := by decide
  have n3 : scan_dir ring_image (name_slot 3) (ring_inodes 2) 3 9 = some [98] := by decide
  intro slots
  induction slots with
  | zero =>
    intro comps
    constructor
    · unfold canonical_walk
      simp [h2, n2]
    · unfold canonical_walk
      simp [h3, n3]
  | succ s ih =>
    intro comps
    constructor
    · unfold canonical_walk
      simp only [h2, n2]
      exact (ih (comps ++ [[97]])).2
    · unfold canonical_walk
      simp only [h3, n3]
      exact (ih (comps ++ [[98]])).1

/-- C25 (what the code does): in the image where directories 2 and 3 are each
other's `..` and each holds a forward entry for the other, the walk of
`canonical_path(2)` never reaches inode 1: whatever the size of
`components[]`, it pushes a component in every iteration until the array is
full and stores the next one past its end.  With the array of
`inode_count + 2` = 18 elements that the code allocates, `canonical_path(2)`
and the invocation `-p 2` end that way. -/
theorem canonical_path_cycle_overflows :
    (∀ slots, canonical_walk ring_image ring_inodes 16 3 9 slots 2 []
      = Outcome.undefined) ∧
    canonical_path ring_image ring_inodes 16 2 3 9 = Outcome.undefined ∧
    (dosiero_main ring_fs 0 [[100], OPT_f, [105, 109, 103], [DASH, 112], [50]]).ending
      = Ending.undefined :=
  ⟨fun slots => (ring_walk_unbounded slots []).1, by decide, by decide⟩

/-! ## Lookup and the allocated bit -/

theorem validate_ok_arg (prog : List Nat) (args : List (List Nat)) (fl : Flags)
    (arg : List Nat) (h : validate prog args fl = Except.ok arg) :
    arg = (nonopt_args none args).headD [] := by
  unfold validate at h
  split at h
  · cases h
  split at h
  · cases h
  split at h
  · cases h
  split at h
  · cases h
  simp only [] at h
  split at h
  · cases h
  split at h
  · cases h
  split at h
  · cases h
  split at h
  · cases h
  split at h
  · cases h
  simp only [Except.ok.injEq] at h
  exact h.symm

theorem startup_l_flags (fs : List Nat → Option Disk) (argv : List (List Nat)) (disk : Disk)
    (img : Image) (fl : Flags) (arg : List Nat)
    (h : startup fs argv = Except.ok (disk, img, fl, arg)) (hl : fl.seen Opt.l = true) :
    fl.seen Opt.r = false ∧ fl.seen Opt.p = false ∧ fl.seen Opt.x = false ∧
    fl.seen Opt.n = !fl.seen Opt.i := by
  have hv := (startup_ok fs argv disk img fl arg h).2
  have hm := validate_ok_modes _ _ _ _ hv
  unfold modes at hm
  have hl1 : flag_int (fl.seen Opt.l) = 1 := by rw [hl]; rfl
  refine ⟨flag_int_eq_zero _ (by omega), flag_int_eq_zero _ (by omega),
    flag_int_eq_zero _ (by omega), ?_⟩
  unfold validate at hv
  split at hv
  · cases hv
  split at hv
  · cases hv
  split at hv
  · cases hv
  rename_i hx
  rw [hl] at hx
  revert hx
  cases fl.seen Opt.i <;> cases fl.seen Opt.n <;> simp

/-- C22 (what the code does): for every run that reaches the mode dispatch with
`-l` and `-n` and one path argument, when the path resolves to an i-number
whose inode is not a directory, `list_hierarchy` returns without printing and
`dosiero_main` returns `EXIT_SUCCESS` (0) with nothing on standard output. -/
theorem list_non_directory_succeeds (fs : List Nat → Option Disk) (fuel : Nat)
    (argv : List (List Nat)) (disk : Disk) (img : Image) (fl : Flags) (arg : List Nat)
    (ino : Nat)
    (h : startup fs argv = Except.ok (disk, img, fl, arg))
    (hl : fl.seen Opt.l = true) (hn : fl.seen Opt.n = true)
    (hone : (nonopt_args none argv.tail).length = 1)
    (hres : resolve_pathname disk img.inodes img.inode_count arg img.data_start img.data_end
      = some ino)
    (h0 : ino ≠ 0) (hnd : (img.inodes ino).i_mode &&& IFMT ≠ IFDIR) :
    (dosiero_main fs (fuel + 1) argv).ending = Ending.exit EXIT_SUCCESS ∧
    (dosiero_main fs (fuel + 1) argv).out = [] ∧
    EXIT_SUCCESS = 0 := by
  obtain ⟨hr, hp, _, _⟩ := startup_l_flags fs argv disk img fl arg h hl
  have harg := validate_ok_arg _ _ _ _ (startup_ok fs argv disk img fl arg h).2
  have hlist : list_hierarchy disk img.inodes img.inode_count img.data_start img.data_end
      (fuel + 1) ino [] = ListRun.lines [] := by
    unfold list_hierarchy
    split <;> rfl
  have hrun : run_l disk img (fuel + 1) (nonopt_args none argv.tail)
      = (Ending.exit EXIT_SUCCESS, []) := by
    unfold run_l
    rw [if_neg (by simp [hone]), ← harg, hres]
    simp only [h0, if_false, hlist]
    rfl
  rw [dosiero_main_of_startup fs (fuel + 1) argv disk img fl arg h]
  simp only [run_mode, hr, hp, hl, hn, Bool.and_self, Bool.false_eq_true, if_false, if_true,
    hrun, true_and]
  rfl

theorem list_non_directory_succeeds_witness :
    resolve_pathname sample_image (image_of sample_image (data_sector [1, 0, 10, 0])).inodes
        (image_of sample_image (data_sector [1, 0, 10, 0])).inode_count [SLASH, 102]
        (image_of sample_image (data_sector [1, 0, 10, 0])).data_start
        (image_of sample_image (data_sector [1, 0, 10, 0])).data_end = some 3 ∧
    ((image_of sample_image (data_sector [1, 0, 10, 0])).inodes 3).i_mode &&& IFMT ≠ IFDIR ∧
    (dosiero_main sample_fs (0 + 1)
      [[100], OPT_f, [105, 109, 103], [DASH, 108], [SLASH, 102], [DASH, 110]]).ending
      = Ending.exit EXIT_SUCCESS ∧
    (dosiero_main sample_fs (0 + 1)
      [[100], OPT_f, [105, 109, 103], [DASH, 108], [SLASH, 102], [DASH, 110]]).out = [] ∧
    EXIT_SUCCESS = 0 :=
  ⟨by decide, by decide,
    list_non_directory_succeeds sample_fs 0
      [[100], OPT_f, [105, 109, 103], [DASH, 108], [SLASH, 102], [DASH, 110]]
      _ _ _ _ 3 rfl rfl rfl (by decide) (by decide) (by decide) (by decide)⟩

/-- C23 (what the code does): for every run that reaches the mode dispatch with
`-l` and `-i`, no branch of the dispatch is taken: `dosiero_main` returns
`EXIT_SUCCESS` with nothing on standard output, whatever the argument. -/
theorem list_by_inumber_prints_nothing (fs : List Nat → Option Disk) (fuel : Nat)
    (argv : List (List Nat)) (disk : Disk) (img : Image) (fl : Flags) (arg : List Nat)
    (h : startup fs argv = Except.ok (disk, img, fl, arg))
    (hl : fl.seen Opt.l = true) (hi : fl.seen Opt.i = true) :
    (dosiero_main fs fuel argv).ending = Ending.exit EXIT_SUCCESS ∧
    (dosiero_main fs fuel argv).out = [] := by
  obtain ⟨hr, hp, hx, hn⟩ := startup_l_flags fs argv disk img fl arg h hl
  rw [hi] at hn
  rw [dosiero_main_of_startup fs fuel argv disk img fl arg h]
  simp only [run_mode, hr, hp, hl, hn, hx, Bool.not_true, Bool.and_false, Bool.false_eq_true,
    if_false, and_self]

theorem list_by_inumber_prints_nothing_witness :
    ((image_of sample_image (data_sector [1, 0, 10, 0])).inodes 1).i_mode &&& IFMT = IFDIR ∧
    (dosiero_main sample_fs 2
      [[100], OPT_f, [105, 109, 103], [DASH, 108], [49], [DASH, 105]]).ending
      = Ending.exit EXIT_SUCCESS ∧
    (dosiero_main sample_fs 2
      [[100], OPT_f, [105, 109, 103], [DASH, 108], [49], [DASH, 105]]).out = [] ∧
    (dosiero_main sample_fs 2
      [[100], OPT_f, [105, 109, 103], [DASH, 108], [SLASH], [DASH, 110]]).out ≠ [] :=
  ⟨by decide,
    (list_by_inumber_prints_nothing sample_fs 2
      [[100], OPT_f, [105, 109, 103], [DASH, 108], [49], [DASH, 105]] _ _ _ _
      rfl rfl rfl).1,
    (list_by_inumber_prints_nothing sample_fs 2
      [[100], OPT_f, [105, 109, 103], [DASH, 108], [49], [DASH, 105]] _ _ _ _
      rfl rfl rfl).2,
    by decide⟩

/-! ## Depth of the listing recursion -/

theorem list_slots_all_lines (body : Sector → Nat → ListRun) :
    ∀ (slots : List (Sector × Nat)), (∀ s ∈ slots, ∃ l, body s.1 s.2 = ListRun.lines l) →
      ∃ ls, list_slots body slots = ListRun.lines ls := by
  intro slots
  induction slots with
  | nil => intro _; exact ⟨[], rfl⟩
  | cons s rest ih =>
    intro h
    obtain ⟨l, hl⟩ := h s (List.mem_cons_self _ _)
    obtain ⟨more, hmore⟩ := ih (fun s2 h2 => h s2 (List.mem_cons_of_mem _ h2))
    obtain ⟨secbuf, e⟩ := s
    simp only [] at hl
    exact ⟨l ++ more, by simp only [list_slots, hl, hmore]⟩

theorem list_slots_lines_inv (body : Sector → Nat → ListRun) :
    ∀ (slots : List (Sector × Nat)) (ls : List (List Nat)),
      list_slots body slots = ListRun.lines ls →
      ∀ s ∈ slots, ∃ l, body s.1 s.2 = ListRun.lines l := by
  intro slots
  induction slots with
  | nil => intro _ _ s hs; simp at hs
  | cons s rest ih =>
    intro ls h s2 hs2
    obtain ⟨secbuf, e⟩ := s
    simp only [list_slots] at h
    cases hb : body secbuf e with
    | lines l =>
      rw [hb] at h
      simp only [] at h
      cases hr : list_slots body rest with
      | lines more =>
        rcases List.mem_cons.mp hs2 with h1 | h1
        · subst h1; exact ⟨l, hb⟩
        · exact ih more hr s2 h1
      | undefined => rw [hr] at h; cases h
      | out_of_fuel => rw [hr] at h; cases h
    | undefined => rw [hb] at h; cases h
    | out_of_fuel => rw [hb] at h; cases h

theorem list_slots_not_undefined (body : Sector → Nat → ListRun) :
    ∀ (slots : List (Sector × Nat)), (∀ s ∈ slots, body s.1 s.2 ≠ ListRun.undefined) →
      list_slots body slots ≠ ListRun.undefined := by
  intro slots
  induction slots with
  | nil => intro _ h; cases h
  | cons s rest ih =>
    intro h
    have h1 := h s (List.mem_cons_self _ _)
    have h2 := ih (fun s2 hs2 => h s2 (List.mem_cons_of_mem _ hs2))
    obtain ⟨secbuf, e⟩ := s
    simp only [] at h1
    simp only [list_slots]
    cases hb : body secbuf e with
    | lines l =>
      simp only []
      cases hr : list_slots body rest with
      | lines more => simp
      | undefined => exact absurd hr h2
      | out_of_fuel => simp
    | undefined => exact absurd hb h1
    | out_of_fuel => simp

theorem list_slot_cases (inodes : Nat → idisk_t) (inode_count : Nat)
    (recurse : Nat → List Nat → ListRun) (pfx : List Nat) (secbuf : Sector) (e : Nat)
    (hle : entry_ino secbuf e ≤ inode_count) :
    (∃ l, list_slot inodes inode_count recurse pfx secbuf e = ListRun.lines l) ∨
    (entry_ino secbuf e ≠ 0 ∧ entry_nm secbuf e ≠ [DOT] ∧ entry_nm secbuf e ≠ [DOT, DOT] ∧
      (inodes (entry_ino secbuf e)).i_mode &&& IFMT = IFDIR ∧
      ∃ p, (∀ ls, recurse (entry_ino secbuf e) p ≠ ListRun.lines ls) ∧
        list_slot inodes inode_count recurse pfx secbuf e = recurse (entry_ino secbuf e) p) := by
  have hgt : ¬ entry_ino secbuf e > inode_count := by omega
  unfold list_slot
  by_cases h0 : entry_ino secbuf e = 0
  · left; exact ⟨[], by rw [if_pos h0]⟩
  · rw [if_neg h0]
    by_cases hd : (strcmp_eq (entry_nm secbuf e) [DOT]
        || strcmp_eq (entry_nm secbuf e) [DOT, DOT]) = true
    · left; exact ⟨[], by rw [if_pos hd]⟩
    · rw [if_neg hd, if_neg hgt]
      by_cases ht : (inodes (entry_ino secbuf e)).i_mode &&& IFMT = IFDIR
      · rw [if_pos ht]
        simp only [strcmp_eq, Bool.or_eq_true, beq_iff_eq, not_or] at hd
        by_cases hr : ∃ sub, recurse (entry_ino secbuf e)
            (snprintf4096 (if pfx = [] then entry_nm secbuf e ++ [SLASH]
              else pfx ++ entry_nm secbuf e ++ [SLASH])) = ListRun.lines sub
        · obtain ⟨sub, hsub⟩ := hr
          left
          rw [hsub]
          exact ⟨_, rfl⟩
        · right
          have hne : ∀ ls, recurse (entry_ino secbuf e)
              (snprintf4096 (if pfx = [] then entry_nm secbuf e ++ [SLASH]
                else pfx ++ entry_nm secbuf e ++ [SLASH])) ≠ ListRun.lines ls :=
            fun ls h => hr ⟨ls, h⟩
          refine ⟨h0, hd.1, hd.2, ht, _, hne, ?_⟩
          split
          · rename_i sub heq
            exact absurd heq (hne sub)
          · rfl
      · left; exact ⟨_, by rw [if_neg ht]⟩

theorem slot_entry_mem (disk : Disk) (din : idisk_t) (data_start data_end : Nat)
    (s : Sector × Nat) (hs : s ∈ dir_slots disk din data_start data_end)
    (h0 : entry_ino s.1 s.2 ≠ 0) :
    (entry_ino s.1 s.2, entry_nm s.1 s.2) ∈ dir_entries disk din data_start data_end :=
  List.mem_filterMap.mpr ⟨s, hs, by simp only [h0, if_false]⟩

theorem entry_slot_mem (disk : Disk) (din : idisk_t) (data_start data_end : Nat)
    (en : Nat × List Nat) (h : en ∈ dir_entries disk din data_start data_end) :
    ∃ s ∈ dir_slots disk din data_start data_end,
      entry_ino s.1 s.2 ≠ 0 ∧ en = (entry_ino s.1 s.2, entry_nm s.1 s.2) := by
  obtain ⟨s, hs, he⟩ := List.mem_filterMap.mp h
  by_cases h0 : entry_ino s.1 s.2 = 0
  · simp [h0] at he
  · simp only [h0, if_false, Option.some.injEq] at he
    exact ⟨s, hs, h0, he.symm⟩

theorem list_hierarchy_not_undefined (disk : Disk) (inodes : Nat → idisk_t)
    (inode_count data_start data_end : Nat)
    (hent : ∀ d, 1 ≤ d → d ≤ inode_count → (inodes d).i_mode &&& IFMT = IFDIR →
      ∀ en ∈ dir_entries disk (inodes d) data_start data_end, en.1 ≤ inode_count) :
    ∀ (fuel d : Nat) (pfx : List Nat),
      list_hierarchy disk inodes inode_count data_start data_end fuel d pfx
        ≠ ListRun.undefined := by
  intro fuel
  induction fuel with
  | zero => intro d pfx h; cases h
  | succ fuel ih =>
    intro d pfx
    unfold list_hierarchy
    by_cases hr : d < 1 ∨ d > inode_count
    · rw [if_pos hr]; intro h; cases h
    · rw [if_neg hr]
      by_cases ht : (inodes d).i_mode &&& IFMT ≠ IFDIR
      · rw [if_pos ht]; intro h; cases h
      · rw [if_neg ht]
        have ht2 : (inodes d).i_mode &&& IFMT = IFDIR := by simpa using ht
        have hslots := list_slots_not_undefined
          (list_slot inodes inode_count
            (list_hierarchy disk inodes inode_count data_start data_end fuel) pfx)
          (dir_slots disk (inodes d) data_start data_end) (by
            intro s hs
            have hle : entry_ino s.1 s.2 ≤ inode_count := by
              by_cases h0 : entry_ino s.1 s.2 = 0
              · omega
              · exact hent d (by omega) (by omega) ht2 _
                  (slot_entry_mem disk _ data_start data_end s hs h0)
            rcases list_slot_cases inodes inode_count
              (list_hierarchy disk inodes inode_count data_start data_end fuel) pfx s.1 s.2 hle
              with ⟨l, hl⟩ | ⟨_, _, _, _, p, _, hp⟩
            · rw [hl]; intro h; cases h
            · rw [hp]; exact ih _ p)
        split
        · intro h; cases h
        · rename_i other hne
          exact hslots

theorem list_hierarchy_blocked (disk : Disk) (inodes : Nat → idisk_t)
    (inode_count data_start data_end : Nat) (fuel d : Nat) (pfx : List Nat)
    (hlo : 1 ≤ d) (hhi : d ≤ inode_count) (hdir : (inodes d).i_mode &&& IFMT = IFDIR)
    (hent : ∀ en ∈ dir_entries disk (inodes d) data_start data_end, en.1 ≤ inode_count)
    (en : Nat × List Nat) (hen : en ∈ dir_entries disk (inodes d) data_start data_end)
    (hn1 : en.2 ≠ [DOT]) (hn2 : en.2 ≠ [DOT, DOT])
    (hsubdir : (inodes en.1).i_mode &&& IFMT = IFDIR)
    (hsub : ∀ p ls, list_hierarchy disk inodes inode_count data_start data_end fuel en.1 p
      ≠ ListRun.lines ls) :
    ∀ ls, list_hierarchy disk inodes inode_count data_start data_end (fuel + 1) d pfx
      ≠ ListRun.lines ls := by
  intro ls h
  have hr : ¬ (d < 1 ∨ d > inode_count) := by omega
  unfold list_hierarchy at h
  rw [if_neg hr, if_neg (by simpa using hdir)] at h
  split at h
  · rename_i body hbody
    obtain ⟨s, hs, h0, hse⟩ := entry_slot_mem disk _ data_start data_end en hen
    obtain ⟨l, hl⟩ := list_slots_lines_inv _ _ body hbody s hs
    have hle : entry_ino s.1 s.2 ≤ inode_count := by
      have := hent en hen
      rw [hse] at this
      exact this
    have hnm1 : entry_nm s.1 s.2 ≠ [DOT] := by rw [hse] at hn1; exact hn1
    have hnm2 : entry_nm s.1 s.2 ≠ [DOT, DOT] := by rw [hse] at hn2; exact hn2
    have hty : (inodes (entry_ino s.1 s.2)).i_mode &&& IFMT = IFDIR := by
      rw [hse] at hsubdir; exact hsubdir
    have hgt : ¬ entry_ino s.1 s.2 > inode_count := by omega
    have hd : ¬ ((strcmp_eq (entry_nm s.1 s.2) [DOT]
        || strcmp_eq (entry_nm s.1 s.2) [DOT, DOT]) = true) := by
      simp only [strcmp_eq, Bool.or_eq_true, beq_iff_eq, not_or]
      exact ⟨hnm1, hnm2⟩
    unfold list_slot at hl
    rw [if_neg h0, if_neg hd, if_neg hgt, if_pos hty] at hl
    split at hl
    · rename_i sub hrec
      rw [hse] at hsub
      exact hsub _ sub hrec
    · rename_i hno
      exact hno l hl
  · rename_i other hno
    exact hno ls h

theorem cycle_listing_unbounded (disk : Disk) (inodes : Nat → idisk_t)
    (inode_count data_start data_end a b : Nat) (na nb : List Nat)
    (ha : 1 ≤ a ∧ a ≤ inode_count ∧ (inodes a).i_mode &&& IFMT = IFDIR)
    (hb : 1 ≤ b ∧ b ≤ inode_count ∧ (inodes b).i_mode &&& IFMT = IFDIR)
    (hea : ∀ en ∈ dir_entries disk (inodes a) data_start data_end, en.1 ≤ inode_count)
    (heb : ∀ en ∈ dir_entries disk (inodes b) data_start data_end, en.1 ≤ inode_count)
    (hab : (b, nb) ∈ dir_entries disk (inodes a) data_start data_end)
    (hba : (a, na) ∈ dir_entries disk (inodes b) data_start data_end)
    (hna : na ≠ [DOT] ∧ na ≠ [DOT, DOT]) (hnb : nb ≠ [DOT] ∧ nb ≠ [DOT, DOT]) :
    ∀ (fuel : Nat) (pfx : List Nat) (ls : List (List Nat)),
      list_hierarchy disk inodes inode_count data_start data_end fuel a pfx
        ≠ ListRun.lines ls ∧
      list_hierarchy disk inodes inode_count data_start data_end fuel b pfx
        ≠ ListRun.lines ls := by
  intro fuel
  induction fuel with
  | zero =>
    intro pfx ls
    constructor <;> (intro h; cases h)
  | succ fuel ih =>
    intro pfx ls
    constructor
    · exact list_hierarchy_blocked disk inodes inode_count data_start data_end fuel a pfx
        ha.1 ha.2.1 ha.2.2 hea (b, nb) hab hnb.1 hnb.2 hb.2.2 (fun p ls2 => (ih p ls2).2) ls
    · exact list_hierarchy_blocked disk inodes inode_count data_start data_end fuel b pfx
        hb.1 hb.2.1 hb.2.2 heb (a, na) hba hna.1 hna.2 ha.2.2 (fun p ls2 => (ih p ls2).1) ls

theorem not_lines_not_undefined (r : ListRun) (h1 : ∀ ls, r ≠ ListRun.lines ls)
    (h2 : r ≠ ListRun.undefined) : r = ListRun.out_of_fuel := by
  cases r with
  | lines ls => exact absurd rfl (h1 ls)
  | undefined => exact absurd rfl h2
  | out_of_fuel => rfl

theorem ring_entries_in_table :
    ∀ d, 1 ≤ d → d ≤ 16 → (ring_inodes d).i_mode &&& IFMT = IFDIR →
      ∀ en ∈ dir_entries ring_image (ring_inodes d) 3 9, en.1 ≤ 16 := by
  intro d2 h1 h2 hd2
  have hcases : d2 = 1 ∨ d2 = 2 ∨ d2 = 3 ∨ d2 = 4 ∨ d2 = 5 ∨ d2 = 6 ∨ d2 = 7 ∨ d2 = 8 ∨
      d2 = 9 ∨ d2 = 10 ∨ d2 = 11 ∨ d2 = 12 ∨ d2 = 13 ∨ d2 = 14 ∨ d2 = 15 ∨ d2 = 16 := by
    omega
  rcases hcases with h | h | h | h | h | h | h | h | h | h | h | h | h | h | h | h <;>
    subst h <;> decide

/-- C27, as stated, fails: in the image where directory 2 holds the entry `b`
for directory 3 and directory 3 the entry `a` for directory 2 (its parent), the
recursion of `list_hierarchy` on the root exceeds every depth: whatever bound
`fuel` is put on the depth of the recursion, the call does not return within
it. -/
theorem list_hierarchy_cycle_unbounded :
    (3, [98]) ∈ dir_entries ring_image (ring_inodes 2) 3 9 ∧
    (2, [97]) ∈ dir_entries ring_image (ring_inodes 3) 3 9 ∧
    (∀ fuel : Nat,
      list_hierarchy ring_image ring_inodes 16 3 9 fuel 1 [] = ListRun.out_of_fuel) := by
  refine ⟨by decide, by decide, ?_⟩
  intro fuel
  apply not_lines_not_undefined
  · cases fuel with
    | zero => intro ls h; cases h
    | succ f =>
      exact list_hierarchy_blocked ring_image ring_inodes 16 3 9 f 1 [] (by decide)
        (by decide) (by decide) (by decide) (2, [97]) (by decide) (by decide) (by decide)
        (by decide) (fun p ls2 =>
          (cycle_listing_unbounded ring_image ring_inodes 16 3 9 2 3 [97] [98]
            (by decide) (by decide) (by decide) (by decide) (by decide) (by decide)
            (by decide) (by decide) f p ls2).1)
  · exact list_hierarchy_not_undefined ring_image ring_inodes 16 3 9
      ring_entries_in_table fuel 1 []

theorem list_hierarchy_returns (disk : Disk) (inodes : Nat → idisk_t)
    (inode_count data_start data_end : Nat) (rank : Nat → Nat)
    (hent : ∀ d, 1 ≤ d → d ≤ inode_count → (inodes d).i_mode &&& IFMT = IFDIR →
      ∀ en ∈ dir_entries disk (inodes d) data_start data_end, en.1 ≤ inode_count)
    (hrank : ∀ d, 1 ≤ d → d ≤ inode_count → (inodes d).i_mode &&& IFMT = IFDIR →
      ∀ en ∈ dir_entries disk (inodes d) data_start data_end,
        en.2 ≠ [DOT] → en.2 ≠ [DOT, DOT] → (inodes en.1).i_mode &&& IFMT = IFDIR →
        rank en.1 < rank d) :
    ∀ (fuel d : Nat) (pfx : List Nat), 0 < fuel →
      (1 ≤ d → d ≤ inode_count → (inodes d).i_mode &&& IFMT = IFDIR → rank d < fuel) →
      ∃ ls, list_hierarchy disk inodes inode_count data_start data_end fuel d pfx
        = ListRun.lines ls := by
  intro fuel
  induction fuel with
  | zero => intro d pfx h; omega
  | succ fuel ih =>
    intro d pfx _ hd
    unfold list_hierarchy
    by_cases hr : d < 1 ∨ d > inode_count
    · rw [if_pos hr]; exact ⟨[], rfl⟩
    · rw [if_neg hr]
      by_cases ht : (inodes d).i_mode &&& IFMT ≠ IFDIR
      · rw [if_pos ht]; exact ⟨[], rfl⟩
      · rw [if_neg ht]
        have ht2 : (inodes d).i_mode &&& IFMT = IFDIR := by simpa using ht
        have hdlt := hd (by omega) (by omega) ht2
        obtain ⟨body, hbody⟩ := list_slots_all_lines
          (list_slot inodes inode_count
            (list_hierarchy disk inodes inode_count data_start data_end fuel) pfx)
          (dir_slots disk (inodes d) data_start data_end) (by
            intro s hs
            have hle : entry_ino s.1 s.2 ≤ inode_count := by
              by_cases h0 : entry_ino s.1 s.2 = 0
              · omega
              · exact hent d (by omega) (by omega) ht2 _
                  (slot_entry_mem disk _ data_start data_end s hs h0)
            rcases list_slot_cases inodes inode_count
              (list_hierarchy disk inodes inode_count data_start data_end fuel) pfx s.1 s.2 hle
              with hl | ⟨h0, hn1, hn2, hty, p, hp, _⟩
            · exact hl
            · exfalso
              have hlt := hrank d (by omega) (by omega) ht2 _
                (slot_entry_mem disk _ data_start data_end s hs h0) hn1 hn2 hty
              obtain ⟨ls, hls⟩ := ih (entry_ino s.1 s.2) p (by omega) (fun _ _ _ => by
                simp only [] at hlt
                omega)
              exact hp ls hls)
        rw [hbody]
        exact ⟨_, rfl⟩

theorem compressed_rank_lt (n : Nat) (rank : Nat → Nat) (a b : Nat)
    (ha : 1 ≤ a ∧ a ≤ n) (h : rank a < rank b) :
    ((Finset.Icc 1 n).filter (fun i => rank i < rank a)).card
      < ((Finset.Icc 1 n).filter (fun i => rank i < rank b)).card := by
  apply Finset.card_lt_card
  rw [Finset.ssubset_iff_of_subset]
  · exact ⟨a, by simp [ha.1, ha.2, h], by simp⟩
  · intro i hi
    simp only [Finset.mem_filter, Finset.mem_Icc] at hi ⊢
    exact ⟨hi.1, by omega⟩

theorem compressed_rank_bound (n : Nat) (rank : Nat → Nat) (d : Nat) (hd : 1 ≤ d ∧ d ≤ n) :
    ((Finset.Icc 1 n).filter (fun i => rank i < rank d)).card < n := by
  have h : ((Finset.Icc 1 n).filter (fun i => rank i < rank d)).card
      < (Finset.Icc 1 n).card := by
    apply Finset.card_lt_card
    rw [Finset.ssubset_iff_of_subset (Finset.filter_subset _ _)]
    exact ⟨d, by simp [hd.1, hd.2], by simp⟩
  simpa using h

/-- C27 (amended): for every image in which the i-numbers of all directory
entries are inside the inode table and no directory holds an entry (other than
"." and "..") for itself or for one of its ancestors (there is a rank on the
i-numbers that decreases from every directory to each directory named by such
an entry), `list_hierarchy` returns for every directory and prefix, and its
recursion is at most `inode_count` deep (one level when `inode_count` is 0). -/
theorem list_hierarchy_depth_bounded (disk : Disk) (inodes : Nat → idisk_t)
    (inode_count data_start data_end : Nat) (rank : Nat → Nat)
    (hent : ∀ d, 1 ≤ d → d ≤ inode_count → (inodes d).i_mode &&& IFMT = IFDIR →
      ∀ en ∈ dir_entries disk (inodes d) data_start data_end, en.1 ≤ inode_count)
    (hrank : ∀ d, 1 ≤ d → d ≤ inode_count → (inodes d).i_mode &&& IFMT = IFDIR →
      ∀ en ∈ dir_entries disk (inodes d) data_start data_end,
        en.2 ≠ [DOT] → en.2 ≠ [DOT, DOT] → (inodes en.1).i_mode &&& IFMT = IFDIR →
        rank en.1 < rank d)
    (fuel d : Nat) (pfx : List Nat) (hpos : 0 < fuel) (hfuel : inode_count ≤ fuel) :
    ∃ ls, list_hierarchy disk inodes inode_count data_start data_end fuel d pfx
      = ListRun.lines ls := by
  apply list_hierarchy_returns disk inodes inode_count data_start data_end
    (fun d => ((Finset.Icc 1 inode_count).filter (fun i => rank i < rank d)).card)
    hent ?_ fuel d pfx hpos ?_
  · intro d2 h1 h2 hd2 en hen hn1 hn2 hty
    have hpos2 : 1 ≤ en.1 := by
      obtain ⟨s, _, h0, hse⟩ := entry_slot_mem disk _ data_start data_end en hen
      rw [hse]
      simp only []
      omega
    exact compressed_rank_lt inode_count rank en.1 d2 ⟨hpos2, hent d2 h1 h2 hd2 en hen⟩
      (hrank d2 h1 h2 hd2 en hen hn1 hn2 hty)
  · intro h1 h2 _
    have := compressed_rank_bound inode_count rank d ⟨h1, h2⟩
    show ((Finset.Icc 1 inode_count).filter (fun i => rank i < rank d)).card < fuel
    omega

theorem list_hierarchy_depth_bounded_witness :
    (0 : Nat) < 16 ∧ (16 : Nat) ≤ 16 ∧
    ∃ ls, list_hierarchy sample_disk sample_inodes 16 3 9 16 1 [] = ListRun.lines ls :=
  ⟨by decide, by decide,
    list_hierarchy_depth_bounded sample_disk sample_inodes 16 3 9 (fun i => if i = 1 then 1 else 0)
      (by
        intro d2 h1 h2 hd2
        have hcases : d2 = 1 ∨ d2 = 2 ∨ d2 = 3 ∨ d2 = 4 ∨ d2 = 5 ∨ d2 = 6 ∨ d2 = 7 ∨ d2 = 8 ∨
            d2 = 9 ∨ d2 = 10 ∨ d2 = 11 ∨ d2 = 12 ∨ d2 = 13 ∨ d2 = 14 ∨ d2 = 15 ∨ d2 = 16 := by
          omega
        rcases hcases with h | h | h | h | h | h | h | h | h | h | h | h | h | h | h | h <;>
          subst h <;> first | decide | exact absurd hd2 (by decide))
      (by
        intro d2 h1 h2 hd2
        have hcases : d2 = 1 ∨ d2 = 2 ∨ d2 = 3 ∨ d2 = 4 ∨ d2 = 5 ∨ d2 = 6 ∨ d2 = 7 ∨ d2 = 8 ∨
            d2 = 9 ∨ d2 = 10 ∨ d2 = 11 ∨ d2 = 12 ∨ d2 = 13 ∨ d2 = 14 ∨ d2 = 15 ∨ d2 = 16 := by
          omega
        rcases hcases with h | h | h | h | h | h | h | h | h | h | h | h | h | h | h | h <;>
          subst h <;> decide)
      16 1 [] (by decide) (by decide)⟩

/-! ## Lookup and the recorded size -/

theorem first_hit_ne_zero (body : Nat → Nat) (is : List Nat) (i : Nat) (hi : i ∈ is)
    (h : body i ≠ 0) : first_hit body is ≠ 0 := by
  induction is with
  | nil => simp at hi
  | cons j js ih =>
    simp only [first_hit]
    by_cases hj : body j ≠ 0
    · rw [if_pos hj]; exact hj
    · rw [if_neg hj]
      rcases List.mem_cons.mp hi with h1 | h1
      · subst h1; exact absurd h hj
      · exact ih h1

/-- C33: for every two inode tables whose inodes `dirino` agree on `i_mode` and
on `i_addr[0..7]` (whatever their `i_size0`, `i_size1`, `i_nlink`, `i_uid`,
`i_gid`), `find_in_dir` returns the same result for every name over the same
image; and a matching entry in any of the 32 slots of a sector that can be
read is found by `check_sector`, whatever the recorded size. -/
theorem find_in_dir_ignores_size (disk : Disk) (inodes1 inodes2 : Nat → idisk_t)
    (inode_count dirino data_start data_end : Nat)
    (hmode : (inodes1 dirino).i_mode = (inodes2 dirino).i_mode)
    (haddr : ∀ k, k < 8 → (inodes1 dirino).i_addr k = (inodes2 dirino).i_addr k) :
    (∀ name, find_in_dir disk inodes1 inode_count dirino name data_start data_end
      = find_in_dir disk inodes2 inode_count dirino name data_start data_end) ∧
    (∀ (name : List Nat) (sec : Nat) (secbuf : Sector) (e : Nat), sec ≠ 0 →
      data_start ≤ sec → sec ≤ data_end → read_sector disk sec = some secbuf → e < 32 →
      check_entry secbuf name e ≠ 0 →
      check_sector disk sec name data_start data_end ≠ 0) := by
  refine ⟨?_, ?_⟩
  · intro name
    unfold find_in_dir
    split
    · rfl
    · simp only [hmode]
      split
      · rfl
      · split
        · exact first_hit_congr _ _ _ (fun k hk => by
            rw [haddr k (List.mem_range.mp hk)])
        · exact first_hit_congr _ _ _ (fun k hk => by
            rw [haddr k (List.mem_range.mp hk)])
  · intro name sec secbuf e h0 hge hle hread he hhit
    have hr : ¬ (sec < data_start ∨ sec > data_end) := by omega
    unfold check_sector
    rw [if_neg h0, if_neg hr, hread]
    exact first_hit_ne_zero _ _ e (List.mem_range.mpr he) hhit

theorem find_in_dir_ignores_size_witness :
    (sample_inodes 1).i_mode = (mk_inode 0o140000 0 3).i_mode ∧
    (∀ k, k < 8 → (sample_inodes 1).i_addr k = (mk_inode 0o140000 0 3).i_addr k) ∧
    inode_size_bytes (sample_inodes 1) = 80 ∧ inode_size_bytes (mk_inode 0o140000 0 3) = 0 ∧
    find_in_dir sample_disk sample_inodes 16 1 [101] 3 9 = 4 ∧
    find_in_dir sample_disk sample_inodes 16 1 [101] 3 9
      = find_in_dir sample_disk (fun _ => mk_inode 0o140000 0 3) 16 1 [101] 3 9 :=
  ⟨by decide, by decide, by decide, by decide, by decide,
    (find_in_dir_ignores_size sample_disk sample_inodes (fun _ => mk_inode 0o140000 0 3)
      16 1 3 9 (by decide) (by decide)).1 [101]⟩

/-! ## Decoding the inode table -/

theorem le16_of_bytes (p : Sector) (off : Nat) (h0 : p off < 256) (h1 : p (off + 1) < 256) :
    le16 p off = p off + 256 * p (off + 1) := by
  unfold le16
  have hs : p (off + 1) <<< 8 = 2 ^ 8 * p (off + 1) := by
    rw [Nat.shiftLeft_eq, Nat.mul_comm]
  have hlt : p off < 2 ^ 8 := by simpa using h0
  rw [Nat.lor_comm, hs, ← Nat.mul_add_lt_is_or hlt]
  have : 2 ^ 8 * p (off + 1) + p off < 65536 := by
    simp only [Nat.reducePow]
    omega
  rw [Nat.mod_eq_of_lt this]
  simp only [Nat.reducePow]
  omega

theorem le16_lt (p : Sector) (off : Nat) : le16 p off < 65536 := by
  unfold le16
  exact Nat.mod_lt _ (by decide)

theorem inode_size_bytes_eq (ino : idisk_t) (h0 : ino.i_size0 < 256) (h1 : ino.i_size1 < 65536) :
    inode_size_bytes ino = ino.i_size0 * 65536 + ino.i_size1 := by
  unfold inode_size_bytes
  have hs : ino.i_size0 <<< 16 = 2 ^ 16 * ino.i_size0 := by
    rw [Nat.shiftLeft_eq, Nat.mul_comm]
  have hm : ino.i_size1 &&& 0xFFFF = ino.i_size1 := by
    have := Nat.and_pow_two_sub_one_eq_mod ino.i_size1 16
    simp only [Nat.reducePow, Nat.add_one_sub_one] at this
    rw [this]
    exact Nat.mod_eq_of_lt h1
  have hlt : ino.i_size1 < 2 ^ 16 := by simpa using h1
  have hb : 2 ^ 16 * ino.i_size0 < 4294967296 := by
    simp only [Nat.reducePow]
    omega
  rw [hm, hs, Nat.mod_eq_of_lt hb, ← Nat.mul_add_lt_is_or hlt]
  have : 2 ^ 16 * ino.i_size0 + ino.i_size1 < 4294967296 := by
    simp only [Nat.reducePow]
    omega
  rw [Nat.mod_eq_of_lt this]
  simp only [Nat.reducePow]
  omega
/-- C31: for every i-number `i` in `1..=16·isize`, the table entry that
`dosiero_main` builds for `i` is decoded from the 32 bytes at offset
`(i-1)·32` of the inode area (each a byte, below 256): `i_mode` from bytes 0-1
(little-endian), `i_nlink`, `i_uid`, `i_gid`, `i_size0` from bytes 2, 3, 4, 5,
`i_size1` from bytes 6-7, `i_addr[k]` from bytes `8+2k`, `9+2k`; and
`inode_size_bytes` is `size0·65536 + size1`, below 2^24. -/
theorem inode_table_decoding (disk : Disk) (sbuf : Sector) (i : Nat)
    (hlo : 1 ≤ i) (hhi : i ≤ 16 * le16 sbuf 0)
    (hbyte : ∀ j, j < 32 → inode_area disk ((i - 1) * 32 + j) < 256) :
    (image_of disk sbuf).inode_count = 16 * le16 sbuf 0 ∧
    ((image_of disk sbuf).inodes i).i_mode
      = inode_area disk ((i - 1) * 32) + 256 * inode_area disk ((i - 1) * 32 + 1) ∧
    ((image_of disk sbuf).inodes i).i_nlink = inode_area disk ((i - 1) * 32 + 2) ∧
    ((image_of disk sbuf).inodes i).i_uid = inode_area disk ((i - 1) * 32 + 3) ∧
    ((image_of disk sbuf).inodes i).i_gid = inode_area disk ((i - 1) * 32 + 4) ∧
    ((image_of disk sbuf).inodes i).i_size0 = inode_area disk ((i - 1) * 32 + 5) ∧
    ((image_of disk sbuf).inodes i).i_size1
      = inode_area disk ((i - 1) * 32 + 6) + 256 * inode_area disk ((i - 1) * 32 + 7) ∧
    (∀ k, k < 8 → ((image_of disk sbuf).inodes i).i_addr k
      = inode_area disk ((i - 1) * 32 + (8 + 2 * k))
        + 256 * inode_area disk ((i - 1) * 32 + (9 + 2 * k))) ∧
    inode_size_bytes ((image_of disk sbuf).inodes i)
      = ((image_of disk sbuf).inodes i).i_size0 * 65536
        + ((image_of disk sbuf).inodes i).i_size1 ∧
    inode_size_bytes ((image_of disk sbuf).inodes i) < 2 ^ 24 := by
  have hr : ¬ (i < 1 ∨ i > le16 sbuf 0 * 16) := by omega
  have hrec : (image_of disk sbuf).inodes i
      = decode_inode (fun j => inode_area disk ((i - 1) * 32 + j)) := by
    simp only [image_of, load_inodes, if_neg hr]
  have h16 : ∀ off, off + 1 < 32 →
      le16 (fun j => inode_area disk ((i - 1) * 32 + j)) off
        = inode_area disk ((i - 1) * 32 + off)
          + 256 * inode_area disk ((i - 1) * 32 + (off + 1)) := by
    intro off hoff
    exact le16_of_bytes (fun j => inode_area disk ((i - 1) * 32 + j)) off
      (hbyte off (by omega)) (hbyte (off + 1) hoff)
  have hs0 : ((image_of disk sbuf).inodes i).i_size0 < 256 := by
    rw [hrec]; exact hbyte 5 (by decide)
  have hs1 : ((image_of disk sbuf).inodes i).i_size1 < 65536 := by
    rw [hrec]; exact le16_lt _ _
  have hsize := inode_size_bytes_eq _ hs0 hs1
  refine ⟨?_, ?_, ?_, ?_, ?_, ?_, ?_, ?_, hsize, ?_⟩
  · simp only [image_of]; omega
  · rw [hrec]; exact h16 0 (by decide)
  · rw [hrec]; rfl
  · rw [hrec]; rfl
  · rw [hrec]; rfl
  · rw [hrec]; rfl
  · rw [hrec]; exact h16 6 (by decide)
  · intro k hk
    rw [hrec]
    have := h16 (8 + k * 2) (by omega)
    simp only [decode_inode]
    rw [this]
    have e1 : 8 + k * 2 = 8 + 2 * k := by omega
    have e2 : 8 + k * 2 + 1 = 9 + 2 * k := by omega
    rw [e2, e1]
  · rw [hsize]
    simp only [Nat.reducePow]
    omega

theorem inode_table_decoding_witness :
    1 ≤ 3 ∧ 3 ≤ 16 * le16 (data_sector [1, 0, 10, 0]) 0 ∧
    (∀ j, j < 32 → inode_area sample_image ((3 - 1) * 32 + j) < 256) ∧
    ((image_of sample_image (data_sector [1, 0, 10, 0])).inodes 3).i_mode
      = inode_area sample_image ((3 - 1) * 32) + 256 * inode_area sample_image ((3 - 1) * 32 + 1) ∧
    inode_size_bytes ((image_of sample_image (data_sector [1, 0, 10, 0])).inodes 3) < 2 ^ 24 :=
  ⟨by decide, by decide, by decide,
    (inode_table_decoding sample_image (data_sector [1, 0, 10, 0]) 3 (by decide) (by decide)
      (by decide)).2.1,
    (inode_table_decoding sample_image (data_sector [1, 0, 10, 0]) 3 (by decide) (by decide)
      (by decide)).2.2.2.2.2.2.2.2.2⟩

/-! ## Bytes written and the recorded size -/

theorem extract_loop_bounded (body : Nat → XState → XStep) (sz : Nat)
    (hbody : ∀ (i : Nat) (st : XState), st.written < sz → st.written = st.out.length →
      (body i st).state.written = (body i st).state.out.length ∧
      (body i st).state.written ≤ sz) :
    ∀ (is : List Nat) (st : XState), st.written = st.out.length → st.written ≤ sz →
      (extract_loop body sz is st).state.written
          = (extract_loop body sz is st).state.out.length ∧
      (extract_loop body sz is st).state.written ≤ sz := by
  intro is
  induction is with
  | nil => intro st hinv hle; exact ⟨hinv, hle⟩
  | cons i is ih =>
    intro st hinv hle
    simp only [extract_loop]
    by_cases hlt : st.written < sz
    · rw [if_pos hlt]
      have hb := hbody i st hlt hinv
      cases hr : body i st with
      | fail e =>
        rw [hr] at hb
        exact hb
      | ok st1 =>
        rw [hr] at hb
        exact ih st1 hb.1 hb.2
    · rw [if_neg hlt]
      exact ⟨hinv, hle⟩

theorem extract_sector_bounded (disk : Disk) (sz data_start data_end sec : Nat) (st : XState)
    (hlt : st.written < sz) (hinv : st.written = st.out.length) :
    (extract_sector disk sz data_start data_end sec st).state.written
        = (extract_sector disk sz data_start data_end sec st).state.out.length ∧
    (extract_sector disk sz data_start data_end sec st).state.written ≤ sz := by
  unfold extract_sector
  split
  · exact ⟨hinv, Nat.le_of_lt hlt⟩
  · split
    · exact ⟨hinv, Nat.le_of_lt hlt⟩
    · cases read_sector disk sec with
      | none => exact ⟨hinv, Nat.le_of_lt hlt⟩
      | some buf =>
        simp only [XStep.state, List.length_append, List.length_map, List.length_range]
        constructor
        · omega
        · split <;> omega

theorem extract_indirect_bounded (disk : Disk) (sz data_start data_end indir : Nat)
    (st : XState) (hlt : st.written < sz) (hinv : st.written = st.out.length) :
    (extract_indirect disk sz data_start data_end indir st).state.written
        = (extract_indirect disk sz data_start data_end indir st).state.out.length ∧
    (extract_indirect disk sz data_start data_end indir st).state.written ≤ sz := by
  unfold extract_indirect
  split
  · exact ⟨hinv, Nat.le_of_lt hlt⟩
  · split
    · exact ⟨hinv, Nat.le_of_lt hlt⟩
    · cases read_sector disk indir with
      | none => exact ⟨hinv, Nat.le_of_lt hlt⟩
      | some indirbuf =>
        exact extract_loop_bounded _ sz
          (fun e s hl hi => extract_sector_bounded disk sz data_start data_end _ s hl hi)
          _ st hinv (by omega)

theorem extract_blocks_bounded (disk : Disk) (fino : idisk_t) (sz data_start data_end : Nat) :
    (extract_blocks disk fino sz data_start data_end).state.written
        = (extract_blocks disk fino sz data_start data_end).state.out.length ∧
    (extract_blocks disk fino sz data_start data_end).state.written ≤ sz := by
  unfold extract_blocks
  split
  · exact extract_loop_bounded _ sz
      (fun k s hl hi => extract_sector_bounded disk sz data_start data_end _ s hl hi)
      _ _ rfl (Nat.zero_le _)
  · exact extract_loop_bounded _ sz
      (fun k s hl hi => extract_indirect_bounded disk sz data_start data_end _ s hl hi)
      _ _ rfl (Nat.zero_le _)

theorem extract_loop_guarded (body : Nat → XState → XStep) (sz : Nat) :
    ∀ (is : List Nat) (st : XState),
      extract_loop body sz is st
        = extract_loop (fun i s => if s.written < sz then body i s else XStep.ok s) sz is st := by
  intro is
  induction is with
  | nil => intro st; rfl
  | cons i is ih =>
    intro st
    simp only [extract_loop]
    by_cases hlt : st.written < sz
    · simp only [if_pos hlt]
      cases body i st with
      | fail e => rfl
      | ok st1 => exact ih st1
    · simp only [if_neg hlt]
/-- C32: for every inode and every image, on every path through
`extract_file_to_stdout` (return 0 or -1) the number of bytes written is at
most the inode's recorded size; at the end of the block loops `written` is the
number of bytes written and is at most the size; every write is of the first
`min(512, size - written)` bytes of the sector read; and the loops run their
body only while `written < size`, so `size - written` is never taken with
`written` above `size`. -/
theorem extract_within_size (disk : Disk) (inodes : Nat → idisk_t)
    (inode_count ino data_start data_end : Nat) :
    (extract_file_to_stdout disk inodes inode_count ino data_start data_end).2.length
      ≤ inode_size_bytes (inodes ino) ∧
    ((extract_blocks disk (inodes ino) (inode_size_bytes (inodes ino)) data_start
        data_end).state.written
      = (extract_blocks disk (inodes ino) (inode_size_bytes (inodes ino)) data_start
          data_end).state.out.length ∧
     (extract_blocks disk (inodes ino) (inode_size_bytes (inodes ino)) data_start
        data_end).state.written ≤ inode_size_bytes (inodes ino)) ∧
    (∀ (sz sec : Nat) (st : XState) (buf : Sector), sec ≠ 0 → data_start ≤ sec →
      sec ≤ data_end → read_sector disk sec = some buf →
      extract_sector disk sz data_start data_end sec st
        = XStep.ok { written := st.written + min 512 (sz - st.written),
                     out := st.out ++ (List.range (min 512 (sz - st.written))).map buf }) ∧
    (∀ (body : Nat → XState → XStep) (sz : Nat) (is : List Nat) (st : XState),
      extract_loop body sz is st
        = extract_loop (fun i s => if s.written < sz then body i s else XStep.ok s)
            sz is st) := by
  have hb := extract_blocks_bounded disk (inodes ino) (inode_size_bytes (inodes ino))
    data_start data_end
  refine ⟨?_, hb, ?_, extract_loop_guarded⟩
  · unfold extract_file_to_stdout
    split
    · exact Nat.zero_le _
    · split
      · exact Nat.zero_le _
      · split
        · exact Nat.zero_le _
        · cases hx : extract_blocks disk (inodes ino) (inode_size_bytes (inodes ino))
              data_start data_end with
          | ok st =>
            rw [hx] at hb
            simp only [XStep.state] at hb
            simp only []
            omega
          | fail st =>
            rw [hx] at hb
            simp only [XStep.state] at hb
            simp only []
            omega
  · intro sz sec st buf h0 hge hle hread
    have hr : ¬ (sec < data_start ∨ sec > data_end) := by omega
    have hm : (if sz - st.written > 512 then 512 else sz - st.written)
        = min 512 (sz - st.written) := by
      split <;> omega
    unfold extract_sector
    rw [if_neg h0, if_neg hr, hread]
    simp only [hm]

/-! ## Lookup as a search over the entries -/

theorem first_hit_eq_findSome (f : Nat → Option Nat) (hf : ∀ i v, f i = some v → v ≠ 0)
    (is : List Nat) :
    first_hit (fun i => (f i).getD 0) is = (is.findSome? f).getD 0 := by
  induction is with
  | nil => rfl
  | cons i is ih =>
    simp only [first_hit, List.findSome?_cons]
    cases hi : f i with
    | none => simp [ih]
    | some v =>
      have := hf i v hi
      simp [this]

theorem hit_slot_ne_zero (name : List Nat) (secbuf : Sector) (e v : Nat)
    (h : hit_slot name secbuf e = some v) : v ≠ 0 := by
  unfold hit_slot at h
  split at h
  · rename_i hne
    simp only [Option.some.injEq] at h
    rw [← h]; exact hne
  · cases h

theorem hit_slot_getD (name : List Nat) (secbuf : Sector) (e : Nat) :
    (hit_slot name secbuf e).getD 0 = check_entry secbuf name e := by
  unfold hit_slot
  split
  · rfl
  · rename_i h
    simp only [ne_eq, not_not] at h
    simp [h]

theorem check_sector_eq_scan (disk : Disk) (sec : Nat) (name : List Nat)
    (data_start data_end : Nat) :
    check_sector disk sec name data_start data_end
      = (scan_data disk (hit_slot name) sec data_start data_end).getD 0 := by
  unfold check_sector scan_data
  split
  · rfl
  · split
    · rfl
    · cases read_sector disk sec with
      | none => rfl
      | some secbuf =>
        simp only [scan_slots]
        rw [← first_hit_eq_findSome _ (fun e v h => hit_slot_ne_zero name secbuf e v h)]
        exact first_hit_congr _ _ _ (fun e _ => (hit_slot_getD name secbuf e).symm)

theorem find_in_indirect_eq_scan (disk : Disk) (indir : Nat) (name : List Nat)
    (data_start data_end : Nat) :
    find_in_indirect disk indir name data_start data_end
      = (scan_indirect disk (hit_slot name) indir data_start data_end).getD 0 := by
  unfold find_in_indirect scan_indirect
  split
  · rfl
  · split
    · rfl
    · cases read_sector disk indir with
      | none => rfl
      | some indirbuf =>
        simp only []
        rw [← first_hit_eq_findSome _ (fun e v h => by
          obtain ⟨secbuf, e2, h2⟩ := scan_data_some disk (hit_slot name) _ data_start data_end v h
          exact hit_slot_ne_zero name secbuf e2 v h2)]
        exact first_hit_congr _ _ _ (fun e _ =>
          check_sector_eq_scan disk _ name data_start data_end)

theorem find_in_dir_eq_scan (disk : Disk) (inodes : Nat → idisk_t) (inode_count dirino : Nat)
    (name : List Nat) (data_start data_end : Nat)
    (hlo : 1 ≤ dirino) (hhi : dirino ≤ inode_count)
    (hdir : (inodes dirino).i_mode &&& IFMT = IFDIR) :
    find_in_dir disk inodes inode_count dirino name data_start data_end
      = (scan_dir disk (hit_slot name) (inodes dirino) data_start data_end).getD 0 := by
  have hr : ¬ (dirino < 1 ∨ dirino > inode_count) := by omega
  unfold find_in_dir scan_dir
  rw [if_neg hr]
  simp only [hdir, ne_eq, not_true_eq_false, if_false]
  split
  · rw [← first_hit_eq_findSome _ (fun k v h => by
      obtain ⟨secbuf, e2, h2⟩ := scan_data_some disk (hit_slot name) _ data_start data_end v h
      exact hit_slot_ne_zero name secbuf e2 v h2)]
    exact first_hit_congr _ _ _ (fun k _ =>
      check_sector_eq_scan disk _ name data_start data_end)
  · rw [← first_hit_eq_findSome _ (fun k v h => by
      obtain ⟨secbuf, e2, h2⟩ :=
        scan_indirect_some disk (hit_slot name) _ data_start data_end v h
      exact hit_slot_ne_zero name secbuf e2 v h2)]
    exact first_hit_congr _ _ _ (fun k _ =>
      find_in_indirect_eq_scan disk _ name data_start data_end)

theorem spec_lookup_hit (en : Nat × List Nat) (rest : List (Nat × List Nat)) (name : List Nat)
    (h : (strncmp en.2 name 14 == 0) = true) : spec_lookup (en :: rest) name = en.1 := by
  unfold spec_lookup
  rw [List.find?_cons, h]

theorem spec_lookup_miss (en : Nat × List Nat) (rest : List (Nat × List Nat)) (name : List Nat)
    (h : (strncmp en.2 name 14 == 0) = false) :
    spec_lookup (en :: rest) name = spec_lookup rest name := by
  unfold spec_lookup
  rw [List.find?_cons, h]

theorem lookup_slots_eq (name : List Nat) (slots : List (Sector × Nat)) :
    (slots.findSome? (fun s => hit_slot name s.1 s.2)).getD 0
      = spec_lookup (slots.filterMap
          (fun s => if entry_ino s.1 s.2 = 0 then none
            else some (entry_ino s.1 s.2, entry_nm s.1 s.2))) name := by
  induction slots with
  | nil => rfl
  | cons s rest ih =>
    rw [List.findSome?_cons]
    by_cases h0 : entry_ino s.1 s.2 = 0
    · have hv : hit_slot name s.1 s.2 = none := by simp [hit_slot, check_entry, h0]
      rw [hv, List.filterMap_cons_none (by simp only [h0, if_true])]
      exact ih
    · have he : (fun s : Sector × Nat => if entry_ino s.1 s.2 = 0 then none
            else some (entry_ino s.1 s.2, entry_nm s.1 s.2)) s
          = some (entry_ino s.1 s.2, entry_nm s.1 s.2) := if_neg h0
      rw [@List.filterMap_cons_some _ _ (fun s : Sector × Nat =>
        if entry_ino s.1 s.2 = 0 then none else some (entry_ino s.1 s.2, entry_nm s.1 s.2))
        s rest _ he]
      by_cases hm : strncmp (entry_nm s.1 s.2) name 14 = 0
      · have hv : hit_slot name s.1 s.2 = some (entry_ino s.1 s.2) := by
          simp [hit_slot, check_entry, h0, hm]
        rw [hv, spec_lookup_hit _ _ _ (by simp [hm])]
        rfl
      · have hv : hit_slot name s.1 s.2 = none := by
          simp [hit_slot, check_entry, h0, hm]
        rw [hv, spec_lookup_miss _ _ _ (by simp [hm])]
        exact ih

/-- `find_in_dir` on an in-range directory is the lookup over the entries of
the directory in on-disk order. -/
theorem find_in_dir_eq_lookup (disk : Disk) (inodes : Nat → idisk_t)
    (inode_count dirino : Nat) (name : List Nat) (data_start data_end : Nat)
    (hlo : 1 ≤ dirino) (hhi : dirino ≤ inode_count)
    (hdir : (inodes dirino).i_mode &&& IFMT = IFDIR) :
    find_in_dir disk inodes inode_count dirino name data_start data_end
      = spec_lookup (dir_entries disk (inodes dirino) data_start data_end) name := by
  rw [find_in_dir_eq_scan disk inodes inode_count dirino name data_start data_end hlo hhi hdir,
    scan_dir_eq_slots]
  exact lookup_slots_eq name _
theorem check_sector_bad (disk : Disk) (sec : Nat) (name : List Nat) (data_start data_end : Nat)
    (h : good_pointer data_start data_end sec = false) :
    check_sector disk sec name data_start data_end = 0 := by
  unfold check_sector
  by_cases h0 : sec = 0
  · rw [if_pos h0]
  · rw [if_neg h0]
    have hr : sec < data_start ∨ sec > data_end := by
      simp only [good_pointer, Bool.and_eq_false_iff, bne_eq_false_iff_eq,
        decide_eq_false_iff_not] at h
      omega
    rw [if_pos hr]

theorem find_in_indirect_bad (disk : Disk) (indir : Nat) (name : List Nat)
    (data_start data_end : Nat) (h : good_pointer data_start data_end indir = false) :
    find_in_indirect disk indir name data_start data_end = 0 := by
  unfold find_in_indirect
  by_cases h0 : indir = 0
  · rw [if_pos h0]
  · rw [if_neg h0]
    have hr : indir < data_start ∨ indir > data_end := by
      simp only [good_pointer, Bool.and_eq_false_iff, bne_eq_false_iff_eq,
        decide_eq_false_iff_not] at h
      omega
    rw [if_pos hr]
/-- C29: for every directory inode in range and every name, `find_in_dir`
returns the i-number of the first entry with non-zero i-number whose name
compares equal, among the entries of the sectors that a scan can follow (0 when
there is none): a zero or out-of-range `i_addr[k]`, indirect-sector pointer or
indirect entry is skipped and the search goes on with the pointers after it,
so the result is the search over the good pointers only, and the same as with
every bad pointer replaced by zero; a slot whose i-number is 0 yields nothing
whatever its name field. -/
theorem find_in_dir_skips_bad (disk : Disk) (inodes : Nat → idisk_t)
    (inode_count dirino : Nat) (name : List Nat) (data_start data_end : Nat)
    (hlo : 1 ≤ dirino) (hhi : dirino ≤ inode_count)
    (hdir : (inodes dirino).i_mode &&& IFMT = IFDIR) :
    find_in_dir disk inodes inode_count dirino name data_start data_end
      = spec_lookup (dir_entries disk (inodes dirino) data_start data_end) name ∧
    find_in_dir disk inodes inode_count dirino name data_start data_end
      = (if (inodes dirino).i_mode &&& ILARG = 0 then
          first_hit (fun k => check_sector disk ((inodes dirino).i_addr k) name
              data_start data_end)
            ((List.range 8).filter
              (fun k => good_pointer data_start data_end ((inodes dirino).i_addr k)))
        else
          first_hit (fun k => find_in_indirect disk ((inodes dirino).i_addr k) name
              data_start data_end)
            ((List.range 8).filter
              (fun k => good_pointer data_start data_end ((inodes dirino).i_addr k)))) ∧
    (∀ (indir : Nat) (indirbuf : Sector), good_pointer data_start data_end indir = true →
      read_sector disk indir = some indirbuf →
      find_in_indirect disk indir name data_start data_end
        = first_hit (fun e => check_sector disk (le16 indirbuf (e * 2)) name
              data_start data_end)
            ((List.range 256).filter
              (fun e => good_pointer data_start data_end (le16 indirbuf (e * 2))))) ∧
    find_in_dir disk inodes inode_count dirino name data_start data_end
      = find_in_dir disk (fun i => clean_inode data_start data_end (inodes i)) inode_count
          dirino name data_start data_end ∧
    (∀ (indir : Nat) (indirbuf : Sector), good_pointer data_start data_end indir = true →
      read_sector disk indir = some indirbuf →
      find_in_indirect disk indir name data_start data_end
        = first_hit (fun e => check_sector disk
            (zero_if_bad data_start data_end (le16 indirbuf (e * 2))) name data_start data_end)
          (List.range 256)) ∧
    (∀ (secbuf : Sector) (e : Nat), entry_ino secbuf e = 0 → check_entry secbuf name e = 0) ∧
    (∀ (secbuf : Sector),
      first_hit (check_entry secbuf name) (List.range 32)
        = first_hit (check_entry secbuf name)
            ((List.range 32).filter (fun e => entry_ino secbuf e != 0))) := by
  have hr : ¬ (dirino < 1 ∨ dirino > inode_count) := by omega
  have hgood : ∀ indir, good_pointer data_start data_end indir = true →
      indir ≠ 0 ∧ ¬ (indir < data_start ∨ indir > data_end) := by
    intro indir h
    simp only [good_pointer, Bool.and_eq_true, bne_iff_ne, ne_eq, decide_eq_true_eq] at h
    exact ⟨h.1.1, by omega⟩
  refine ⟨find_in_dir_eq_lookup disk inodes inode_count dirino name data_start data_end
    hlo hhi hdir, ?_, ?_, ?_, ?_, ?_, ?_⟩
  · unfold find_in_dir
    rw [if_neg hr]
    simp only [hdir, ne_eq, not_true_eq_false, if_false]
    split
    · exact first_hit_filter _ _ _ (fun k _ hk =>
        check_sector_bad disk _ name data_start data_end hk)
    · exact first_hit_filter _ _ _ (fun k _ hk =>
        find_in_indirect_bad disk _ name data_start data_end hk)
  · intro indir indirbuf hg hread
    obtain ⟨h0, hrg⟩ := hgood indir hg
    unfold find_in_indirect
    rw [if_neg h0, if_neg hrg, hread]
    exact first_hit_filter _ _ _ (fun e _ he =>
      check_sector_bad disk _ name data_start data_end he)
  · unfold find_in_dir
    split
    · rfl
    · simp only [clean_inode]
      split
      · rfl
      · split
        · exact first_hit_congr _ _ _ (fun k _ =>
            (check_sector_zero_if_bad disk _ name data_start data_end).symm)
        · exact first_hit_congr _ _ _ (fun k _ =>
            (find_in_indirect_zero_if_bad disk _ name data_start data_end).symm)
  · intro indir indirbuf hg hread
    obtain ⟨h0, hrg⟩ := hgood indir hg
    unfold find_in_indirect
    rw [if_neg h0, if_neg hrg, hread]
    exact first_hit_congr _ _ _ (fun e _ =>
      (check_sector_zero_if_bad disk _ name data_start data_end).symm)
  · intro secbuf e h
    simp [check_entry, h]
  · intro secbuf
    apply first_hit_filter
    intro e _ he
    have : entry_ino secbuf e = 0 := by simpa using he
    simp [check_entry, this]

theorem find_in_dir_skips_bad_witness :
    1 ≤ 1 ∧ 1 ≤ 16 ∧ (gap_inodes 1).i_mode &&& IFMT = IFDIR ∧
    good_pointer 3 9 ((gap_inodes 1).i_addr 0) = false ∧
    good_pointer 3 9 ((gap_inodes 1).i_addr 1) = false ∧
    find_in_dir gap_disk gap_inodes 16 1 [97] 3 9 = 2 ∧
    find_in_dir gap_disk gap_inodes 16 1 [97] 3 9
      = spec_lookup (dir_entries gap_disk (gap_inodes 1) 3 9) [97] ∧
    (gap_inodes 2).i_mode &&& ILARG ≠ 0 ∧
    good_pointer 3 9 ((gap_inodes 2).i_addr 0) = false ∧
    find_in_dir gap_disk gap_inodes 16 2 [98] 3 9 = 3 ∧
    find_in_dir gap_disk gap_inodes 16 2 [98] 3 9
      = spec_lookup (dir_entries gap_disk (gap_inodes 2) 3 9) [98] :=
  ⟨by decide, by decide, by decide, by decide, by decide, by decide,
    (find_in_dir_skips_bad gap_disk gap_inodes 16 1 [97] 3 9 (by decide) (by decide)
      (by decide)).1,
    by decide, by decide, by decide,
    (find_in_dir_skips_bad gap_disk gap_inodes 16 2 [98] 3 9 (by decide) (by decide)
      (by decide)).1⟩

/-! ## The value of the parent walk -/

theorem canonical_walk_root (disk : Disk) (inodes : Nat → idisk_t) (inode_count : Nat)
    (data_start data_end slots : Nat) (comps : List (List Nat)) :
    canonical_walk disk inodes inode_count data_start data_end slots 1 comps
      = Outcome.ok comps := by
  unfold canonical_walk
  simp

theorem canonical_walk_push (disk : Disk) (inodes : Nat → idisk_t) (inode_count : Nat)
    (data_start data_end slots cur parent : Nat) (nm : List Nat) (comps : List (List Nat))
    (hcur0 : cur ≠ 0) (hcur1 : cur ≠ 1)
    (hdd : spec_dotdot (dir_entries disk (inodes cur) data_start data_end) = some parent)
    (hple : parent ≤ inode_count)
    (hnm : spec_forward_name (dir_entries disk (inodes parent) data_start data_end) cur
      = some nm) :
    parent ≠ 0 ∧
    canonical_walk disk inodes inode_count data_start data_end (slots + 1) cur comps
      = canonical_walk disk inodes inode_count data_start data_end slots parent
          (comps ++ [nm]) := by
  rw [← scan_dotdot_eq] at hdd
  rw [← scan_forward_eq disk _ data_start data_end cur hcur0] at hnm
  have hp0 : parent ≠ 0 := dotdot_parent_ne_zero disk _ data_start data_end parent hdd
  have hgt : ¬ parent > inode_count := by omega
  refine ⟨hp0, ?_⟩
  conv => lhs; unfold canonical_walk
  simp only [hcur1, if_false, hdd, hp0, hgt, hnm]

theorem canonical_walk_of_parent_chain (disk : Disk) (inodes : Nat → idisk_t)
    (inode_count data_start data_end cur : Nat) (names : List (List Nat))
    (h : ParentChain disk inodes inode_count data_start data_end cur names) :
    ∀ (slots : Nat) (comps : List (List Nat)), cur ≠ 0 → names.length ≤ slots →
      canonical_walk disk inodes inode_count data_start data_end slots cur comps
        = Outcome.ok (comps ++ names.reverse) := by
  induction h with
  | root =>
    intro slots comps _ _
    rw [canonical_walk_root]
    simp
  | step cur parent nm names hne hdd hple hnm _ ih =>
    intro slots comps hcur hlen
    cases slots with
    | zero => simp at hlen
    | succ s =>
      obtain ⟨hp0, hstep⟩ := canonical_walk_push disk inodes inode_count data_start data_end
        s cur parent nm comps hcur hne hdd hple hnm
      rw [hstep, ih s (comps ++ [nm]) hp0 (by simpa using hlen)]
      simp
/-- C26: at the root the walk of `canonical_path` is over and returns the
components pushed so far.  In a step from `cur` (not the root) to `parent`
(the i-number of the first ".." entry of `cur`, an inode of the table), the
component pushed is the name of the first entry of `parent`, in on-disk order,
whose i-number is `cur` and whose name is neither "." nor ".."; when `cur`
has no ".." entry, or `parent` has no such entry, the walk and
`canonical_path` return NULL.  Along the chain of parents so defined the walk
returns the names in push order, and `canonical_path` the path assembled
from them. -/
theorem canonical_walk_step (disk : Disk) (inodes : Nat → idisk_t) (inode_count : Nat)
    (data_start data_end cur : Nat) (comps : List (List Nat))
    (hcur0 : cur ≠ 0) (hcur1 : cur ≠ 1) :
    (∀ slots, canonical_walk disk inodes inode_count data_start data_end slots 1 comps
      = Outcome.ok comps) ∧
    (spec_dotdot (dir_entries disk (inodes cur) data_start data_end) = none →
      (∀ slots, canonical_walk disk inodes inode_count data_start data_end slots cur comps
        = Outcome.null) ∧
      canonical_path disk inodes inode_count cur data_start data_end = Outcome.null) ∧
    (∀ parent, spec_dotdot (dir_entries disk (inodes cur) data_start data_end) = some parent →
      parent ≤ inode_count →
      (spec_forward_name (dir_entries disk (inodes parent) data_start data_end) cur = none →
        (∀ slots, canonical_walk disk inodes inode_count data_start data_end slots cur comps
          = Outcome.null) ∧
        canonical_path disk inodes inode_count cur data_start data_end = Outcome.null) ∧
      (∀ nm, spec_forward_name (dir_entries disk (inodes parent) data_start data_end) cur
          = some nm →
        ∀ slots, canonical_walk disk inodes inode_count data_start data_end (slots + 1) cur comps
          = canonical_walk disk inodes inode_count data_start data_end slots parent
              (comps ++ [nm]))) ∧
    (∀ names, ParentChain disk inodes inode_count data_start data_end cur names →
      (∀ slots, names.length ≤ slots →
        canonical_walk disk inodes inode_count data_start data_end slots cur comps
          = Outcome.ok (comps ++ names.reverse)) ∧
      (cur ≤ inode_count → names.length ≤ inode_count + 2 →
        canonical_path disk inodes inode_count cur data_start data_end
          = Outcome.ok (assemble names.reverse))) := by
  refine ⟨fun slots => canonical_walk_root disk inodes inode_count data_start data_end
    slots comps, ?_, ?_, ?_⟩
  · intro h
    refine ⟨fun slots => canonical_walk_no_dotdot disk inodes inode_count data_start data_end
      slots cur comps hcur1 h, ?_⟩
    unfold canonical_path
    split
    · rfl
    · rw [canonical_walk_no_dotdot disk inodes inode_count data_start data_end
        _ cur [] hcur1 h]
  · intro parent hdd hple
    refine ⟨?_, ?_⟩
    · intro h
      refine ⟨fun slots => canonical_walk_no_forward disk inodes inode_count data_start
        data_end slots cur parent comps hcur0 hcur1 hdd hple h, ?_⟩
      unfold canonical_path
      split
      · rfl
      · rw [canonical_walk_no_forward disk inodes inode_count data_start data_end
          _ cur parent [] hcur0 hcur1 hdd hple h]
    · intro nm hnm slots
      exact (canonical_walk_push disk inodes inode_count data_start data_end slots cur parent
        nm comps hcur0 hcur1 hdd hple hnm).2
  · intro names hchain
    refine ⟨fun slots hlen => canonical_walk_of_parent_chain disk inodes inode_count
      data_start data_end cur names hchain slots comps hcur0 hlen, ?_⟩
    intro hhi hlen
    have hr : ¬ (cur < 1 ∨ cur > inode_count) := by omega
    have hw := canonical_walk_of_parent_chain disk inodes inode_count data_start data_end
      cur names hchain (inode_count + 2) [] hcur0 hlen
    rw [List.nil_append] at hw
    simp only [canonical_path, hr, hcur1, if_false, hw]

theorem canonical_walk_step_witness :
    (7 : Nat) ≠ 0 ∧ (7 : Nat) ≠ 1 ∧
    spec_dotdot (dir_entries twin_disk (twin_inodes 7) 3 11) = some 6 ∧
    spec_forward_name (dir_entries twin_disk (twin_inodes 6) 3 11) 7 = some [113] ∧
    spec_dotdot (dir_entries twin_disk (twin_inodes 6) 3 11) = some 1 ∧
    spec_forward_name (dir_entries twin_disk (twin_inodes 1) 3 11) 6 = some [112] ∧
    canonical_walk twin_disk twin_inodes 16 3 11 (16 + 2) 7 []
      = Outcome.ok ([] ++ (([] ++ [[112]]) ++ [[113]]).reverse) ∧
    canonical_path twin_disk twin_inodes 16 7 3 11
      = Outcome.ok (assemble (([] ++ [[112]]) ++ [[113]]).reverse) ∧
    assemble (([] ++ [[112]]) ++ [[113]]).reverse = [SLASH, 112, SLASH, 113, SLASH] :=
  ⟨by decide, by decide, by decide, by decide, by decide, by decide,
    ((canonical_walk_step twin_disk twin_inodes 16 3 11 7 [] (by decide) (by decide)).2.2.2
      (([] ++ [[112]]) ++ [[113]])
      (ParentChain.step 7 6 [113] ([] ++ [[112]]) (by decide) (by decide) (by decide)
        (by decide)
        (ParentChain.step 6 1 [112] [] (by decide) (by decide) (by decide) (by decide)
          ParentChain.root))).1 (16 + 2) (by decide),
    ((canonical_walk_step twin_disk twin_inodes 16 3 11 7 [] (by decide) (by decide)).2.2.2
      (([] ++ [[112]]) ++ [[113]])
      (ParentChain.step 7 6 [113] ([] ++ [[112]]) (by decide) (by decide) (by decide)
        (by decide)
        (ParentChain.step 6 1 [112] [] (by decide) (by decide) (by decide) (by decide)
          ParentChain.root))).2 (by decide) (by decide),
    by decide⟩

/-! ## The round trip from the directory entries -/

theorem entry_name_cstr (disk : Disk) (din : idisk_t) (data_start data_end : Nat)
    (en : Nat × List Nat) (h : en ∈ dir_entries disk din data_start data_end) :
    cstr_of_bytes en.2 = en.2 ∧ en.2.length ≤ 14 := by
  obtain ⟨s, _, _, hse⟩ := entry_slot_mem disk din data_start data_end en h
  rw [hse]
  exact ⟨cstr_of_bytes_idem _, entry_nm_length s.1 s.2⟩

theorem strncmp_names (a b : List Nat) (ha : cstr_of_bytes a = a ∧ a.length ≤ 14)
    (hb : cstr_of_bytes b = b ∧ b.length ≤ 14) : strncmp a b 14 = 0 ↔ a = b := by
  rw [strncmp_zero_iff, ha.1, hb.1, List.take_of_length_le ha.2, List.take_of_length_le hb.2]

theorem forward_entry_mem (entries : List (Nat × List Nat)) (cur : Nat) (nm : List Nat)
    (h : spec_forward_name entries cur = some nm) : (cur, nm) ∈ entries := by
  unfold spec_forward_name at h
  cases hf : entries.find? (fun en => en.1 == cur && !(en.2 == [DOT] || en.2 == [DOT, DOT])) with
  | none => rw [hf] at h; cases h
  | some en =>
    rw [hf] at h
    simp only [Option.map_some', Option.some.injEq] at h
    have hp := List.find?_some hf
    have hm := List.mem_of_find?_eq_some hf
    simp only [Bool.and_eq_true, beq_iff_eq] at hp
    have : en = (cur, nm) := by
      obtain ⟨e1, e2⟩ := en
      simp only [] at hp h
      rw [hp.1, h]
    rw [← this]
    exact hm

theorem spec_lookup_unique (disk : Disk) (din : idisk_t) (data_start data_end cur : Nat)
    (nm : List Nat) (hmem : (cur, nm) ∈ dir_entries disk din data_start data_end)
    (huniq : ∀ en ∈ dir_entries disk din data_start data_end, en.2 = nm → en.1 = cur) :
    spec_lookup (dir_entries disk din data_start data_end) nm = cur := by
  have hnm := entry_name_cstr disk din data_start data_end (cur, nm) hmem
  unfold spec_lookup
  cases hf : (dir_entries disk din data_start data_end).find?
      (fun en => strncmp en.2 nm 14 == 0) with
  | none =>
    have := List.find?_eq_none.mp hf (cur, nm) hmem
    simp only [beq_iff_eq] at this
    exact absurd ((strncmp_names nm nm hnm hnm).mpr rfl) this
  | some en =>
    have hp := List.find?_some hf
    have hm := List.mem_of_find?_eq_some hf
    simp only [beq_iff_eq] at hp
    exact huniq en hm
      ((strncmp_names en.2 nm (entry_name_cstr disk din data_start data_end en hm) hnm).mp hp)

theorem up_chain_of_tree_chain (disk : Disk) (inodes : Nat → idisk_t)
    (inode_count data_start data_end cur : Nat) (names : List (List Nat))
    (h : TreeChain disk inodes inode_count data_start data_end cur names) :
    cur ≠ 0 → UpChain disk inodes inode_count data_start data_end cur names := by
  induction h with
  | root => intro _; exact UpChain.root
  | step cur parent nm names hne hdd hple hdir hnm huniq hnn hsl _ ih =>
    intro hcur
    have hdd2 := hdd
    rw [← scan_dotdot_eq] at hdd2
    have hnm2 := hnm
    rw [← scan_forward_eq disk _ data_start data_end cur hcur] at hnm2
    have hp0 : parent ≠ 0 := dotdot_parent_ne_zero disk _ data_start data_end parent hdd2
    have hfind : find_in_dir disk inodes inode_count parent nm data_start data_end = cur := by
      rw [find_in_dir_eq_lookup disk inodes inode_count parent nm data_start data_end
        (by omega) hple hdir]
      exact spec_lookup_unique disk _ data_start data_end cur nm
        (forward_entry_mem _ cur nm hnm) huniq
    exact UpChain.step cur parent nm names hne hdd2 hnm2 hfind hnn hsl (ih hp0)
/-- C7, as stated, fails.  In the sample image `/e` resolves to directory 4,
which has no ".." entry, and `canonical_path(4)` returns NULL.  In the image
with ambiguous names: `/b` resolves to directory 2, whose first entry in the
root is named `a` like an earlier entry for inode 3, so `canonical_path(2)` is
"/a/", which resolves to 3; `/c` resolves to directory 4, whose first name is
`x/`, and "/x/" does not resolve; `/d` resolves to directory 5, whose first
name is empty, so `canonical_path(5)` is "/", which resolves to 1; `/r`
resolves to directory 8, whose ".." names the regular file 9, and
`canonical_path(8)` is "/f/r/", which does not resolve. -/
theorem canonical_path_round_trip_fails :
    (resolve_pathname sample_disk sample_inodes 16 [SLASH, 101] 3 9 = some 4 ∧
      (sample_inodes 4).i_mode &&& IFMT = IFDIR ∧
      canonical_path sample_disk sample_inodes 16 4 3 9 = Outcome.null) ∧
    (resolve_pathname twin_disk twin_inodes 16 [SLASH, 98] 3 11 = some 2 ∧
      (twin_inodes 2).i_mode &&& IFMT = IFDIR ∧
      canonical_path twin_disk twin_inodes 16 2 3 11 = Outcome.ok [SLASH, 97, SLASH] ∧
      resolve_pathname twin_disk twin_inodes 16 [SLASH, 97, SLASH] 3 11 = some 3) ∧
    (resolve_pathname twin_disk twin_inodes 16 [SLASH, 99] 3 11 = some 4 ∧
      (twin_inodes 4).i_mode &&& IFMT = IFDIR ∧
      canonical_path twin_disk twin_inodes 16 4 3 11 = Outcome.ok [SLASH, 120, SLASH] ∧
      resolve_pathname twin_disk twin_inodes 16 [SLASH, 120, SLASH] 3 11 = some 0) ∧
    (resolve_pathname twin_disk twin_inodes 16 [SLASH, 100] 3 11 = some 5 ∧
      (twin_inodes 5).i_mode &&& IFMT = IFDIR ∧
      canonical_path twin_disk twin_inodes 16 5 3 11 = Outcome.ok [SLASH] ∧
      resolve_pathname twin_disk twin_inodes 16 [SLASH] 3 11 = some 1) ∧
    (resolve_pathname twin_disk twin_inodes 16 [SLASH, 114] 3 11 = some 8 ∧
      (twin_inodes 8).i_mode &&& IFMT = IFDIR ∧
      canonical_path twin_disk twin_inodes 16 8 3 11
        = Outcome.ok [SLASH, 102, SLASH, 114, SLASH] ∧
      resolve_pathname twin_disk twin_inodes 16 [SLASH, 102, SLASH, 114, SLASH] 3 11
        = some 0) := by
  decide

/-- C7 (amended): for every image and every i-number `i` in `1..inode_count`
(in particular a directory reached by `resolve_pathname`) whose chain of
parents is well formed (`TreeChain`: each directory from `i` up to the root has
a ".." entry naming an inode of the table whose type is directory, and the
first entry of that parent for the child, other than "." and "..", has a name
that is not empty, has no '/', and is borne by no entry of the parent for
another inode), when the canonical path is shorter than 4096 bytes,
`canonical_path(i)` succeeds with a path `p'` (for `i ≠ 1` the canonical form
of the names on the chain) and `resolve_pathname(p') = i`. -/
theorem canonical_path_round_trip (disk : Disk) (inodes : Nat → idisk_t) (inode_count : Nat)
    (data_start data_end : Nat) (i : Nat) (names : List (List Nat))
    (hlo : 1 ≤ i) (hhi : i ≤ inode_count)
    (hchain : TreeChain disk inodes inode_count data_start data_end i names)
    (hlen : (spec_canonical names).length < 4096) :
    ∃ p', canonical_path disk inodes inode_count i data_start data_end = Outcome.ok p' ∧
      resolve_pathname disk inodes inode_count p' data_start data_end = some i ∧
      (i ≠ 1 → p' = spec_canonical names) :=
  round_trip_of_up_chain disk inodes inode_count data_start data_end i names hlo hhi
    (up_chain_of_tree_chain disk inodes inode_count data_start data_end i names hchain
      (by omega)) hlen

theorem canonical_path_round_trip_witness :
    1 ≤ 7 ∧ 7 ≤ 16 ∧
    TreeChain twin_disk twin_inodes 16 3 11 7 (([] ++ [[112]]) ++ [[113]]) ∧
    (spec_canonical (([] ++ [[112]]) ++ [[113]])).length < 4096 ∧
    spec_canonical (([] ++ [[112]]) ++ [[113]]) = [SLASH, 112, SLASH, 113, SLASH] ∧
    ∃ p', canonical_path twin_disk twin_inodes 16 7 3 11 = Outcome.ok p' ∧
      resolve_pathname twin_disk twin_inodes 16 p' 3 11 = some 7 ∧
      ((7 : Nat) ≠ 1 → p' = spec_canonical (([] ++ [[112]]) ++ [[113]])) :=
  ⟨by decide, by decide,
    TreeChain.step 7 6 [113] ([] ++ [[112]]) (by decide) (by decide) (by decide) (by decide)
      (by decide) (by decide) (by decide) (by decide)
      (TreeChain.step 6 1 [112] [] (by decide) (by decide) (by decide) (by decide)
        (by decide) (by decide) (by decide) (by decide) TreeChain.root),
    by decide, by decide,
    canonical_path_round_trip twin_disk twin_inodes 16 3 11 7 (([] ++ [[112]]) ++ [[113]])
      (by decide) (by decide)
      (TreeChain.step 7 6 [113] ([] ++ [[112]]) (by decide) (by decide) (by decide) (by decide)
        (by decide) (by decide) (by decide) (by decide)
        (TreeChain.step 6 1 [112] [] (by decide) (by decide) (by decide) (by decide)
          (by decide) (by decide) (by decide) (by decide) TreeChain.root))
      (by decide)⟩

end Dosiero
